import Mathlib

/-!
# todo.sh: the shared checklist store and the per-session view state machine

A shallow embedding of `main.go`.  The process-wide `appData` (two maps of pointers and
the ordered id slice), the objects those pointers refer to, and the data file are one
explicit `World` value that every key handler receives and returns.  A handler that would
panic in Go (index out of range, nil dereference, `make` with a negative capacity) returns
`Except.error`.  Each handler call is one atomic step on the world.
-/

namespace TodoSh

/-! ## Go values -/

/-- A Go `string`: an immutable sequence of bytes, `len` being the number of bytes. -/
abbrev GoString := List UInt8

/-- The bytes of an ASCII literal of the source. -/
def ascii (s : String) : GoString := s.toList.map (fun c => UInt8.ofNat c.toNat)

/-- Run-time panics the handlers can raise. -/
inductive Panic where
  | indexOutOfRange
  | nilDereference
  | makesliceCapOutOfRange
  deriving DecidableEq, Repr

/-- A Go `map[string]V` as an association list.  The maps of the program are created with
`make` and are never nil. -/
abbrev GoMap (V : Type) := List (GoString × V)

namespace GoMap

variable {V : Type}

/-- The lookup `m[k]` in its comma-ok form. -/
def get : GoMap V → GoString → Option V
  | [], _ => none
  | (k', v) :: rest, k => if k' = k then some v else get rest k

/-- The assignment `m[k] = v`. -/
def set : GoMap V → GoString → V → GoMap V
  | [], k, v => [(k, v)]
  | (k', v') :: rest, k, v => if k' = k then (k, v) :: rest else (k', v') :: set rest k v

/-- The builtin `delete(m, k)`. -/
def delete (m : GoMap V) (k : GoString) : GoMap V :=
  m.filter (fun e => decide (e.1 ≠ k))

/-- The key set of the map, in storage order. -/
def keys (m : GoMap V) : List GoString := m.map Prod.fst

end GoMap

/-- A non-nil pointer: the address of an object in the heap of its type. -/
abbrev Ptr := Nat

/-- Dereference of a possibly nil pointer.  An address outside the heap cannot be produced
by the program and is treated like nil. -/
def deref {α : Type} (heap : List α) (p : Option Ptr) : Except Panic α :=
  match p with
  | none => .error .nilDereference
  | some a =>
    match heap[a]? with
    | some x => .ok x
    | none => .error .nilDereference

/-- The slice index expression `xs[i]` with its bounds check. -/
def index {α : Type} (xs : List α) (i : Int) : Except Panic α :=
  if i < 0 then .error .indexOutOfRange
  else
    match xs[i.toNat]? with
    | some x => .ok x
    | none => .error .indexOutOfRange

/-! ## Data model (`main.go`, "Data models") -/

structure TodoItem where
  ID : GoString
  Name : GoString
  Description : GoString
  deriving DecidableEq, Repr

structure User where
  Username : GoString
  PublicKey : GoString
  IsAdmin : Bool
  Completions : GoMap Bool
  deriving DecidableEq, Repr

/-- The exported fields of `AppData`; the maps hold pointers. -/
structure AppData where
  Users : GoMap Ptr
  TodoItems : GoMap Ptr
  TodoOrder : List GoString
  deriving DecidableEq, Repr

/-- The document `json.MarshalIndent(appData, ...)` encodes: every pointer replaced by the
object it points to (`none` for a pointer that encodes as `null`). -/
structure FileImage where
  Users : List (GoString × Option User)
  TodoItems : List (GoString × Option TodoItem)
  TodoOrder : List GoString
  deriving DecidableEq, Repr

/-- Everything shared between sessions: `appData`, the `User` and `TodoItem` objects its
pointers (and the sessions' pointers) refer to, and the contents of `dataFile`. -/
structure World where
  appData : AppData
  userObjs : List User
  todoObjs : List TodoItem
  dataFile : Option FileImage
  deriving DecidableEq, Repr

/-- The state of `var appData` at process start, before any data file exists. -/
def World.empty : World :=
  { appData := { Users := [], TodoItems := [], TodoOrder := [] }
    userObjs := []
    todoObjs := []
    dataFile := none }

/-- The record stored for a public key, pointer resolved. -/
def World.userOf (w : World) (pk : GoString) : Option User :=
  match w.appData.Users.get pk with
  | none => none
  | some p => w.userObjs[p]?

/-- The item stored under an id, pointer resolved. -/
def World.itemOf (w : World) (id : GoString) : Option TodoItem :=
  match w.appData.TodoItems.get id with
  | none => none
  | some p => w.todoObjs[p]?

/-- The document written by `saveData`. -/
def marshal (w : World) : FileImage :=
  { Users := w.appData.Users.map (fun e => (e.1, w.userObjs[e.2]?))
    TodoItems := w.appData.TodoItems.map (fun e => (e.1, w.todoObjs[e.2]?))
    TodoOrder := w.appData.TodoOrder }

/-- The function `saveData`: rewrites the whole data file from `appData`; the in-memory
state is only read. -/
def saveData (w : World) : World :=
  { w with dataFile := some (marshal w) }

/-! ## TUI model -/

inductive viewMode where
  | usernameView
  | todoListView
  | todoDetailView
  | adminView
  | adminEditView
  | adminProgressView
  | adminDeleteConfirmView
  deriving DecidableEq, Repr

/-- The struct `model`; its `err` field is never read or written and is left out. -/
structure model where
  user : Option Ptr
  publicKey : GoString
  mode : viewMode
  cursor : Int
  input : GoString
  width : Int
  height : Int
  editingID : GoString
  editField : Int
  editName : GoString
  editDesc : GoString
  selectedTodo : Option Ptr
  deleteConfirmID : GoString
  deriving DecidableEq, Repr

/-- The key types of the terminal library that the handlers distinguish. -/
inductive KeyType where
  | KeyRunes
  | KeyCtrlC
  | KeyEsc
  | KeyEnter
  | KeyBackspace
  | KeyTab
  | KeyUp
  | KeyDown
  | KeyCtrlS
  deriving DecidableEq, Repr

/-- A key event as the handlers see it: its `Type` field (here `keyType`) and the text
its `String()` method returns. -/
structure KeyMsg where
  keyType : KeyType
  String : GoString
  deriving DecidableEq, Repr

/-- The messages `Update` receives. -/
inductive Msg where
  | WindowSizeMsg (Width Height : Int)
  | KeyMsg (k : KeyMsg)
  | other
  deriving DecidableEq, Repr

/-- The command returned next to the model: `nil` or `tea.Quit`. -/
inductive Cmd where
  | nil
  | Quit
  deriving DecidableEq, Repr

deriving instance DecidableEq for Except

/-- What a handler leaves behind: the returned model, the world, the returned command. -/
structure Step where
  m : model
  w : World
  cmd : Cmd
  deriving DecidableEq, Repr

/-- The function `initialModel`. -/
def initialModel (publicKey : GoString) (w : World) : Except Panic model :=
  let user := w.appData.Users.get publicKey
  let m : model :=
    { publicKey := publicKey, user := user, width := 80, height := 24,
      mode := .usernameView, cursor := 0, input := [], editingID := [], editField := 0,
      editName := [], editDesc := [], selectedTodo := none, deleteConfirmID := [] }
  match user with
  | none => .ok { m with mode := .usernameView }
  | some p =>
    match deref w.userObjs (some p) with
    | .error e => .error e
    | .ok u =>
      if u.IsAdmin then .ok { m with mode := .adminView }
      else .ok { m with mode := .todoListView }

/-- The method `updateUsernameView`. -/
def updateUsernameView (m : model) (w : World) (msg : KeyMsg) : Except Panic Step :=
  match msg.keyType with
  | .KeyCtrlC | .KeyEsc => .ok ⟨m, w, .Quit⟩
  | .KeyEnter =>
    if m.input ≠ [] then
      let isFirstUser : Bool := decide (w.appData.Users.length = 0)
      let user : User :=
        { Username := m.input, PublicKey := m.publicKey, IsAdmin := isFirstUser,
          Completions := [] }
      let p : Ptr := w.userObjs.length
      let w1 : World :=
        { w with
          userObjs := w.userObjs ++ [user]
          appData := { w.appData with Users := w.appData.Users.set m.publicKey p } }
      let w2 := saveData w1
      .ok ⟨{ m with
              user := some p
              mode := if isFirstUser then .adminView else .todoListView
              input := [] }, w2, .nil⟩
    else .ok ⟨m, w, .nil⟩
  | .KeyBackspace =>
    if m.input.length > 0 then .ok ⟨{ m with input := m.input.dropLast }, w, .nil⟩
    else .ok ⟨m, w, .nil⟩
  | _ =>
    if msg.String.length = 1 ∧ m.input.length < 20 then
      .ok ⟨{ m with input := m.input ++ msg.String }, w, .nil⟩
    else .ok ⟨m, w, .nil⟩

/-- The method `updateTodoListView`. -/
def updateTodoListView (m : model) (w : World) (msg : KeyMsg) : Except Panic Step :=
  let itemCount : Int := w.appData.TodoOrder.length
  let s := msg.String
  if s = ascii "q" ∨ s = ascii "ctrl+c" then .ok ⟨m, w, .Quit⟩
  else if s = ascii "up" ∨ s = ascii "k" then
    if m.cursor > 0 then .ok ⟨{ m with cursor := m.cursor - 1 }, w, .nil⟩
    else .ok ⟨m, w, .nil⟩
  else if s = ascii "down" ∨ s = ascii "j" then
    if m.cursor < itemCount - 1 then .ok ⟨{ m with cursor := m.cursor + 1 }, w, .nil⟩
    else .ok ⟨m, w, .nil⟩
  else if s = ascii "enter" then
    if itemCount > 0 ∧ m.cursor < itemCount then
      match index w.appData.TodoOrder m.cursor with
      | .error e => .error e
      | .ok todoID =>
        .ok ⟨{ m with
                selectedTodo := w.appData.TodoItems.get todoID
                mode := .todoDetailView }, w, .nil⟩
    else .ok ⟨m, w, .nil⟩
  else .ok ⟨m, w, .nil⟩

/-- The method `updateTodoDetailView`. -/
def updateTodoDetailView (m : model) (w : World) (msg : KeyMsg) : Except Panic Step :=
  let s := msg.String
  if s = ascii "q" ∨ s = ascii "esc" then
    .ok ⟨{ m with mode := .todoListView, selectedTodo := none }, w, .nil⟩
  else if s = ascii "c" ∨ s = ascii "enter" then
    match m.selectedTodo with
    | none => .ok ⟨m, w, .nil⟩
    | some t =>
      match deref w.todoObjs (some t) with
      | .error e => .error e
      | .ok todo =>
        match m.user with
        | none => .error .nilDereference
        | some up =>
          match deref w.userObjs (some up) with
          | .error e => .error e
          | .ok u =>
            let u1 : User := { u with Completions := u.Completions.set todo.ID true }
            let w1 : World := { w with userObjs := w.userObjs.set up u1 }
            .ok ⟨{ m with mode := .todoListView, selectedTodo := none }, saveData w1, .nil⟩
  else .ok ⟨m, w, .nil⟩

/-- The method `updateAdminView`. -/
def updateAdminView (m : model) (w : World) (msg : KeyMsg) : Except Panic Step :=
  let itemCount : Int := w.appData.TodoOrder.length
  let s := msg.String
  if s = ascii "q" ∨ s = ascii "ctrl+c" then .ok ⟨m, w, .Quit⟩
  else if s = ascii "up" ∨ s = ascii "k" then
    if m.cursor > 0 then .ok ⟨{ m with cursor := m.cursor - 1 }, w, .nil⟩
    else .ok ⟨m, w, .nil⟩
  else if s = ascii "down" ∨ s = ascii "j" then
    if m.cursor < itemCount - 1 then .ok ⟨{ m with cursor := m.cursor + 1 }, w, .nil⟩
    else .ok ⟨m, w, .nil⟩
  else if s = ascii "K" then
    if itemCount > 0 ∧ m.cursor > 0 then
      match index w.appData.TodoOrder (m.cursor - 1), index w.appData.TodoOrder m.cursor with
      | .error e, _ => .error e
      | .ok _, .error e => .error e
      | .ok prev, .ok cur =>
        let order := (w.appData.TodoOrder.set m.cursor.toNat prev).set (m.cursor - 1).toNat cur
        let w1 : World := { w with appData := { w.appData with TodoOrder := order } }
        .ok ⟨{ m with cursor := m.cursor - 1 }, saveData w1, .nil⟩
    else .ok ⟨m, w, .nil⟩
  else if s = ascii "J" then
    if itemCount > 0 ∧ m.cursor < itemCount - 1 then
      match index w.appData.TodoOrder (m.cursor + 1), index w.appData.TodoOrder m.cursor with
      | .error e, _ => .error e
      | .ok _, .error e => .error e
      | .ok next, .ok cur =>
        let order := (w.appData.TodoOrder.set m.cursor.toNat next).set (m.cursor + 1).toNat cur
        let w1 : World := { w with appData := { w.appData with TodoOrder := order } }
        .ok ⟨{ m with cursor := m.cursor + 1 }, saveData w1, .nil⟩
    else .ok ⟨m, w, .nil⟩
  else if s = ascii "a" then
    .ok ⟨{ m with
            mode := .adminEditView, editingID := [], editField := 0, editName := [],
            editDesc := [] }, w, .nil⟩
  else if s = ascii "e" then
    if itemCount > 0 ∧ m.cursor < itemCount then
      match index w.appData.TodoOrder m.cursor with
      | .error e => .error e
      | .ok todoID =>
        match deref w.todoObjs (w.appData.TodoItems.get todoID) with
        | .error e => .error e
        | .ok todo =>
          .ok ⟨{ m with
                  mode := .adminEditView, editingID := todoID, editField := 0,
                  editName := todo.Name, editDesc := todo.Description }, w, .nil⟩
    else .ok ⟨m, w, .nil⟩
  else if s = ascii "d" then
    if itemCount > 0 ∧ m.cursor < itemCount then
      match index w.appData.TodoOrder m.cursor with
      | .error e => .error e
      | .ok todoID =>
        .ok ⟨{ m with deleteConfirmID := todoID, mode := .adminDeleteConfirmView }, w, .nil⟩
    else .ok ⟨m, w, .nil⟩
  else if s = ascii "p" then
    .ok ⟨{ m with mode := .adminProgressView, cursor := 0 }, w, .nil⟩
  else .ok ⟨m, w, .nil⟩

/-- The id `fmt.Sprintf("todo_%d", time.Now().Unix())` for the clock reading `now`. -/
def newTodoID (now : Int) : GoString := ascii ("todo_" ++ toString now)

/-- The method `updateAdminEditView`; `now` is the value of `time.Now().Unix()`. -/
def updateAdminEditView (now : Int) (m : model) (w : World) (msg : KeyMsg) :
    Except Panic Step :=
  let s := msg.String
  if s = ascii "esc" then .ok ⟨{ m with mode := .adminView }, w, .nil⟩
  else if s = ascii "ctrl+c" then .ok ⟨m, w, .Quit⟩
  else if s = ascii "tab" then
    .ok ⟨{ m with editField := (m.editField + 1).tmod 2 }, w, .nil⟩
  else if s = ascii "enter" ∨ s = ascii "ctrl+s" then
    if m.editingID = [] then
      let id := newTodoID now
      let p : Ptr := w.todoObjs.length
      let item : TodoItem := { ID := id, Name := m.editName, Description := m.editDesc }
      let w1 : World :=
        { w with
          todoObjs := w.todoObjs ++ [item]
          appData :=
            { w.appData with
              TodoItems := w.appData.TodoItems.set id p
              TodoOrder := w.appData.TodoOrder ++ [id] } }
      .ok ⟨{ m with mode := .adminView }, saveData w1, .nil⟩
    else
      match w.appData.TodoItems.get m.editingID with
      | some p =>
        match deref w.todoObjs (some p) with
        | .error e => .error e
        | .ok todo =>
          let todo1 : TodoItem :=
            { todo with Name := m.editName, Description := m.editDesc }
          let w1 : World := { w with todoObjs := w.todoObjs.set p todo1 }
          .ok ⟨{ m with mode := .adminView }, saveData w1, .nil⟩
      | none => .ok ⟨{ m with mode := .adminView }, saveData w, .nil⟩
  else if s = ascii "backspace" then
    if m.editField = 0 ∧ m.editName.length > 0 then
      .ok ⟨{ m with editName := m.editName.dropLast }, w, .nil⟩
    else if m.editField = 1 ∧ m.editDesc.length > 0 then
      .ok ⟨{ m with editDesc := m.editDesc.dropLast }, w, .nil⟩
    else .ok ⟨m, w, .nil⟩
  else if s.length = 1 then
    if m.editField = 0 ∧ m.editName.length < 50 then
      .ok ⟨{ m with editName := m.editName ++ s }, w, .nil⟩
    else if m.editField = 1 ∧ m.editDesc.length < 200 then
      .ok ⟨{ m with editDesc := m.editDesc ++ s }, w, .nil⟩
    else .ok ⟨m, w, .nil⟩
  else .ok ⟨m, w, .nil⟩

/-- The method `updateAdminProgressView`. -/
def updateAdminProgressView (m : model) (w : World) (msg : KeyMsg) : Except Panic Step :=
  let s := msg.String
  if s = ascii "q" ∨ s = ascii "esc" then .ok ⟨{ m with mode := .adminView }, w, .nil⟩
  else if s = ascii "ctrl+c" then .ok ⟨m, w, .Quit⟩
  else .ok ⟨m, w, .nil⟩

/-- The method `updateAdminDeleteConfirmView`. -/
def updateAdminDeleteConfirmView (m : model) (w : World) (msg : KeyMsg) :
    Except Panic Step :=
  let s := msg.String
  if s = ascii "y" then
    let items := w.appData.TodoItems.delete m.deleteConfirmID
    let capacity : Int := (w.appData.TodoOrder.length : Int) - 1
    if capacity < 0 then .error .makesliceCapOutOfRange
    else
      let newOrder := w.appData.TodoOrder.filter (fun id => decide (id ≠ m.deleteConfirmID))
      let w1 : World :=
        { w with appData := { w.appData with TodoItems := items, TodoOrder := newOrder } }
      let w2 := saveData w1
      let cursor : Int :=
        if m.cursor ≥ (w2.appData.TodoOrder.length : Int) ∧ m.cursor > 0 then m.cursor - 1
        else m.cursor
      .ok ⟨{ m with cursor := cursor, deleteConfirmID := [], mode := .adminView }, w2, .nil⟩
  else if s = ascii "n" ∨ s = ascii "esc" then
    .ok ⟨{ m with deleteConfirmID := [], mode := .adminView }, w, .nil⟩
  else if s = ascii "ctrl+c" then .ok ⟨m, w, .Quit⟩
  else .ok ⟨m, w, .nil⟩

/-- The method `Update`; `now` is the clock reading available to the handler. -/
def Update (now : Int) (m : model) (w : World) (msg : Msg) : Except Panic Step :=
  match msg with
  | .WindowSizeMsg width height => .ok ⟨{ m with width := width, height := height }, w, .nil⟩
  | .KeyMsg k =>
    match m.mode with
    | .usernameView => updateUsernameView m w k
    | .todoListView => updateTodoListView m w k
    | .todoDetailView => updateTodoDetailView m w k
    | .adminView => updateAdminView m w k
    | .adminEditView => updateAdminEditView now m w k
    | .adminProgressView => updateAdminProgressView m w k
    | .adminDeleteConfirmView => updateAdminDeleteConfirmView m w k
  | .other => .ok ⟨m, w, .nil⟩

/-! ## Sessions sharing the world -/

/-- The whole server: the shared world and the model of every session accepted so far
(`none` once that session's program has quit). -/
structure System where
  world : World
  sessions : List (Option model)
  deriving DecidableEq, Repr

/-- What can happen to the server: a connection is accepted (`teaHandler`), or the program
of one session handles one message at clock reading `now`. -/
inductive Event where
  | connect (publicKey : GoString) (width height : Int)
  | deliver (session : Nat) (now : Int) (msg : Msg)
  deriving DecidableEq, Repr

/-- The server right after `main` found no data file. -/
def System.init : System := { world := World.empty, sessions := [] }

/-- One event, handled atomically.  A panic ends the run: the handler's lock is never
released. -/
def System.step (s : System) : Event → Except Panic System
  | .connect publicKey width height =>
    match initialModel publicKey s.world with
    | .error e => .error e
    | .ok m =>
      .ok { s with sessions := s.sessions ++ [some { m with width := width, height := height }] }
  | .deliver i now msg =>
    match s.sessions[i]? with
    | some (some m) =>
      match Update now m s.world msg with
      | .error e => .error e
      | .ok r =>
        .ok { world := r.w
              sessions := s.sessions.set i (if r.cmd = .Quit then none else some r.m) }
    | _ => .ok s

/-- A finite run of the server. -/
def System.run : List Event → System → Except Panic System
  | [], s => .ok s
  | e :: rest, s =>
    match s.step e with
    | .error p => .error p
    | .ok s1 => System.run rest s1

/-! ## Key events used in the scenarios -/

/-- A printable ASCII key: `KeyRunes` whose text is the typed character, one byte. -/
def key (c : String) : KeyMsg := { keyType := .KeyRunes, String := ascii c }

def keyEnter : KeyMsg := { keyType := .KeyEnter, String := ascii "enter" }

def keyEsc : KeyMsg := { keyType := .KeyEsc, String := ascii "esc" }

def keyCtrlC : KeyMsg := { keyType := .KeyCtrlC, String := ascii "ctrl+c" }

def keyDown : KeyMsg := { keyType := .KeyDown, String := ascii "down" }

/-! ## Admin operations as handled key events -/

/-- One key event handled by some session: the clock reading, the session's model when the
key arrives, and the key. -/
structure KeyEvent where
  now : Int
  m : model
  k : KeyMsg
  deriving DecidableEq, Repr

/-- Add: a save in `adminEditView` with no target id. -/
def IsAdd (e : KeyEvent) : Prop :=
  e.m.mode = .adminEditView ∧ e.m.editingID = [] ∧
    (e.k.String = ascii "enter" ∨ e.k.String = ascii "ctrl+s")

/-- Edit: a save in `adminEditView` with a target id. -/
def IsEdit (e : KeyEvent) : Prop :=
  e.m.mode = .adminEditView ∧ e.m.editingID ≠ [] ∧
    (e.k.String = ascii "enter" ∨ e.k.String = ascii "ctrl+s")

/-- Delete: the confirming `y` in `adminDeleteConfirmView`. -/
def IsDelete (e : KeyEvent) : Prop :=
  e.m.mode = .adminDeleteConfirmView ∧ e.k.String = ascii "y"

/-- Move: `K` or `J` in `adminView`. -/
def IsMove (e : KeyEvent) : Prop :=
  e.m.mode = .adminView ∧ (e.k.String = ascii "K" ∨ e.k.String = ascii "J")

/-- The four admin operations on the todo list. -/
def IsAdminOp (e : KeyEvent) : Prop := IsAdd e ∨ IsEdit e ∨ IsDelete e ∨ IsMove e

instance (e : KeyEvent) : Decidable (IsAdd e) := by unfold IsAdd; infer_instance

instance (e : KeyEvent) : Decidable (IsEdit e) := by unfold IsEdit; infer_instance

instance (e : KeyEvent) : Decidable (IsDelete e) := by unfold IsDelete; infer_instance

instance (e : KeyEvent) : Decidable (IsMove e) := by unfold IsMove; infer_instance

instance (e : KeyEvent) : Decidable (IsAdminOp e) := by unfold IsAdminOp; infer_instance

/-- The world after handling the events one after the other through `Update`. -/
def runOps : List KeyEvent → World → Except Panic World
  | [], w => .ok w
  | e :: rest, w =>
    match Update e.now e.m w (.KeyMsg e.k) with
    | .error p => .error p
    | .ok r => runOps rest r.w

/-- Every Add of the run generates an id that is not a key of `TodoItems` at that moment. -/
def freshAdds : List KeyEvent → World → Bool
  | [], _ => true
  | e :: rest, w =>
    (decide (IsAdd e → newTodoID e.now ∉ w.appData.TodoItems.keys)) &&
      (match Update e.now e.m w (.KeyMsg e.k) with
       | .error _ => true
       | .ok r => freshAdds rest r.w)

/-- A model in `adminEditView` in create mode with the given buffers. -/
def addModel (name desc : GoString) : model :=
  { user := some 0, publicKey := ascii "admin-key", mode := .adminEditView, cursor := 0,
    input := [], width := 80, height := 24, editingID := [], editField := 0,
    editName := name, editDesc := desc, selectedTodo := none, deleteConfirmID := [] }

/-- Two Adds handled within the same second (clock reading 5). -/
def sameSecondAdds : List KeyEvent :=
  [ { now := 5, m := addModel (ascii "A") (ascii "first"), k := keyEnter },
    { now := 5, m := addModel (ascii "B") (ascii "second"), k := keyEnter } ]

/-- Two Adds handled in different seconds. -/
def laterAdds : List KeyEvent :=
  [ { now := 5, m := addModel (ascii "A") (ascii "first"), k := keyEnter },
    { now := 6, m := addModel (ascii "B") (ascii "second"), k := keyEnter } ]

/-- The world the run `laterAdds` leaves behind. -/
def laterAddsWorld : World :=
  saveData
    { appData :=
        { Users := [], TodoItems := [(newTodoID 5, 0), (newTodoID 6, 1)],
          TodoOrder := [newTodoID 5, newTodoID 6] }
      userObjs := []
      todoObjs :=
        [{ ID := newTodoID 5, Name := ascii "A", Description := ascii "first" },
         { ID := newTodoID 6, Name := ascii "B", Description := ascii "second" }]
      dataFile := none }

/-! ## Scenarios -/

/-- Delivery of one key to a session. -/
def press (session : Nat) (now : Int) (k : KeyMsg) : Event :=
  .deliver session now (.KeyMsg k)

/-- The public key of the first identity to connect. -/
def adminKey : GoString := ascii "ssh-ed25519-admin"

/-- The public key of a second identity. -/
def bobKey : GoString := ascii "ssh-ed25519-bob"

/-- The admin registers, adds two items in different seconds and moves the cursor to the
second one; the same identity connects again and that session deletes the first item. -/
def staleCursorSetup : List Event :=
  [ .connect adminKey 80 24,
    press 0 1 (key "a"), press 0 1 keyEnter,
    press 0 5 (key "a"), press 0 5 (key "x"), press 0 5 keyEnter,
    press 0 6 (key "a"), press 0 6 (key "y"), press 0 6 keyEnter,
    press 0 7 keyDown,
    .connect adminKey 80 24,
    press 1 8 (key "d"), press 1 8 (key "y") ]

/-- The world `staleCursorSetup` leaves behind: one item, `TodoOrder` of length 1. -/
def staleWorld : World :=
  saveData
    { appData :=
        { Users := [(adminKey, 0)], TodoItems := [(newTodoID 6, 1)],
          TodoOrder := [newTodoID 6] }
      userObjs := [{ Username := ascii "a", PublicKey := adminKey, IsAdmin := true,
                     Completions := [] }]
      todoObjs :=
        [{ ID := newTodoID 5, Name := ascii "x", Description := [] },
         { ID := newTodoID 6, Name := ascii "y", Description := [] }]
      dataFile := none }

/-- The first admin session after `staleCursorSetup`: still in `adminView`, cursor 1. -/
def staleModel : model :=
  { user := some 0, publicKey := adminKey, mode := .adminView, cursor := 1, input := [],
    width := 80, height := 24, editingID := [], editField := 0, editName := ascii "y",
    editDesc := [], selectedTodo := none, deleteConfirmID := [] }

/-- Two sessions of one identity are accepted before either has registered; the first
registers as `a`. -/
def twinSetup : List Event :=
  [ .connect adminKey 80 24, .connect adminKey 80 24,
    press 0 1 (key "a"), press 0 1 keyEnter ]

/-- The second of the twin sessions then registers as `b`. -/
def twinRegistration : List Event :=
  [ press 1 2 (key "b"), press 1 2 keyEnter ]

/-- A world in which `bobKey` is registered as the non-admin `bob`, who has completed the
item `todo_5`. -/
def bobWorld : World :=
  { appData :=
      { Users := [(adminKey, 0), (bobKey, 1)], TodoItems := [(newTodoID 5, 0)],
        TodoOrder := [newTodoID 5] }
    userObjs :=
      [{ Username := ascii "alice", PublicKey := adminKey, IsAdmin := true, Completions := [] },
       { Username := ascii "bob", PublicKey := bobKey, IsAdmin := false,
         Completions := [(newTodoID 5, true)] }]
    todoObjs := [{ ID := newTodoID 5, Name := ascii "x", Description := [] }]
    dataFile := none }

/-- A session of `bobKey` that was accepted before `bob` registered and is still in
`usernameView`, with `eve` typed. -/
def lateModel : model :=
  { user := none, publicKey := bobKey, mode := .usernameView, cursor := 0,
    input := ascii "eve", width := 80, height := 24, editingID := [], editField := 0,
    editName := [], editDesc := [], selectedTodo := none, deleteConfirmID := [] }

/-- A session that connects with identity `pk`, has `name` typed in, and presses Enter. -/
def register (pk name : GoString) (w : World) : Except Panic World :=
  match initialModel pk w with
  | .error e => .error e
  | .ok m =>
    match Update 0 { m with input := name } w (.KeyMsg keyEnter) with
    | .error e => .error e
    | .ok r => .ok r.w

/-- Three registrations one after the other. -/
def registerThree (u1 n1 u2 n2 u3 n3 : GoString) (w : World) : Except Panic World :=
  match register u1 n1 w with
  | .error e => .error e
  | .ok w1 =>
    match register u2 n2 w1 with
    | .error e => .error e
    | .ok w2 => register u3 n3 w2

/-- Whether a handler result carries the command `tea.Quit`. -/
def quits (r : Except Panic Step) : Bool :=
  match r with
  | .ok s => decide (s.cmd = .Quit)
  | .error _ => false

/-- The public key of a third identity. -/
def carolKey : GoString := ascii "ssh-ed25519-carol"

/-- A model in `adminView` with the given cursor. -/
def adminModel (cursor : Int) : model :=
  { user := some 0, publicKey := adminKey, mode := .adminView, cursor := cursor, input := [],
    width := 80, height := 24, editingID := [], editField := 0, editName := [],
    editDesc := [], selectedTodo := none, deleteConfirmID := [] }

/-- A model in `adminDeleteConfirmView` with the given cursor and target id. -/
def deleteModel (cursor : Int) (target : GoString) : model :=
  { user := some 0, publicKey := adminKey, mode := .adminDeleteConfirmView, cursor := cursor,
    input := [], width := 80, height := 24, editingID := [], editField := 0, editName := [],
    editDesc := [], selectedTodo := none, deleteConfirmID := target }

/-- The admin registers and adds one item, then asks to delete it; the same identity
connects again and that session deletes the item first. -/
def staleDeleteSetup : List Event :=
  [ .connect adminKey 80 24,
    press 0 1 (key "a"), press 0 1 keyEnter,
    press 0 5 (key "a"), press 0 5 (key "x"), press 0 5 keyEnter,
    press 0 6 (key "d"),
    .connect adminKey 80 24,
    press 1 7 (key "d"), press 1 7 (key "y") ]

/-- The admin registers, adds one item at clock reading 1 and two at clock reading 2,
moves the cursor to the last row and asks to delete it. -/
def duplicateDeleteSetup : List Event :=
  [ .connect adminKey 80 24,
    press 0 0 (key "a"), press 0 0 keyEnter,
    press 0 1 (key "a"), press 0 1 (key "x"), press 0 1 keyEnter,
    press 0 2 (key "a"), press 0 2 (key "y"), press 0 2 keyEnter,
    press 0 2 (key "a"), press 0 2 (key "z"), press 0 2 keyEnter,
    press 0 3 keyDown, press 0 3 keyDown,
    press 0 4 (key "d") ]

/-- A store whose `TodoOrder` holds the id `todo_2` twice. -/
def duplicateWorld : World :=
  { appData :=
      { Users := [(adminKey, 0)], TodoItems := [(newTodoID 1, 0), (newTodoID 2, 2)],
        TodoOrder := [newTodoID 1, newTodoID 2, newTodoID 2] }
    userObjs := [{ Username := ascii "a", PublicKey := adminKey, IsAdmin := true,
                   Completions := [] }]
    todoObjs :=
      [{ ID := newTodoID 1, Name := ascii "x", Description := [] },
       { ID := newTodoID 2, Name := ascii "y", Description := [] },
       { ID := newTodoID 2, Name := ascii "z", Description := [] }]
    dataFile := none }

/-- The clock readings supplied to the Adds of a run, in order. -/
def addClocks (ops : List KeyEvent) : List Int :=
  (ops.filter (fun e => decide (IsAdd e))).map (fun e => e.now)

/-- The select-and-complete sequence of a non-admin session: Enter on the list row under
the cursor, then `c` in the detail view. -/
def selectAndComplete (now : Int) (m : model) (w : World) : Except Panic Step :=
  match Update now m w (.KeyMsg keyEnter) with
  | .error e => .error e
  | .ok r => Update now r.m r.w (.KeyMsg (key "c"))

/-- A session of `bob` in `todoListView` with the cursor on the first row. -/
def bobModel : model :=
  { user := some 1, publicKey := bobKey, mode := .todoListView, cursor := 0, input := [],
    width := 80, height := 24, editingID := [], editField := 0, editName := [],
    editDesc := [], selectedTodo := none, deleteConfirmID := [] }

/-- The world `bobWorld` before `bob` has completed anything. -/
def bobFreshWorld : World :=
  { bobWorld with
    userObjs :=
      [{ Username := ascii "alice", PublicKey := adminKey, IsAdmin := true, Completions := [] },
       { Username := ascii "bob", PublicKey := bobKey, IsAdmin := false, Completions := [] }] }

/-- Items are stored by id: every pointer in `TodoItems` refers to an object whose `ID` is
the key it is stored under (as after every Add). -/
def ItemsById (w : World) : Prop :=
  ∀ e ∈ w.appData.TodoItems, (w.todoObjs[e.2]?).map (fun i => i.ID) = some e.1

instance (w : World) : Decidable (ItemsById w) := by unfold ItemsById; infer_instance

/-- A model in `adminEditView` in update mode with the given target and buffers. -/
def updateModel (target name desc : GoString) : model :=
  { user := some 0, publicKey := adminKey, mode := .adminEditView, cursor := 0, input := [],
    width := 80, height := 24, editingID := target, editField := 0, editName := name,
    editDesc := desc, selectedTodo := none, deleteConfirmID := [] }

/-- The key events one session handles, in order, until its program quits. -/
def sessionRun : List (Int × KeyMsg) → model → World → Except Panic (model × World)
  | [], m, w => .ok (m, w)
  | (now, k) :: rest, m, w =>
    match Update now m w (.KeyMsg k) with
    | .error e => .error e
    | .ok r => if r.cmd = .Quit then .ok (r.m, r.w) else sessionRun rest r.m r.w

/-! ## Views -/

/-- The bytes of a string literal of the source that is not pure ASCII. -/
def utf8 (s : String) : GoString := s.toUTF8.data.toList

/-- The read `m[k]` of a `map[string]bool`: false when the key is absent. -/
def GoMap.getBool (m : GoMap Bool) (k : GoString) : Bool := (m.get k).getD false

/-- The styles the views build with the terminal styling library. -/
inductive Style where
  | title
  | green
  | dim
  | faint
  | warning
  deriving DecidableEq, Repr

/-- One operand of a formatted text: literal text or a `%s` operand, a `%d` operand, or a
`%-Ns` operand (left-justified in a field of the given width). -/
inductive Atom where
  | text (s : GoString)
  | int (n : Int)
  | padded (width : Nat) (s : GoString)
  deriving DecidableEq, Repr

/-- A piece of a rendered screen: text as it is, or text passed through `Render` of a
style.  The screen a view returns is the concatenation of its pieces; how the styling and
formatting libraries turn a piece into bytes is not part of the program. -/
inductive Piece where
  | plain (a : Atom)
  | styled (st : Style) (inner : List Atom)
  deriving DecidableEq, Repr

/-- Literal ASCII text of a view. -/
def lit (s : String) : Piece := .plain (.text (ascii s))

/-- The method `viewUsername`. -/
def viewUsername (m : model) : Except Panic (List Piece) :=
  .ok [ .styled .title [.text (ascii "Welcome to Checklist App!")], lit "\n\n",
        lit "Please enter your username:\n\n",
        lit "> ", .plain (.text m.input), lit "\n\n",
        .styled .faint [.text (ascii "Press Enter to continue, Esc to quit")] ]

/-- The loop of `viewTodoList` over `TodoOrder`, from row index `i` on. -/
def todoListRows (m : model) (w : World) (user : User) :
    Nat → List GoString → Except Panic (List Piece)
  | _, [] => .ok []
  | i, todoID :: rest =>
    match deref w.todoObjs (w.appData.TodoItems.get todoID) with
    | .error e => .error e
    | .ok todo =>
      let cursor := if (i : Int) = m.cursor then ascii ">" else ascii " "
      let completed : List Piece :=
        if user.Completions.getBool todoID then
          [lit " ", .styled .green [.text (utf8 "✓")]]
        else []
      match todoListRows m w user (i + 1) rest with
      | .error e => .error e
      | .ok more =>
        .ok ([.plain (.text cursor), lit " ", .plain (.int ((i : Int) + 1)), lit ". ",
              .plain (.text todo.Name)] ++ completed ++ [lit "\n"] ++ more)

/-- The method `viewTodoList`. -/
def viewTodoList (m : model) (w : World) : Except Panic (List Piece) :=
  match deref w.userObjs m.user with
  | .error e => .error e
  | .ok user =>
    let head : List Piece :=
      [ .styled .title [.text (ascii "Welcome, "), .text user.Username, .text (ascii "!")],
        lit "\n\n", lit "Todo Items:\n\n" ]
    let foot : List Piece :=
      [ lit "\n",
        .styled .faint [.text (utf8 "↑/↓: navigate • Enter: view details • q: quit")] ]
    if w.appData.TodoOrder.length = 0 then
      .ok (head ++ [lit "No todo items yet. Wait for admin to add some!\n"] ++ foot)
    else
      match todoListRows m w user 0 w.appData.TodoOrder with
      | .error e => .error e
      | .ok rows => .ok (head ++ rows ++ foot)

/-- The method `viewTodoDetail`. -/
def viewTodoDetail (m : model) (w : World) : Except Panic (List Piece) :=
  match m.selectedTodo with
  | none => .ok [lit "Error: no todo selected"]
  | some t =>
    match deref w.todoObjs (some t) with
    | .error e => .error e
    | .ok todo =>
      match deref w.userObjs m.user with
      | .error e => .error e
      | .ok user =>
        let head : List Piece :=
          [ .styled .title [.text todo.Name], lit "\n\n",
            .plain (.text todo.Description), lit "\n\n" ]
        if user.Completions.getBool todo.ID then
          .ok (head ++ [ .styled .green [.text (utf8 "✓ Completed")], lit "\n\n",
                         .styled .faint [.text (ascii "Esc: back")] ])
        else
          .ok (head ++ [ .styled .faint [.text (utf8 "Enter: mark complete • Esc: back")] ])

/-- A counting loop over the `Users` map: the counter is incremented for every user that
satisfies the condition. -/
def countUsers (heap : List User) (cond : User → Bool) :
    List (GoString × Ptr) → Int → Except Panic Int
  | [], n => .ok n
  | (_, p) :: rest, n =>
    match deref heap (some p) with
    | .error e => .error e
    | .ok user => countUsers heap cond rest (if cond user then n + 1 else n)

/-- The first loop of `viewAdmin`: `totalUsers`, the number of non-admin users. -/
def totalNonAdmin (w : World) : Except Panic Int :=
  countUsers w.userObjs (fun user => !user.IsAdmin) w.appData.Users 0

/-- The inner loop of `viewAdmin` for one row: `completions`, the number of non-admin
users whose completions hold the row's id. -/
def completionsOf (w : World) (todoID : GoString) : Except Panic Int :=
  countUsers w.userObjs (fun user => !user.IsAdmin && user.Completions.getBool todoID)
    w.appData.Users 0

/-- The loop of `viewAdmin` over `TodoOrder`, from row index `i` on. -/
def adminRows (m : model) (w : World) (totalUsers : Int) :
    Nat → List GoString → Except Panic (List Piece)
  | _, [] => .ok []
  | i, todoID :: rest =>
    let cursor := if (i : Int) = m.cursor then ascii ">" else ascii " "
    match completionsOf w todoID with
    | .error e => .error e
    | .ok completions =>
      let progress : List Piece :=
        if totalUsers > 0 then
          [.styled .dim [.text (ascii " ("), .int completions, .text (ascii "/"),
             .int totalUsers, .text (ascii ")")]]
        else []
      match deref w.todoObjs (w.appData.TodoItems.get todoID) with
      | .error e => .error e
      | .ok todo =>
        match adminRows m w totalUsers (i + 1) rest with
        | .error e => .error e
        | .ok more =>
          .ok ([.plain (.text cursor), lit " ", .plain (.int ((i : Int) + 1)), lit ". ",
                .plain (.text todo.Name)] ++ progress ++ [lit "\n"] ++ more)

/-- The method `viewAdmin`. -/
def viewAdmin (m : model) (w : World) : Except Panic (List Piece) :=
  match deref w.userObjs m.user with
  | .error e => .error e
  | .ok user =>
    let head : List Piece :=
      [ .styled .title [.text (ascii "Admin Panel - "), .text user.Username],
        lit "\n\n", lit "Todo Items:\n\n" ]
    let foot : List Piece :=
      [ lit "\n",
        .styled .faint [.text (utf8
          "↑/↓: navigate • Shift+J/K: move • a: add • e: edit • d: delete • p: progress • q: quit")] ]
    if w.appData.TodoOrder.length = 0 then
      .ok (head ++ [lit "No todo items yet.\n"] ++ foot)
    else
      match totalNonAdmin w with
      | .error e => .error e
      | .ok totalUsers =>
        match adminRows m w totalUsers 0 w.appData.TodoOrder with
        | .error e => .error e
        | .ok rows => .ok (head ++ rows ++ foot)

/-- The method `viewAdminEdit`. -/
def viewAdminEdit (m : model) : Except Panic (List Piece) :=
  let title := if m.editingID ≠ [] then ascii "Edit Todo" else ascii "Add New Todo"
  let nameLabel := if m.editField = 0 then ascii "> Name: " else ascii "Name: "
  let descLabel := if m.editField = 1 then ascii "> Description: " else ascii "Description: "
  .ok [ .styled .title [.text title], lit "\n\n",
        .plain (.text nameLabel), .plain (.text m.editName), lit "\n\n",
        .plain (.text descLabel), .plain (.text m.editDesc), lit "\n\n",
        .styled .faint [.text (utf8 "Tab: switch field • Enter: save • Esc: cancel")] ]

/-- The header loop of `viewAdminProgress`: one column per id of `TodoOrder`. -/
def progressHeader (w : World) : List GoString → Except Panic (List Piece)
  | [] => .ok []
  | todoID :: rest =>
    match deref w.todoObjs (w.appData.TodoItems.get todoID) with
    | .error e => .error e
    | .ok todo =>
      let name := if todo.Name.length > 10 then todo.Name.take 10 else todo.Name
      match progressHeader w rest with
      | .error e => .error e
      | .ok more => .ok (.plain (.padded 12 name) :: more)

/-- The cells of one row of `viewAdminProgress`. -/
def progressCells (user : User) : List GoString → List Piece
  | [] => []
  | todoID :: rest =>
    (if user.Completions.getBool todoID then Piece.styled .green [.padded 12 (utf8 "✓")]
     else Piece.plain (.padded 12 (ascii "-"))) :: progressCells user rest

/-- The row loop of `viewAdminProgress` over the `Users` map. -/
def progressRows (w : World) : List (GoString × Ptr) → Except Panic (List Piece)
  | [] => .ok []
  | (_, p) :: rest =>
    match deref w.userObjs (some p) with
    | .error e => .error e
    | .ok user =>
      match progressRows w rest with
      | .error e => .error e
      | .ok more =>
        if user.IsAdmin then .ok more
        else
          let username :=
            if user.Username.length > 20 then user.Username.take 20 else user.Username
          .ok ([.plain (.padded 20 username)] ++ progressCells user w.appData.TodoOrder ++
            [lit "\n"] ++ more)

/-- The method `viewAdminProgress`. -/
def viewAdminProgress (w : World) : Except Panic (List Piece) :=
  let head : List Piece := [.styled .title [.text (ascii "Completion Progress")], lit "\n\n"]
  if w.appData.TodoOrder.length = 0 then .ok (head ++ [lit "No todo items.\n"])
  else
    match progressHeader w w.appData.TodoOrder with
    | .error e => .error e
    | .ok header =>
      match progressRows w w.appData.Users with
      | .error e => .error e
      | .ok rows =>
        .ok (head ++ [.plain (.padded 20 (ascii "User"))] ++ header ++
          [ lit "\n",
            .plain (.text (List.replicate (20 + 12 * w.appData.TodoOrder.length)
              (UInt8.ofNat 45))),
            lit "\n" ] ++ rows ++
          [lit "\n", .styled .faint [.text (ascii "Esc: back")]])

/-- The method `viewAdminDeleteConfirm`. -/
def viewAdminDeleteConfirm (m : model) (w : World) : Except Panic (List Piece) :=
  match deref w.todoObjs (w.appData.TodoItems.get m.deleteConfirmID) with
  | .error e => .error e
  | .ok todo =>
    .ok [ .styled .title [.text (ascii "Confirm Delete")], lit "\n\n",
          .styled .warning [.text (ascii "Delete '"), .text todo.Name, .text (ascii "'?")],
          lit "\n\n",
          lit "This will remove the todo item and all completion records.\n\n",
          .styled .faint [.text (utf8 "y: confirm • n/Esc: cancel")] ]

/-- The method `View`. -/
def View (m : model) (w : World) : Except Panic (List Piece) :=
  match m.mode with
  | .usernameView => viewUsername m
  | .todoListView => viewTodoList m w
  | .todoDetailView => viewTodoDetail m w
  | .adminView => viewAdmin m w
  | .adminEditView => viewAdminEdit m
  | .adminProgressView => viewAdminProgress w
  | .adminDeleteConfirmView => viewAdminDeleteConfirm m w

/-- Whether a view returned a screen. -/
def renders (r : Except Panic (List Piece)) : Bool :=
  match r with
  | .ok _ => true
  | .error _ => false

/-- CompletionStats in the words of the specification: among the users that are not admin,
how many hold the id in their completions, and how many there are. -/
def completionStatsSpec (w : World) (todoID : GoString) : Nat × Nat :=
  let nonAdmin :=
    (w.appData.Users.filterMap (fun e => w.userObjs[e.2]?)).filter (fun u => !u.IsAdmin)
  ((nonAdmin.filter (fun u => u.Completions.getBool todoID)).length, nonAdmin.length)

/-- Every pointer in `Users` refers to a stored user object. -/
def UsersValid (w : World) : Prop := ∀ e ∈ w.appData.Users, e.2 < w.userObjs.length

instance (w : World) : Decidable (UsersValid w) := by unfold UsersValid; infer_instance

/-- What `json.Unmarshal` does with the members of a JSON object that fill a
`map[string]*T`: for every member a new `T` is allocated and its pointer stored under the
key.  A `null` member would store a nil pointer, which the maps of this embedding do not
hold (`saveData` never writes one); such a document gives `none`. -/
def loadRecords {α : Type} :
    List (GoString × Option α) → GoMap Ptr → List α → Option (GoMap Ptr × List α)
  | [], m, heap => some (m, heap)
  | (k, some x) :: rest, m, heap => loadRecords rest (m.set k heap.length) (heap ++ [x])
  | (_, none) :: _, _, _ => none

/-- The call `json.Unmarshal(data, appData)` for a decoded document: the two maps are
filled member by member and `TodoOrder` is replaced by the decoded array. -/
def unmarshalInto (doc : FileImage) (w : World) : Option World :=
  match loadRecords doc.Users w.appData.Users w.userObjs with
  | none => none
  | some (users, userObjs) =>
    match loadRecords doc.TodoItems w.appData.TodoItems w.todoObjs with
    | none => none
    | some (items, todoObjs) =>
      some { appData := { Users := users, TodoItems := items, TodoOrder := doc.TodoOrder }
             userObjs := userObjs
             todoObjs := todoObjs
             dataFile := w.dataFile }

/-- The function `loadData`.  The JSON library is a parameter: `readBack written` is the
document `json.Unmarshal` decodes from the text `json.MarshalIndent` produced for the
document `written` (`none` when decoding fails, which is logged).  A missing file and a
decoding error leave `appData` as it is. -/
def loadData (readBack : FileImage → Option FileImage) (w : World) : Option World :=
  match w.dataFile with
  | none => some w
  | some written =>
    match readBack written with
    | none => some w
    | some doc => unmarshalInto doc w

/-- Every pointer in `TodoItems` refers to a stored item object. -/
def ItemsValid (w : World) : Prop := ∀ e ∈ w.appData.TodoItems, e.2 < w.todoObjs.length

instance (w : World) : Decidable (ItemsValid w) := by unfold ItemsValid; infer_instance

/-- The process state at start-up when the data file holds what `saveData` wrote for `w`:
the empty `appData` of `var appData` and that file. -/
def restart (w : World) : World := { World.empty with dataFile := (saveData w).dataFile }

/-! ## Well-formed stores -/

/-- No two identities share a user object. -/
def UsersInjective (w : World) : Prop :=
  ∀ e1 ∈ w.appData.Users, ∀ e2 ∈ w.appData.Users, e1.2 = e2.2 → e1.1 = e2.1

/-- What holds of the store in every state the program reaches from the empty store: the
maps have distinct keys, their pointers refer to stored objects, items are stored by id,
and no two identities share a user object. -/
def WorldWF (w : World) : Prop :=
  UsersValid w ∧ ItemsById w ∧ w.appData.Users.keys.Nodup ∧ w.appData.TodoItems.keys.Nodup ∧
    UsersInjective w

/-- The ways one handled message can change the world, for a session with model `m`. -/
def WorldStep (m : model) (w w1 : World) : Prop :=
  w1 = w ∨ w1 = saveData w ∨
  (∃ u, w1 = saveData { w with
      userObjs := w.userObjs ++ [u]
      appData := { w.appData with
        Users := w.appData.Users.set m.publicKey w.userObjs.length } }) ∨
  (∃ up u1, w1 = saveData { w with userObjs := w.userObjs.set up u1 }) ∨
  (∃ order, w1 = saveData { w with appData := { w.appData with TodoOrder := order } }) ∨
  (∃ item, w1 = saveData { w with
      todoObjs := w.todoObjs ++ [item]
      appData := { w.appData with
        TodoItems := w.appData.TodoItems.set item.ID w.todoObjs.length
        TodoOrder := w.appData.TodoOrder ++ [item.ID] } }) ∨
  (∃ p todo todo1, w.todoObjs[p]? = some todo ∧ todo1.ID = todo.ID ∧
    w1 = saveData { w with todoObjs := w.todoObjs.set p todo1 }) ∨
  (∃ id, w1 = saveData { w with
      appData := { w.appData with
        TodoItems := w.appData.TodoItems.delete id
        TodoOrder := w.appData.TodoOrder.filter (fun x => decide (x ≠ id)) } })

/-- The pointers a session holds refer to stored objects. -/
def SessionWF (m : model) (w : World) : Prop :=
  (∀ up, m.user = some up → up < w.userObjs.length) ∧
    (∀ t, m.selectedTodo = some t → t < w.todoObjs.length)

/-- The store is well formed and so is every live session. -/
def SystemWF (s : System) : Prop :=
  WorldWF s.world ∧ ∀ m, some m ∈ s.sessions → SessionWF m s.world

/-! ## Lock discipline (`appData.mu`)

The handlers above leave the mutex out: every handler is one atomic step.  What a handler
does with the mutex is recorded here, statement by statement, next to its accesses to the
store. -/

/-- The parts of the store `appData.mu` guards: the three fields of `appData` and the
objects behind their pointers. -/
inductive Field where
  | Users
  | TodoItems
  | TodoOrder
  | userObject
  | todoObject
  deriving DecidableEq, Repr

/-- One operation on `appData.mu`, one statement's read or write of a part of the store, or
the call `saveData()`.  A statement that reads and assigns a field (`append`, the swap)
counts as a read followed by a write.  Reads of the objects behind the pointers are not
recorded. -/
inductive Access where
  | Lock
  | Unlock
  | RLock
  | RUnlock
  | read (f : Field)
  | write (f : Field)
  | saveData
  deriving DecidableEq, Repr

/-- How the running handler holds `appData.mu`. -/
inductive Held where
  | free
  | reading
  | writing
  deriving DecidableEq, Repr

/-- The access discipline: a write and `saveData()` happen under the write lock, a read
under the read or the write lock, and the lock operations pair up.  A log that ends while
the lock is held (a panic) is not rejected for that. -/
def disciplined : Held → List Access → Bool
  | _, [] => true
  | .free, .Lock :: rest => disciplined .writing rest
  | .free, .RLock :: rest => disciplined .reading rest
  | .writing, .Unlock :: rest => disciplined .free rest
  | .reading, .RUnlock :: rest => disciplined .free rest
  | .writing, .read _ :: rest => disciplined .writing rest
  | .reading, .read _ :: rest => disciplined .reading rest
  | .writing, .write _ :: rest => disciplined .writing rest
  | .writing, .saveData :: rest => disciplined .writing rest
  | _, _ => false

/-- The accesses of `initialModel` (lines 160-162). -/
def initialModelAccesses : List Access := [.RLock, .read .Users, .RUnlock]

/-- The accesses of `updateUsernameView`: only the `KeyEnter` case with a non-empty input
touches the store (lines 220-230). -/
def updateUsernameViewAccesses (m : model) (msg : KeyMsg) : List Access :=
  match msg.keyType with
  | .KeyEnter =>
    if m.input ≠ [] then [.Lock, .read .Users, .write .Users, .saveData, .Unlock] else []
  | _ => []

/-- The accesses of `updateTodoListView`: the item count (lines 253-255), then only the
`enter` case touches the store (lines 270-273); an index out of range ends the log inside
the read lock. -/
def updateTodoListViewAccesses (m : model) (w : World) (msg : KeyMsg) : List Access :=
  let itemCount : Int := w.appData.TodoOrder.length
  [.RLock, .read .TodoOrder, .RUnlock] ++
    (if msg.String = ascii "enter" then
      if itemCount > 0 ∧ m.cursor < itemCount then
        match index w.appData.TodoOrder m.cursor with
        | .error _ => [.RLock, .read .TodoOrder]
        | .ok _ => [.RLock, .read .TodoOrder, .read .TodoItems, .RUnlock]
      else []
    else [])

/-- The accesses of `updateTodoDetailView`: only the complete case with a selected item
touches the store (lines 287-290); a nil dereference ends the log inside the lock. -/
def updateTodoDetailViewAccesses (m : model) (w : World) (msg : KeyMsg) : List Access :=
  let s := msg.String
  if s = ascii "q" ∨ s = ascii "esc" then []
  else if s = ascii "c" ∨ s = ascii "enter" then
    match m.selectedTodo with
    | none => []
    | some t =>
      match deref w.todoObjs (some t), deref w.userObjs m.user with
      | .ok _, .ok _ => [.Lock, .write .userObject, .saveData, .Unlock]
      | _, _ => [.Lock]
  else []

/-- The accesses of `updateAdminView`: the item count (lines 299-301), then the cases `K`
(lines 316-320), `J` (325-329), `e` (340-343) and `d` (353-355); an index out of range ends
the log inside the lock. -/
def updateAdminViewAccesses (m : model) (w : World) (msg : KeyMsg) : List Access :=
  let itemCount : Int := w.appData.TodoOrder.length
  let s := msg.String
  [.RLock, .read .TodoOrder, .RUnlock] ++
    (if s = ascii "K" then
      if itemCount > 0 ∧ m.cursor > 0 then
        match index w.appData.TodoOrder (m.cursor - 1), index w.appData.TodoOrder m.cursor with
        | .ok _, .ok _ => [.Lock, .read .TodoOrder, .write .TodoOrder, .saveData, .Unlock]
        | _, _ => [.Lock, .read .TodoOrder]
      else []
    else if s = ascii "J" then
      if itemCount > 0 ∧ m.cursor < itemCount - 1 then
        match index w.appData.TodoOrder (m.cursor + 1), index w.appData.TodoOrder m.cursor with
        | .ok _, .ok _ => [.Lock, .read .TodoOrder, .write .TodoOrder, .saveData, .Unlock]
        | _, _ => [.Lock, .read .TodoOrder]
      else []
    else if s = ascii "e" then
      if itemCount > 0 ∧ m.cursor < itemCount then
        match index w.appData.TodoOrder m.cursor with
        | .error _ => [.RLock, .read .TodoOrder]
        | .ok _ => [.RLock, .read .TodoOrder, .read .TodoItems, .RUnlock]
      else []
    else if s = ascii "d" then
      if itemCount > 0 ∧ m.cursor < itemCount then
        match index w.appData.TodoOrder m.cursor with
        | .error _ => [.RLock, .read .TodoOrder]
        | .ok _ => [.RLock, .read .TodoOrder, .RUnlock]
      else []
    else [])

/-- The accesses of `updateAdminEditView`: only the save case touches the store (lines
376-394). -/
def updateAdminEditViewAccesses (m : model) (w : World) (msg : KeyMsg) : List Access :=
  let s := msg.String
  if s = ascii "enter" ∨ s = ascii "ctrl+s" then
    if m.editingID = [] then
      [.Lock, .write .TodoItems, .read .TodoOrder, .write .TodoOrder, .saveData, .Unlock]
    else
      match w.appData.TodoItems.get m.editingID with
      | some _ => [.Lock, .read .TodoItems, .write .todoObject, .saveData, .Unlock]
      | none => [.Lock, .read .TodoItems, .saveData, .Unlock]
  else []

/-- The accesses of `updateAdminDeleteConfirmView`: only the `y` case touches the store
(lines 427-439).  `make` panics inside the lock when `TodoOrder` is empty; otherwise the
cursor test of line 439 reads `len(appData.TodoOrder)` after the `Unlock` of line 437. -/
def updateAdminDeleteConfirmViewAccesses (w : World) (msg : KeyMsg) : List Access :=
  if msg.String = ascii "y" then
    let capacity : Int := (w.appData.TodoOrder.length : Int) - 1
    if capacity < 0 then [.Lock, .write .TodoItems, .read .TodoOrder]
    else
      [.Lock, .write .TodoItems, .read .TodoOrder, .read .TodoOrder, .write .TodoOrder,
        .saveData, .Unlock, .read .TodoOrder]
  else []

/-- The accesses of `Update`. -/
def UpdateAccesses (m : model) (w : World) (msg : Msg) : List Access :=
  match msg with
  | .KeyMsg k =>
    match m.mode with
    | .usernameView => updateUsernameViewAccesses m k
    | .todoListView => updateTodoListViewAccesses m w k
    | .todoDetailView => updateTodoDetailViewAccesses m w k
    | .adminView => updateAdminViewAccesses m w k
    | .adminEditView => updateAdminEditViewAccesses m w k
    | .adminProgressView => []
    | .adminDeleteConfirmView => updateAdminDeleteConfirmViewAccesses w k
  | _ => []

/-- The admin registers, adds one item and asks to delete it. -/
def deleteSetup : List Event :=
  [ .connect adminKey 80 24,
    press 0 1 (key "a"), press 0 1 keyEnter,
    press 0 5 (key "a"), press 0 5 (key "x"), press 0 5 keyEnter,
    press 0 6 (key "d") ]

namespace GoMap

variable {V : Type}

theorem mem_keys_set (m : GoMap V) (k k' : GoString) (v : V) :
    k' ∈ (m.set k v).keys ↔ k' = k ∨ k' ∈ m.keys := by
  induction m with
  | nil => simp [set, keys]
  | cons e rest ih =>
    obtain ⟨a, b⟩ := e
    by_cases h : a = k
    · subst h
      simp [set, keys]
    · simp only [keys] at ih
      simp [set, keys, h, ih]
      tauto

theorem mem_keys_delete (m : GoMap V) (k k' : GoString) :
    k' ∈ (m.delete k).keys ↔ k' ∈ m.keys ∧ k' ≠ k := by
  simp only [delete, keys, List.mem_map, List.mem_filter, decide_eq_true_eq]
  constructor
  · rintro ⟨e, ⟨he, hne⟩, rfl⟩
    exact ⟨⟨e, he, rfl⟩, hne⟩
  · rintro ⟨⟨e, he, rfl⟩, hne⟩
    exact ⟨e, ⟨he, hne⟩, rfl⟩

theorem get_set_self (m : GoMap V) (k : GoString) (v : V) : (m.set k v).get k = some v := by
  induction m with
  | nil => simp [set, get]
  | cons e rest ih =>
    obtain ⟨a, b⟩ := e
    by_cases h : a = k
    · simp [set, get, h]
    · simp [set, get, h, ih]

theorem get_set_ne (m : GoMap V) (k k' : GoString) (v : V) (h : k' ≠ k) :
    (m.set k v).get k' = m.get k' := by
  induction m with
  | nil => simp [set, get, Ne.symm h]
  | cons e rest ih =>
    obtain ⟨a, b⟩ := e
    by_cases hk : a = k
    · subst hk
      simp [set, get, Ne.symm h]
    · by_cases hk' : a = k'
      · subst hk'
        simp [set, get, hk]
      · simp [set, get, hk, hk', ih]

theorem get_eq_none_iff (m : GoMap V) (k : GoString) : m.get k = none ↔ k ∉ m.keys := by
  induction m with
  | nil => simp [get, keys]
  | cons e rest ih =>
    obtain ⟨a, b⟩ := e
    by_cases h : a = k
    · simp [get, keys, h]
    · simp only [keys] at ih
      simp [get, keys, h, ih, Ne.symm h]

theorem get_delete_self (m : GoMap V) (k : GoString) : (m.delete k).get k = none := by
  rw [get_eq_none_iff, mem_keys_delete]
  simp

theorem get_delete_ne (m : GoMap V) (k k' : GoString) (h : k' ≠ k) :
    (m.delete k).get k' = m.get k' := by
  induction m with
  | nil => simp [delete, get]
  | cons e rest ih =>
    obtain ⟨a, b⟩ := e
    simp only [delete] at ih
    by_cases hk : a = k
    · subst hk
      simpa [delete, get, Ne.symm h] using ih
    · by_cases hk' : a = k'
      · subst hk'
        simp [delete, get, hk, List.filter_cons]
      · simpa [delete, get, hk, hk', List.filter_cons] using ih

end GoMap

/-- Exchanging two neighbours of a list is a permutation. -/
theorem perm_set_set {α : Type} (l : List α) (i : Nat) (x y : α)
    (hx : l[i]? = some x) (hy : l[i + 1]? = some y) :
    ((l.set (i + 1) x).set i y).Perm l := by
  induction l generalizing i with
  | nil => simp at hx
  | cons a t ih =>
    cases i with
    | zero =>
      cases t with
      | nil => simp at hy
      | cons b t' =>
        simp at hx hy
        subst hx hy
        simpa using List.Perm.swap _ _ _
    | succ n =>
      simp at hx hy
      simpa using ih n hx hy

/-- The index expression succeeds exactly on positions inside the slice. -/
theorem index_eq_ok {α : Type} (xs : List α) (i : Int) (h0 : 0 ≤ i) (h1 : i < xs.length) :
    ∃ x, index xs i = .ok x ∧ xs[i.toNat]? = some x := by
  have hlt : i.toNat < xs.length := by omega
  refine ⟨xs[i.toNat], ?_, ?_⟩
  · simp [index, not_lt.mpr h0, List.getElem?_eq_getElem hlt]
  · simp [List.getElem?_eq_getElem hlt]

theorem index_ok_inv {α : Type} (xs : List α) (i : Int) (x : α) (h : index xs i = .ok x) :
    0 ≤ i ∧ i < xs.length ∧ xs[i.toNat]? = some x := by
  unfold index at h
  split at h
  · simp at h
  · split at h
    · rename_i hx
      simp at h
      subst h
      have := (List.getElem?_eq_some_iff.mp hx).1
      refine ⟨by omega, by omega, hx⟩
    · simp at h

/-! ### What each admin operation does to the world -/

theorem add_ok (now : Int) (m : model) (w : World) (k : KeyMsg)
    (hk : k.String = ascii "enter" ∨ k.String = ascii "ctrl+s") (hid : m.editingID = []) :
    updateAdminEditView now m w k =
      .ok ⟨{ m with mode := .adminView },
        saveData { w with
          todoObjs := w.todoObjs ++
            [{ ID := newTodoID now, Name := m.editName, Description := m.editDesc }]
          appData :=
            { w.appData with
              TodoItems := w.appData.TodoItems.set (newTodoID now) w.todoObjs.length
              TodoOrder := w.appData.TodoOrder ++ [newTodoID now] } }, .nil⟩ := by
  unfold updateAdminEditView
  rcases hk with hk | hk <;> simp [hk, hid, ascii]

theorem edit_appData (now : Int) (m : model) (w : World) (k : KeyMsg) (r : Step)
    (hk : k.String = ascii "enter" ∨ k.String = ascii "ctrl+s") (hid : m.editingID ≠ [])
    (h : updateAdminEditView now m w k = .ok r) :
    r.w.appData = w.appData ∧ r.w.userObjs = w.userObjs ∧ r.m = { m with mode := .adminView } := by
  unfold updateAdminEditView at h
  rcases hk with hk | hk <;> simp [hk, hid, ascii] at h
  all_goals
    split at h
    · split at h
      · simp at h
      · simp at h
        subst h
        simp [saveData]
    · simp at h
      subst h
      simp [saveData]

theorem delete_ok (m : model) (w : World) (k : KeyMsg) (hk : k.String = ascii "y")
    (hne : w.appData.TodoOrder ≠ []) :
    updateAdminDeleteConfirmView m w k =
      .ok ⟨{ m with
              cursor :=
                if m.cursor ≥ ((w.appData.TodoOrder.filter
                    (fun id => decide (id ≠ m.deleteConfirmID))).length : Int) ∧ m.cursor > 0
                then m.cursor - 1 else m.cursor
              deleteConfirmID := []
              mode := .adminView },
        saveData { w with
          appData :=
            { w.appData with
              TodoItems := w.appData.TodoItems.delete m.deleteConfirmID
              TodoOrder := w.appData.TodoOrder.filter
                (fun id => decide (id ≠ m.deleteConfirmID)) } }, .nil⟩ := by
  have hlen : ¬ ((w.appData.TodoOrder.length : Int) - 1 < 0) := by
    have := List.length_pos.mpr hne
    omega
  unfold updateAdminDeleteConfirmView
  simp only [hk, if_true, hlen, if_false, saveData]

theorem delete_empty_panics (m : model) (w : World) (k : KeyMsg) (hk : k.String = ascii "y")
    (he : w.appData.TodoOrder = []) :
    updateAdminDeleteConfirmView m w k = .error .makesliceCapOutOfRange := by
  unfold updateAdminDeleteConfirmView
  simp [hk, he]

theorem moveUp_ok (m : model) (w : World) (k : KeyMsg) (hk : k.String = ascii "K")
    (h0 : 0 < m.cursor) (h1 : m.cursor < w.appData.TodoOrder.length) :
    ∃ prev cur, w.appData.TodoOrder[(m.cursor - 1).toNat]? = some prev ∧
      w.appData.TodoOrder[m.cursor.toNat]? = some cur ∧
      updateAdminView m w k =
        .ok ⟨{ m with cursor := m.cursor - 1 },
          saveData { w with
            appData :=
              { w.appData with
                TodoOrder := (w.appData.TodoOrder.set m.cursor.toNat prev).set
                  (m.cursor - 1).toNat cur } }, .nil⟩ := by
  obtain ⟨prev, hp, hp'⟩ := index_eq_ok w.appData.TodoOrder (m.cursor - 1) (by omega) (by omega)
  obtain ⟨cur, hc, hc'⟩ := index_eq_ok w.appData.TodoOrder m.cursor (by omega) (by omega)
  refine ⟨prev, cur, hp', hc', ?_⟩
  have hpos : (0 : Int) < w.appData.TodoOrder.length := by omega
  unfold updateAdminView
  simp [hk, ascii, h0, hpos, hp, hc]

theorem moveDown_ok (m : model) (w : World) (k : KeyMsg) (hk : k.String = ascii "J")
    (h0 : 0 ≤ m.cursor) (h1 : m.cursor < (w.appData.TodoOrder.length : Int) - 1) :
    ∃ next cur, w.appData.TodoOrder[(m.cursor + 1).toNat]? = some next ∧
      w.appData.TodoOrder[m.cursor.toNat]? = some cur ∧
      updateAdminView m w k =
        .ok ⟨{ m with cursor := m.cursor + 1 },
          saveData { w with
            appData :=
              { w.appData with
                TodoOrder := (w.appData.TodoOrder.set m.cursor.toNat next).set
                  (m.cursor + 1).toNat cur } }, .nil⟩ := by
  obtain ⟨next, hp, hp'⟩ := index_eq_ok w.appData.TodoOrder (m.cursor + 1) (by omega) (by omega)
  obtain ⟨cur, hc, hc'⟩ := index_eq_ok w.appData.TodoOrder m.cursor (by omega) (by omega)
  refine ⟨next, cur, hp', hc', ?_⟩
  have hpos : (0 : Int) < w.appData.TodoOrder.length := by omega
  unfold updateAdminView
  simp [hk, ascii, h1, hpos, hp, hc]
theorem index_error_of_le {α : Type} (xs : List α) (i : Int) (h : (xs.length : Int) ≤ i) :
    index xs i = .error .indexOutOfRange := by
  unfold index
  split
  · rfl
  · have : xs[i.toNat]? = none := by
      apply List.getElem?_eq_none
      omega
    simp [this]

theorem move_appData (m : model) (w : World) (k : KeyMsg) (r : Step)
    (hk : k.String = ascii "K" ∨ k.String = ascii "J")
    (h : updateAdminView m w k = .ok r) :
    r.w.appData.TodoItems = w.appData.TodoItems ∧ r.w.appData.Users = w.appData.Users ∧
      r.w.appData.TodoOrder.Perm w.appData.TodoOrder := by
  rcases hk with hk | hk
  · by_cases hg : 0 < m.cursor ∧ m.cursor < w.appData.TodoOrder.length
    · obtain ⟨prev, cur, hp, hc, he⟩ := moveUp_ok m w k hk hg.1 hg.2
      rw [he] at h
      cases h
      refine ⟨rfl, rfl, ?_⟩
      have e1 : m.cursor.toNat = (m.cursor - 1).toNat + 1 := by omega
      simp only [saveData]
      rw [e1]
      rw [e1] at hc
      exact perm_set_set _ _ prev cur hp hc
    · unfold updateAdminView at h
      simp only [hk] at h
      simp [ascii] at h
      split at h
      · rename_i hg'
        have hge : (w.appData.TodoOrder.length : Int) ≤ m.cursor := by omega
        rw [index_error_of_le _ _ hge] at h
        split at h <;> simp_all
      · cases h
        exact ⟨rfl, rfl, List.Perm.refl _⟩
  · by_cases hg : (0 : Int) < w.appData.TodoOrder.length ∧
        m.cursor < (w.appData.TodoOrder.length : Int) - 1
    · by_cases h0 : 0 ≤ m.cursor
      · obtain ⟨next, cur, hp, hc, he⟩ := moveDown_ok m w k hk h0 hg.2
        rw [he] at h
        cases h
        refine ⟨rfl, rfl, ?_⟩
        have e1 : (m.cursor + 1).toNat = m.cursor.toNat + 1 := by omega
        simp only [saveData]
        rw [e1]
        rw [e1] at hp
        have hne : m.cursor.toNat ≠ m.cursor.toNat + 1 := by omega
        rw [List.set_comm _ _ _ hne]
        exact perm_set_set _ _ cur next hc hp
      · unfold updateAdminView at h
        simp only [hk] at h
        simp [ascii, hg] at h
        have hi : index w.appData.TodoOrder m.cursor = .error .indexOutOfRange := by
          simp [index, not_le.mp h0]
        rw [hi] at h
        split at h <;> simp_all
    · unfold updateAdminView at h
      simp only [hk] at h
      simp [ascii] at h
      split at h
      · rename_i hg'
        exact absurd ⟨by omega, hg'.2⟩ hg
      · cases h
        exact ⟨rfl, rfl, List.Perm.refl _⟩

/-! ### Order and items -/

theorem adminOp_appData (e : KeyEvent) (w : World) (r : Step) (hop : IsAdminOp e)
    (h : Update e.now e.m w (.KeyMsg e.k) = .ok r) :
    (IsAdd e ∧ r.w.appData.TodoOrder = w.appData.TodoOrder ++ [newTodoID e.now] ∧
        r.w.appData.TodoItems = w.appData.TodoItems.set (newTodoID e.now) w.todoObjs.length) ∨
      (r.w.appData.TodoItems = w.appData.TodoItems ∧
        r.w.appData.TodoOrder.Perm w.appData.TodoOrder) ∨
      (r.w.appData.TodoItems = w.appData.TodoItems.delete e.m.deleteConfirmID ∧
        r.w.appData.TodoOrder =
          w.appData.TodoOrder.filter (fun id => decide (id ≠ e.m.deleteConfirmID))) := by
  rcases hop with hadd | hedit | hdel | hmove
  · obtain ⟨hmode, hid, hk⟩ := hadd
    simp only [Update, hmode] at h
    rw [add_ok e.now e.m w e.k hk hid] at h
    cases h
    exact Or.inl ⟨⟨hmode, hid, hk⟩, rfl, rfl⟩
  · obtain ⟨hmode, hid, hk⟩ := hedit
    simp only [Update, hmode] at h
    have := (edit_appData e.now e.m w e.k r hk hid h).1
    exact Or.inr (Or.inl ⟨by rw [this], by rw [this]⟩)
  · obtain ⟨hmode, hk⟩ := hdel
    simp only [Update, hmode] at h
    by_cases hne : w.appData.TodoOrder = []
    · rw [delete_empty_panics e.m w e.k hk hne] at h
      cases h
    · rw [delete_ok e.m w e.k hk hne] at h
      cases h
      exact Or.inr (Or.inr ⟨rfl, rfl⟩)
  · obtain ⟨hmode, hk⟩ := hmove
    simp only [Update, hmode] at h
    obtain ⟨h1, -, h3⟩ := move_appData e.m w e.k r hk h
    exact Or.inr (Or.inl ⟨h1, h3⟩)

theorem adminOp_sameIds (e : KeyEvent) (w : World) (r : Step) (hop : IsAdminOp e)
    (hinv : ∀ id, id ∈ w.appData.TodoOrder ↔ id ∈ w.appData.TodoItems.keys)
    (h : Update e.now e.m w (.KeyMsg e.k) = .ok r) :
    ∀ id, id ∈ r.w.appData.TodoOrder ↔ id ∈ r.w.appData.TodoItems.keys := by
  intro id
  rcases adminOp_appData e w r hop h with ⟨-, ho, hi⟩ | ⟨hi, ho⟩ | ⟨hi, ho⟩
  · rw [ho, hi, GoMap.mem_keys_set, List.mem_append, hinv id]
    simp only [List.mem_singleton]
    tauto
  · rw [hi, ho.mem_iff]
    exact hinv id
  · rw [ho, hi, GoMap.mem_keys_delete, List.mem_filter, hinv id]
    simp

theorem adminOp_nodup (e : KeyEvent) (w : World) (r : Step) (hop : IsAdminOp e)
    (hinv : ∀ id, id ∈ w.appData.TodoOrder ↔ id ∈ w.appData.TodoItems.keys)
    (hnd : w.appData.TodoOrder.Nodup)
    (hfresh : IsAdd e → newTodoID e.now ∉ w.appData.TodoItems.keys)
    (h : Update e.now e.m w (.KeyMsg e.k) = .ok r) :
    r.w.appData.TodoOrder.Nodup := by
  rcases adminOp_appData e w r hop h with ⟨hadd, ho, -⟩ | ⟨-, ho⟩ | ⟨-, ho⟩
  · rw [ho]
    have hnot : newTodoID e.now ∉ w.appData.TodoOrder := fun hmem =>
      hfresh hadd ((hinv _).mp hmem)
    exact List.Nodup.append hnd (List.nodup_singleton _) (by simpa using hnot)
  · exact ho.nodup_iff.mpr hnd
  · rw [ho]
    exact hnd.filter _

theorem runOps_invariant (ops : List KeyEvent) (w0 w : World)
    (hops : ∀ e ∈ ops, IsAdminOp e)
    (hinv : ∀ id, id ∈ w0.appData.TodoOrder ↔ id ∈ w0.appData.TodoItems.keys)
    (hrun : runOps ops w0 = .ok w) :
    (∀ id, id ∈ w.appData.TodoOrder ↔ id ∈ w.appData.TodoItems.keys) ∧
      (w0.appData.TodoOrder.Nodup → freshAdds ops w0 = true → w.appData.TodoOrder.Nodup) := by
  induction ops generalizing w0 with
  | nil =>
    simp only [runOps, Except.ok.injEq] at hrun
    subst hrun
    exact ⟨hinv, fun hnd _ => hnd⟩
  | cons e rest ih =>
    have hop : IsAdminOp e := hops e (List.mem_cons_self _ _)
    have hrest : ∀ e' ∈ rest, IsAdminOp e' := fun e' he' => hops e' (List.mem_cons_of_mem _ he')
    simp only [runOps] at hrun
    cases hstep : Update e.now e.m w0 (.KeyMsg e.k) with
    | error p => simp [hstep] at hrun
    | ok r =>
      simp only [hstep] at hrun
      have hinv1 := adminOp_sameIds e w0 r hop hinv hstep
      obtain ⟨hs, hn⟩ := ih r.w hrest hinv1 hrun
      refine ⟨hs, fun hnd hfr => ?_⟩
      simp only [freshAdds, hstep, Bool.and_eq_true, decide_eq_true_eq] at hfr
      exact hn (adminOp_nodup e w0 r hop hinv hnd hfr.1 hstep) hfr.2

/-- C1 (amended): from the empty store, after any sequence of admin Add, Edit, Delete and
Move operations that runs to completion, the ids in `TodoOrder` are exactly the keys of
`TodoItems`; and `TodoOrder` has no duplicate id provided every Add generated an id that
was not already a key of `TodoItems` (the id is derived from the clock reading alone). -/
theorem order_items_agree (ops : List KeyEvent) (w : World)
    (hops : ∀ e ∈ ops, IsAdminOp e) (hrun : runOps ops World.empty = .ok w) :
    (∀ id, id ∈ w.appData.TodoOrder ↔ id ∈ w.appData.TodoItems.keys) ∧
      (freshAdds ops World.empty = true → w.appData.TodoOrder.Nodup) := by
  have h := runOps_invariant ops World.empty w hops (by simp [World.empty, GoMap.keys]) hrun
  exact ⟨h.1, h.2 (by simp [World.empty])⟩

/-- The statement of `order_items_agree` at the run `laterAdds`. -/
theorem order_items_agree_witness :
    (∀ id, id ∈ laterAddsWorld.appData.TodoOrder ↔
        id ∈ laterAddsWorld.appData.TodoItems.keys) ∧
      (freshAdds laterAdds World.empty = true → laterAddsWorld.appData.TodoOrder.Nodup) :=
  order_items_agree laterAdds laterAddsWorld (by decide) (by decide)

/-- C1 as stated fails: two Adds handled at the same clock reading put the same id into
`TodoOrder` twice. -/
theorem same_second_adds_duplicate :
    (∀ e ∈ sameSecondAdds, IsAdminOp e) ∧
      (runOps sameSecondAdds World.empty).toOption.map (fun w => w.appData.TodoOrder) =
        some [ascii "todo_5", ascii "todo_5"] ∧
      ¬ [ascii "todo_5", ascii "todo_5"].Nodup := by
  decide

/-! ### Stale cursors -/

/-- C2: the code indexes `TodoOrder` out of range.  After `staleCursorSetup` the store has
one item and satisfies the order/items agreement, the first admin session is in
`adminView` with cursor 1, and its next key `K` panics with an index out of range. -/
theorem stale_cursor_move_up_panics :
    System.run staleCursorSetup System.init =
        .ok { world := staleWorld,
              sessions := [some staleModel, some { staleModel with cursor := 0, editName := [] }] } ∧
      staleWorld.appData.TodoOrder = [newTodoID 6] ∧
      staleWorld.appData.TodoItems.keys = [newTodoID 6] ∧
      Update 9 staleModel staleWorld (.KeyMsg (key "K")) = .error .indexOutOfRange ∧
      System.run (staleCursorSetup ++ [press 0 9 (key "K")]) System.init =
        .error .indexOutOfRange := by
  decide
/-- The sibling paths re-check the cursor: in `todoListView` no key indexes out of range. -/
theorem todoList_index_in_range (m : model) (w : World) (k : KeyMsg) (h0 : 0 ≤ m.cursor) :
    ∃ r, updateTodoListView m w k = .ok r := by
  unfold updateTodoListView
  simp only []
  split_ifs with h1 h2 h3 h4 h5 h6 h7
  all_goals first
    | exact ⟨_, rfl⟩
    | (obtain ⟨x, hx, -⟩ := index_eq_ok w.appData.TodoOrder m.cursor h0 h7.2
       rw [hx]
       exact ⟨_, rfl⟩)

/-- In `adminView` every key other than `K` leaves the index expressions in range. -/
theorem admin_index_in_range (m : model) (w : World) (k : KeyMsg) (h0 : 0 ≤ m.cursor)
    (hk : k.String ≠ ascii "K") :
    updateAdminView m w k ≠ .error .indexOutOfRange := by
  unfold updateAdminView
  simp only [hk, if_false]
  split_ifs with h1 h2 h3 h4 h5 h6 h7 h8 h9 h10 h11 h12 h13
  all_goals first
    | exact fun h => by cases h
    | (obtain ⟨x, hx, -⟩ := index_eq_ok w.appData.TodoOrder m.cursor h0 (by omega)
       obtain ⟨y, hy, -⟩ := index_eq_ok w.appData.TodoOrder (m.cursor + 1) (by omega) (by omega)
       rw [hx, hy]
       exact fun h => by cases h)
    | (obtain ⟨x, hx, -⟩ := index_eq_ok w.appData.TodoOrder m.cursor h0 (by omega)
       rw [hx]
       exact fun h => by cases h)
    | (obtain ⟨x, hx, -⟩ := index_eq_ok w.appData.TodoOrder m.cursor h0 (by omega)
       rw [hx]
       simp only []
       cases hd : deref w.todoObjs (w.appData.TodoItems.get x) with
       | ok t => exact fun h => by cases h
       | error e =>
         have he : e = .nilDereference := by
           unfold deref at hd
           split at hd
           · cases hd; rfl
           · split at hd
             · cases hd
             · cases hd; rfl
         subst he
         exact fun h => by cases h)

/-! ### Registration -/

/-- C3: the code replaces an existing record.  `bobKey` is registered as the non-admin
`bob` with one completion; a session of the same key that is still in `usernameView`
presses Enter with `eve` typed: the stored record for `bobKey` becomes a fresh one named
`eve` with no completions, and the session continues with that new record. -/
theorem registration_replaces_existing_user :
    bobWorld.userOf bobKey =
        some { Username := ascii "bob", PublicKey := bobKey, IsAdmin := false,
               Completions := [(newTodoID 5, true)] } ∧
      (Update 9 lateModel bobWorld (.KeyMsg keyEnter)).toOption.map
          (fun r => (r.w.userOf bobKey, r.m.user, r.w.appData.Users)) =
        some (some { Username := ascii "eve", PublicKey := bobKey, IsAdmin := false,
                     Completions := [] },
              some 2, [(adminKey, 0), (bobKey, 2)]) := by
  decide

/-- C4: the code changes a stored admin flag.  Two sessions of one identity are accepted
before either registers; after the first registers the identity is admin, and after the
second registers too the record stored for the same identity has `IsAdmin = false`. -/
theorem admin_flag_overwritten :
    (System.run twinSetup System.init).toOption.map
        (fun s => (s.world.userOf adminKey).map (fun u => u.IsAdmin)) = some (some true) ∧
      (System.run (twinSetup ++ twinRegistration) System.init).toOption.map
        (fun s => (s.world.userOf adminKey).map (fun u => u.IsAdmin)) = some (some false) := by
  decide

theorem username_enter_eq (m : model) (w : World) (k : KeyMsg)
    (hkey : k.keyType = .KeyEnter) (hinput : m.input ≠ []) :
    updateUsernameView m w k =
      .ok ⟨{ m with
              user := some w.userObjs.length
              mode := if w.appData.Users.length = 0 then .adminView else .todoListView
              input := [] },
        saveData { w with
          userObjs := w.userObjs ++
            [{ Username := m.input, PublicKey := m.publicKey,
               IsAdmin := decide (w.appData.Users.length = 0), Completions := [] }]
          appData :=
            { w.appData with Users := w.appData.Users.set m.publicKey w.userObjs.length } },
        .nil⟩ := by
  simp [updateUsernameView, hkey, hinput]

theorem register_eq (pk name : GoString) (w : World) (hname : name ≠ [])
    (hnew : w.appData.Users.get pk = none) :
    register pk name w =
      .ok (saveData { w with
        userObjs := w.userObjs ++
          [{ Username := name, PublicKey := pk,
             IsAdmin := decide (w.appData.Users.length = 0), Completions := [] }]
        appData := { w.appData with Users := w.appData.Users.set pk w.userObjs.length } }) := by
  simp [register, initialModel, hnew, Update, updateUsernameView, keyEnter, hname]

theorem registerThree_eq (u1 u2 u3 n1 n2 n3 : GoString)
    (h12 : u1 ≠ u2) (h13 : u1 ≠ u3) (h23 : u2 ≠ u3)
    (hn1 : n1 ≠ []) (hn2 : n2 ≠ []) (hn3 : n3 ≠ []) :
    registerThree u1 n1 u2 n2 u3 n3 World.empty =
      .ok (saveData
        { appData := { Users := [(u1, 0), (u2, 1), (u3, 2)], TodoItems := [], TodoOrder := [] }
          userObjs :=
            [{ Username := n1, PublicKey := u1, IsAdmin := true, Completions := [] },
             { Username := n2, PublicKey := u2, IsAdmin := false, Completions := [] },
             { Username := n3, PublicKey := u3, IsAdmin := false, Completions := [] }]
          todoObjs := []
          dataFile := none }) := by
  have e1 := register_eq u1 n1 World.empty hn1 (by simp [World.empty, GoMap.get])
  simp only [World.empty, saveData, marshal, GoMap.set, List.length_nil, List.nil_append,
    List.map_nil, decide_True] at e1
  simp only [registerThree, World.empty, e1]
  rw [register_eq u2 n2 _ hn2 (by simp [GoMap.get, h12])]
  simp only [saveData, GoMap.set, h12, if_false]
  rw [register_eq u3 n3 _ hn3 (by simp [GoMap.get, h13, h23])]
  simp [saveData, marshal, GoMap.set, h13, h23]

/-- C5: first user is admin.  Registering three distinct identities in sequence on the
empty store stores `IsAdmin = true` for the first and `false` for the other two; and any
Enter with a non-empty name in `usernameView` stores a record whose `IsAdmin` is true
exactly when `Users` was empty just before, moving the session to `adminView` in that
case and to `todoListView` otherwise. -/
theorem first_user_is_admin (u1 u2 u3 n1 n2 n3 : GoString) (now : Int) (m : model)
    (w : World) (k : KeyMsg)
    (h12 : u1 ≠ u2) (h13 : u1 ≠ u3) (h23 : u2 ≠ u3)
    (hn1 : n1 ≠ []) (hn2 : n2 ≠ []) (hn3 : n3 ≠ [])
    (hmode : m.mode = .usernameView) (hkey : k.keyType = .KeyEnter) (hinput : m.input ≠ []) :
    (∃ w3, registerThree u1 n1 u2 n2 u3 n3 World.empty = .ok w3 ∧
        (w3.userOf u1).map (fun u => u.IsAdmin) = some true ∧
        (w3.userOf u2).map (fun u => u.IsAdmin) = some false ∧
        (w3.userOf u3).map (fun u => u.IsAdmin) = some false) ∧
      (∃ r, Update now m w (.KeyMsg k) = .ok r ∧
        r.w.userOf m.publicKey =
          some { Username := m.input, PublicKey := m.publicKey,
                 IsAdmin := decide (w.appData.Users = []), Completions := [] } ∧
        (w.appData.Users = [] → r.m.mode = .adminView) ∧
        (w.appData.Users ≠ [] → r.m.mode = .todoListView) ∧
        r.m.user = some w.userObjs.length ∧
        r.cmd = .nil) := by
  constructor
  · refine ⟨_, registerThree_eq u1 u2 u3 n1 n2 n3 h12 h13 h23 hn1 hn2 hn3, ?_⟩
    simp [World.userOf, saveData, GoMap.get, h12, h13, h23, Ne.symm h12, Ne.symm h13,
      Ne.symm h23]
  · have hu : Update now m w (.KeyMsg k) = updateUsernameView m w k := by
      simp only [Update, hmode]
    refine ⟨_, hu.trans (username_enter_eq m w k hkey hinput), ?_, ?_, ?_, rfl, rfl⟩
    · simp [World.userOf, saveData, GoMap.get_set_self]
    · intro he
      simp [he]
    · intro hne
      simp [hne]

/-- The statement of `first_user_is_admin` at three concrete identities and at a late
registration on `bobWorld`. -/
theorem first_user_is_admin_witness :
    (∃ w3, registerThree adminKey (ascii "alice") bobKey (ascii "bob") carolKey (ascii "carol")
          World.empty = .ok w3 ∧
        (w3.userOf adminKey).map (fun u => u.IsAdmin) = some true ∧
        (w3.userOf bobKey).map (fun u => u.IsAdmin) = some false ∧
        (w3.userOf carolKey).map (fun u => u.IsAdmin) = some false) ∧
      (∃ r, Update 9 lateModel bobWorld (.KeyMsg keyEnter) = .ok r ∧
        r.w.userOf lateModel.publicKey =
          some { Username := lateModel.input, PublicKey := lateModel.publicKey,
                 IsAdmin := decide (bobWorld.appData.Users = []), Completions := [] } ∧
        (bobWorld.appData.Users = [] → r.m.mode = .adminView) ∧
        (bobWorld.appData.Users ≠ [] → r.m.mode = .todoListView) ∧
        r.m.user = some bobWorld.userObjs.length ∧
        r.cmd = .nil) :=
  first_user_is_admin adminKey bobKey carolKey (ascii "alice") (ascii "bob") (ascii "carol")
    9 lateModel bobWorld keyEnter (by decide) (by decide) (by decide) (by decide) (by decide)
    (by decide) (by decide) (by decide) (by decide)

/-! ### Quit -/

/-- C6: the code has no quit key in `todoDetailView`.  Whatever message arrives in that
mode, `Update` does not return `tea.Quit`; in each of the six other modes the key
`ctrl+c` does. -/
theorem todoDetail_has_no_quit_key (now : Int) (m : model) (w : World) (msg : Msg) :
    quits (Update now { m with mode := .todoDetailView } w msg) = false ∧
      quits (Update now { m with mode := .usernameView } w (.KeyMsg keyCtrlC)) = true ∧
      quits (Update now { m with mode := .todoListView } w (.KeyMsg keyCtrlC)) = true ∧
      quits (Update now { m with mode := .adminView } w (.KeyMsg keyCtrlC)) = true ∧
      quits (Update now { m with mode := .adminEditView } w (.KeyMsg keyCtrlC)) = true ∧
      quits (Update now { m with mode := .adminProgressView } w (.KeyMsg keyCtrlC)) = true ∧
      quits (Update now { m with mode := .adminDeleteConfirmView } w (.KeyMsg keyCtrlC)) =
        true := by
  refine ⟨?_, ?_, ?_, ?_, ?_, ?_, ?_⟩
  · cases msg with
    | WindowSizeMsg a b => rfl
    | other => rfl
    | KeyMsg k =>
      simp only [Update, updateTodoDetailView]
      repeat' split
      all_goals rfl
  · rfl
  · simp [Update, updateTodoListView, keyCtrlC, quits, ascii]
  · simp [Update, updateAdminView, keyCtrlC, quits, ascii]
  · simp [Update, updateAdminEditView, keyCtrlC, quits, ascii]
  · simp [Update, updateAdminProgressView, keyCtrlC, quits, ascii]
  · simp [Update, updateAdminDeleteConfirmView, keyCtrlC, quits, ascii]

/-! ### Move -/

/-- Position by position, what two `set`s that exchange the entries at `i` and `j` leave. -/
theorem getElem?_set_set {α : Type} (l : List α) (i j : Nat) (x y : α)
    (hi : l[i]? = some x) (hj : l[j]? = some y) (n : Nat) :
    ((l.set i y).set j x)[n]? =
      if n = j then l[i]? else if n = i then l[j]? else l[n]? := by
  have hil : i < l.length := (List.getElem?_eq_some_iff.mp hi).1
  have hjl : j < l.length := (List.getElem?_eq_some_iff.mp hj).1
  by_cases h1 : n = j
  · subst h1
    simp [List.getElem?_set, hjl, hi]
  · by_cases h2 : n = i
    · subst h2
      simp [List.getElem?_set, h1, Ne.symm h1, hil, hj]
    · simp [List.getElem?_set, h1, h2, Ne.symm h1, Ne.symm h2]

/-- C7: a move exchanges two neighbours and the cursor follows the moved item.  In
`adminView`, key `K` with `0 < cursor < len(TodoOrder)`, or key `J` with
`0 <= cursor < len(TodoOrder) - 1`, succeeds; the new cursor is `cursor - 1` for `K` and
`cursor + 1` for `J`; the new `TodoOrder` holds the old entry of position `cursor` at the
new cursor, the old entry of the new cursor's position at `cursor`, and is unchanged
everywhere else; `TodoItems`, `Users` and all stored objects are unchanged. -/
theorem move_swaps_neighbours (now : Int) (m : model) (w : World) (k : KeyMsg)
    (hmode : m.mode = .adminView)
    (hkey : (k.String = ascii "K" ∧ 0 < m.cursor ∧ m.cursor < w.appData.TodoOrder.length) ∨
      (k.String = ascii "J" ∧ 0 ≤ m.cursor ∧
        m.cursor < (w.appData.TodoOrder.length : Int) - 1)) :
    ∃ r, Update now m w (.KeyMsg k) = .ok r ∧
      r.m.cursor = (if k.String = ascii "K" then m.cursor - 1 else m.cursor + 1) ∧
      r.w.appData.TodoOrder.length = w.appData.TodoOrder.length ∧
      (∀ i : Nat, r.w.appData.TodoOrder[i]? =
        if i = r.m.cursor.toNat then w.appData.TodoOrder[m.cursor.toNat]?
        else if i = m.cursor.toNat then w.appData.TodoOrder[r.m.cursor.toNat]?
        else w.appData.TodoOrder[i]?) ∧
      r.w.appData.TodoItems = w.appData.TodoItems ∧
      r.w.appData.Users = w.appData.Users ∧
      r.w.userObjs = w.userObjs ∧ r.w.todoObjs = w.todoObjs ∧
      r.m.mode = .adminView := by
  have hu : Update now m w (.KeyMsg k) = updateAdminView m w k := by
    simp only [Update, hmode]
  rcases hkey with ⟨hk, h0, h1⟩ | ⟨hk, h0, h1⟩
  · obtain ⟨prev, cur, hp, hc, he⟩ := moveUp_ok m w k hk h0 h1
    refine ⟨_, hu.trans he, ?_, ?_, ?_, rfl, rfl, rfl, rfl, hmode⟩
    · simp [hk]
    · simp [saveData]
    · intro i
      simpa [saveData] using getElem?_set_set _ _ _ cur prev hc hp i
  · obtain ⟨next, cur, hp, hc, he⟩ := moveDown_ok m w k hk h0 h1
    refine ⟨_, hu.trans he, ?_, ?_, ?_, rfl, rfl, rfl, rfl, hmode⟩
    · simp [hk, ascii]
    · simp [saveData]
    · intro i
      simpa [saveData] using getElem?_set_set _ _ _ cur next hc hp i

/-- C8: a move at a boundary changes nothing.  In `adminView`, key `K` with the cursor at
0 or on an empty list, and key `J` with the cursor at `len(TodoOrder) - 1` or on an empty
list, return the model and the world as they were. -/
theorem move_at_boundary_noop (now : Int) (m : model) (w : World) (k : KeyMsg)
    (hmode : m.mode = .adminView)
    (hkey : (k.String = ascii "K" ∧ (m.cursor = 0 ∨ w.appData.TodoOrder = [])) ∨
      (k.String = ascii "J" ∧
        (m.cursor = (w.appData.TodoOrder.length : Int) - 1 ∨ w.appData.TodoOrder = []))) :
    Update now m w (.KeyMsg k) = .ok ⟨m, w, .nil⟩ := by
  simp only [Update, hmode]
  unfold updateAdminView
  rcases hkey with ⟨hk, hb⟩ | ⟨hk, hb⟩
  · simp only [hk]
    simp [ascii]
    intro hlen hc
    rcases hb with hb | hb
    · omega
    · simp [hb] at hlen
  · simp only [hk]
    simp [ascii]
    intro hlen hc
    rcases hb with hb | hb
    · omega
    · simp [hb] at hlen

/-- The statement of `move_swaps_neighbours` for `K` at cursor 1 of a two-item list, with
the evaluation of `J` at cursor 0 next to it. -/
theorem move_swaps_neighbours_witness :
    (∃ r, Update 9 (adminModel 1) laterAddsWorld (.KeyMsg (key "K")) = .ok r ∧
      r.m.cursor =
        (if (key "K").String = ascii "K" then (adminModel 1).cursor - 1
         else (adminModel 1).cursor + 1) ∧
      r.w.appData.TodoOrder.length = laterAddsWorld.appData.TodoOrder.length ∧
      (∀ i : Nat, r.w.appData.TodoOrder[i]? =
        if i = r.m.cursor.toNat then
          laterAddsWorld.appData.TodoOrder[(adminModel 1).cursor.toNat]?
        else if i = (adminModel 1).cursor.toNat then
          laterAddsWorld.appData.TodoOrder[r.m.cursor.toNat]?
        else laterAddsWorld.appData.TodoOrder[i]?) ∧
      r.w.appData.TodoItems = laterAddsWorld.appData.TodoItems ∧
      r.w.appData.Users = laterAddsWorld.appData.Users ∧
      r.w.userObjs = laterAddsWorld.userObjs ∧ r.w.todoObjs = laterAddsWorld.todoObjs ∧
      r.m.mode = .adminView) ∧
    (Update 9 (adminModel 0) laterAddsWorld (.KeyMsg (key "J"))).toOption.map
        (fun r => (r.m.cursor, r.w.appData.TodoOrder)) =
      some (1, [newTodoID 6, newTodoID 5]) :=
  ⟨move_swaps_neighbours 9 (adminModel 1) laterAddsWorld (key "K") rfl
    (Or.inl ⟨by decide, by decide, by decide⟩), by decide⟩

/-- The statement of `move_at_boundary_noop` for `K` at cursor 0 and `J` at the last row. -/
theorem move_at_boundary_noop_witness :
    Update 9 (adminModel 0) laterAddsWorld (.KeyMsg (key "K")) =
        .ok ⟨adminModel 0, laterAddsWorld, .nil⟩ ∧
      Update 9 (adminModel 1) laterAddsWorld (.KeyMsg (key "J")) =
        .ok ⟨adminModel 1, laterAddsWorld, .nil⟩ :=
  ⟨move_at_boundary_noop 9 (adminModel 0) laterAddsWorld (key "K") rfl
      (Or.inl ⟨by decide, Or.inl (by decide)⟩),
    move_at_boundary_noop 9 (adminModel 1) laterAddsWorld (key "J") rfl
      (Or.inr ⟨by decide, Or.inl (by decide)⟩)⟩

/-! ### Delete -/

/-- C9: the code panics instead of deleting when `TodoOrder` is empty.  Key `y` in
`adminDeleteConfirmView` on any world with an empty `TodoOrder` fails in `make` with a
negative capacity; `staleDeleteSetup` reaches such a state (the target was deleted by
another session of the admin), and the next `y` of the first session ends the run. -/
theorem delete_on_empty_order_panics (now : Int) (m : model) (w : World) :
    Update now { m with mode := .adminDeleteConfirmView }
        { w with appData := { w.appData with TodoOrder := [] } } (.KeyMsg (key "y")) =
        .error .makesliceCapOutOfRange ∧
      (System.run staleDeleteSetup System.init).toOption.map
          (fun s => (s.world.appData.TodoOrder,
            s.sessions.map (fun o => o.map (fun x => (x.mode, x.deleteConfirmID))))) =
        some ([], [some (.adminDeleteConfirmView, newTodoID 5), some (.adminView, [])]) ∧
      System.run (staleDeleteSetup ++ [press 0 8 (key "y")]) System.init =
        .error .makesliceCapOutOfRange := by
  refine ⟨?_, by decide, by decide⟩
  simp only [Update]
  exact delete_empty_panics _ _ _ (by decide) rfl

/-- On a non-empty `TodoOrder` the delete does what C9 describes: the target is no longer a
key, every other key keeps its pointer and every object is untouched, `TodoOrder` loses
exactly the occurrences of the target, and `Users` with all user objects (hence every
completions map) is unchanged. -/
theorem delete_removes_target (now : Int) (m : model) (w : World) (k : KeyMsg)
    (hmode : m.mode = .adminDeleteConfirmView) (hk : k.String = ascii "y")
    (hne : w.appData.TodoOrder ≠ []) :
    ∃ r, Update now m w (.KeyMsg k) = .ok r ∧
      r.w.appData.TodoItems.get m.deleteConfirmID = none ∧
      (∀ id, id ≠ m.deleteConfirmID → r.w.itemOf id = w.itemOf id) ∧
      r.w.appData.TodoOrder =
        w.appData.TodoOrder.filter (fun id => decide (id ≠ m.deleteConfirmID)) ∧
      r.w.appData.Users = w.appData.Users ∧
      r.w.userObjs = w.userObjs ∧ r.w.todoObjs = w.todoObjs ∧
      (∀ pk, r.w.userOf pk = w.userOf pk) := by
  have hu : Update now m w (.KeyMsg k) = updateAdminDeleteConfirmView m w k := by
    simp only [Update, hmode]
  refine ⟨_, hu.trans (delete_ok m w k hk hne), ?_, ?_, rfl, rfl, rfl, rfl, ?_⟩
  · simp [saveData, GoMap.get_delete_self]
  · intro id hid
    simp [saveData, World.itemOf, GoMap.get_delete_ne _ _ _ hid]
  · intro pk
    simp [saveData, World.userOf]

theorem length_filter_ne (l : List GoString) (t : GoString) :
    (l.filter (fun id => decide (id ≠ t))).length + l.count t = l.length := by
  induction l with
  | nil => simp
  | cons a l ih =>
    by_cases h : a = t
    · subst h
      simp [List.filter_cons] at ih ⊢
      omega
    · have h' : ¬ t = a := fun e => h e.symm
      simp [List.filter_cons, h, List.count_cons, h'] at ih ⊢
      omega

/-- C10 (amended): in `adminDeleteConfirmView` with `0 <= cursor < len(TodoOrder)` and a
target id that occurs at most once in `TodoOrder`, key `y` succeeds, the mode becomes
`adminView`, and the new cursor is a valid index of the new `TodoOrder`, or is 0 when the
new `TodoOrder` is empty. -/
theorem delete_clamps_cursor (now : Int) (m : model) (w : World) (k : KeyMsg)
    (hmode : m.mode = .adminDeleteConfirmView) (hk : k.String = ascii "y")
    (h0 : 0 ≤ m.cursor) (h1 : m.cursor < w.appData.TodoOrder.length)
    (hcount : w.appData.TodoOrder.count m.deleteConfirmID ≤ 1) :
    ∃ r, Update now m w (.KeyMsg k) = .ok r ∧
      r.m.mode = .adminView ∧
      ((0 ≤ r.m.cursor ∧ r.m.cursor < r.w.appData.TodoOrder.length) ∨
        (r.w.appData.TodoOrder = [] ∧ r.m.cursor = 0)) := by
  have hne : w.appData.TodoOrder ≠ [] := by
    intro he
    simp [he] at h1
    omega
  have hu : Update now m w (.KeyMsg k) = updateAdminDeleteConfirmView m w k := by
    simp only [Update, hmode]
  refine ⟨_, hu.trans (delete_ok m w k hk hne), rfl, ?_⟩
  have hlen := length_filter_ne w.appData.TodoOrder m.deleteConfirmID
  simp only [saveData]
  generalize (w.appData.TodoOrder.filter (fun id => decide (id ≠ m.deleteConfirmID))) = l'
    at hlen ⊢
  cases l' with
  | nil =>
    right
    refine ⟨rfl, ?_⟩
    simp only [List.length_nil] at hlen ⊢
    split_ifs with hc
    · omega
    · have : ¬ m.cursor > 0 := fun hgt => hc ⟨by simpa using h0, hgt⟩
      omega
  | cons a t =>
    left
    simp only [List.length_cons] at hlen ⊢
    split_ifs with hc
    · omega
    · have : ¬ (m.cursor ≥ ((t.length + 1 : Nat) : Int) ∧ m.cursor > 0) := hc
      omega

/-- The statement of `delete_clamps_cursor` for the delete of the last of two rows. -/
theorem delete_clamps_cursor_witness :
    ∃ r, Update 9 (deleteModel 1 (newTodoID 6)) laterAddsWorld (.KeyMsg (key "y")) = .ok r ∧
      r.m.mode = .adminView ∧
      ((0 ≤ r.m.cursor ∧ r.m.cursor < r.w.appData.TodoOrder.length) ∨
        (r.w.appData.TodoOrder = [] ∧ r.m.cursor = 0)) :=
  delete_clamps_cursor 9 (deleteModel 1 (newTodoID 6)) laterAddsWorld (key "y") rfl
    (by decide) (by decide) (by decide) (by decide)

/-- C10 as stated fails: with the id `todo_2` twice in `TodoOrder` and the cursor on the
last of three rows, the delete leaves one row and the cursor at 1, which is not below the
new length 1.  `duplicateDeleteSetup` reaches this state from the empty store. -/
theorem delete_duplicate_cursor_out_of_range :
    (deleteModel 2 (newTodoID 2)).cursor < duplicateWorld.appData.TodoOrder.length ∧
      (Update 9 (deleteModel 2 (newTodoID 2)) duplicateWorld (.KeyMsg (key "y"))).toOption.map
          (fun r => (r.m.cursor, r.w.appData.TodoOrder, r.m.mode)) =
        some (1, [newTodoID 1], .adminView) ∧
      ¬ ((1 : Int) < ([newTodoID 1].length : Int)) ∧
      (System.run duplicateDeleteSetup System.init).toOption.map
          (fun s => s.world.appData.TodoOrder) =
        some [newTodoID 1, newTodoID 2, newTodoID 2] ∧
      (System.run duplicateDeleteSetup System.init).toOption.map
          (fun s => s.sessions.map (fun o => o.map (fun x => (x.mode, x.cursor)))) =
        some [some (.adminDeleteConfirmView, 2)] ∧
      (System.run (duplicateDeleteSetup ++ [press 0 5 (key "y")]) System.init).toOption.map
          (fun s => s.world.appData.TodoOrder) = some [newTodoID 1] ∧
      (System.run (duplicateDeleteSetup ++ [press 0 5 (key "y")]) System.init).toOption.map
          (fun s => s.sessions.map (fun o => o.map (fun x => (x.mode, x.cursor)))) =
        some [some (.adminView, 1)] := by
  decide

/-! ### The cursor never becomes negative -/

theorem updateUsernameView_cursor (m : model) (w : World) (k : KeyMsg) (r : Step)
    (h : updateUsernameView m w k = .ok r) : r.m.cursor = m.cursor := by
  revert h
  unfold updateUsernameView
  split <;> (try split_ifs) <;> intro h <;> cases h <;> rfl

theorem updateTodoListView_cursor (m : model) (w : World) (k : KeyMsg) (r : Step)
    (h0 : 0 ≤ m.cursor) (h : updateTodoListView m w k = .ok r) : 0 ≤ r.m.cursor := by
  revert h
  unfold updateTodoListView
  simp only []
  split_ifs <;> (try split) <;> intro h <;> cases h <;> simp only [] <;> omega

theorem updateTodoDetailView_cursor (m : model) (w : World) (k : KeyMsg) (r : Step)
    (h : updateTodoDetailView m w k = .ok r) : r.m.cursor = m.cursor := by
  revert h
  unfold updateTodoDetailView
  simp only []
  split_ifs <;> (try split) <;> (try split) <;> (try split) <;> (try split) <;> intro h <;>
    cases h <;> rfl

theorem updateAdminView_cursor (m : model) (w : World) (k : KeyMsg) (r : Step)
    (h0 : 0 ≤ m.cursor) (h : updateAdminView m w k = .ok r) : 0 ≤ r.m.cursor := by
  unfold updateAdminView at h
  by_cases c1 : k.String = ascii "q" ∨ k.String = ascii "ctrl+c"
  · rw [if_pos c1] at h; cases h; exact h0
  rw [if_neg c1] at h
  by_cases c2 : k.String = ascii "up" ∨ k.String = ascii "k"
  · rw [if_pos c2] at h
    split_ifs at h <;> cases h <;> dsimp only <;> omega
  rw [if_neg c2] at h
  by_cases c3 : k.String = ascii "down" ∨ k.String = ascii "j"
  · rw [if_pos c3] at h
    split_ifs at h <;> cases h <;> dsimp only <;> omega
  rw [if_neg c3] at h
  by_cases c4 : k.String = ascii "K"
  · rw [if_pos c4] at h
    split_ifs at h
    · split at h <;> cases h
      dsimp only
      omega
    · cases h; exact h0
  rw [if_neg c4] at h
  by_cases c5 : k.String = ascii "J"
  · rw [if_pos c5] at h
    split_ifs at h
    · split at h <;> cases h
      dsimp only
      omega
    · cases h; exact h0
  rw [if_neg c5] at h
  by_cases c6 : k.String = ascii "a"
  · rw [if_pos c6] at h; cases h; exact h0
  rw [if_neg c6] at h
  by_cases c7 : k.String = ascii "e"
  · rw [if_pos c7] at h
    split_ifs at h
    · split at h
      · cases h
      · split at h <;> cases h
        exact h0
    · cases h; exact h0
  rw [if_neg c7] at h
  by_cases c8 : k.String = ascii "d"
  · rw [if_pos c8] at h
    split_ifs at h
    · split at h <;> cases h
      exact h0
    · cases h; exact h0
  rw [if_neg c8] at h
  by_cases c9 : k.String = ascii "p"
  · rw [if_pos c9] at h; cases h; exact le_refl _
  rw [if_neg c9] at h
  cases h
  exact h0
theorem updateAdminEditView_cursor (now : Int) (m : model) (w : World) (k : KeyMsg) (r : Step)
    (h : updateAdminEditView now m w k = .ok r) : r.m.cursor = m.cursor := by
  revert h
  unfold updateAdminEditView
  simp only []
  split_ifs <;> (try split) <;> (try split) <;> intro h <;> cases h <;> rfl

theorem updateAdminProgressView_cursor (m : model) (w : World) (k : KeyMsg) (r : Step)
    (h : updateAdminProgressView m w k = .ok r) : r.m.cursor = m.cursor := by
  revert h
  unfold updateAdminProgressView
  simp only []
  split_ifs <;> intro h <;> cases h <;> rfl

theorem updateAdminDeleteConfirmView_cursor (m : model) (w : World) (k : KeyMsg) (r : Step)
    (h0 : 0 ≤ m.cursor) (h : updateAdminDeleteConfirmView m w k = .ok r) :
    0 ≤ r.m.cursor := by
  revert h
  unfold updateAdminDeleteConfirmView
  simp only []
  split_ifs <;> intro h <;> cases h <;> simp only [] <;> omega

/-- Every handler keeps a non-negative cursor non-negative. -/
theorem cursor_nonneg (now : Int) (m : model) (w : World) (msg : Msg) (r : Step)
    (h0 : 0 ≤ m.cursor) (h : Update now m w msg = .ok r) : 0 ≤ r.m.cursor := by
  cases msg with
  | WindowSizeMsg a b =>
    cases h
    exact h0
  | other =>
    cases h
    exact h0
  | KeyMsg k =>
    simp only [Update] at h
    split at h
    · rw [updateUsernameView_cursor m w k r h]; exact h0
    · exact updateTodoListView_cursor m w k r h0 h
    · rw [updateTodoDetailView_cursor m w k r h]; exact h0
    · exact updateAdminView_cursor m w k r h0 h
    · rw [updateAdminEditView_cursor now m w k r h]; exact h0
    · rw [updateAdminProgressView_cursor m w k r h]; exact h0
    · exact updateAdminDeleteConfirmView_cursor m w k r h0 h

/-- A new session starts with the cursor at 0. -/
theorem initialModel_cursor (pk : GoString) (w : World) (m : model)
    (h : initialModel pk w = .ok m) : m.cursor = 0 := by
  revert h
  unfold initialModel
  simp only []
  split <;> (try split) <;> (try split_ifs) <;> intro h <;> cases h <;> rfl

theorem step_cursor_nonneg (s s1 : System) (e : Event)
    (hs : ∀ m, some m ∈ s.sessions → 0 ≤ m.cursor) (h : s.step e = .ok s1) :
    ∀ m, some m ∈ s1.sessions → 0 ≤ m.cursor := by
  intro m hm
  cases e with
  | connect pk wd ht =>
    simp only [System.step] at h
    split at h
    · cases h
    · rename_i m0 hm0
      cases h
      simp only [List.mem_append, List.mem_singleton, Option.some.injEq] at hm
      rcases hm with hm | hm
      · exact hs m hm
      · subst hm
        simp [initialModel_cursor pk s.world m0 hm0]
  | deliver i now msg =>
    simp only [System.step] at h
    split at h
    · rename_i m0 hget
      split at h
      · cases h
      · rename_i r hr
        cases h
        have hm0 : some m0 ∈ s.sessions := List.getElem?_mem hget
        rcases List.mem_or_eq_of_mem_set hm with hm | hm
        · exact hs m hm
        · split_ifs at hm
          cases hm
          exact cursor_nonneg now m0 s.world msg r (hs m0 hm0) hr
    · cases h
      exact hs m hm

/-- In every state the server reaches from its start, every session's cursor is
non-negative. -/
theorem run_cursor_nonneg (events : List Event) (s s1 : System)
    (hs : ∀ m, some m ∈ s.sessions → 0 ≤ m.cursor) (h : System.run events s = .ok s1) :
    ∀ m, some m ∈ s1.sessions → 0 ≤ m.cursor := by
  induction events generalizing s with
  | nil =>
    cases h
    exact hs
  | cons e rest ih =>
    simp only [System.run] at h
    split at h
    · cases h
    · rename_i s2 hstep
      exact ih s2 (step_cursor_nonneg s s2 e hs hstep) h

/-! ### The generated id determines the clock reading -/

/-- The byte of a decimal digit character is the ASCII digit. -/
theorem digitChar_byte (d : Nat) (h : d < 10) :
    (UInt8.ofNat (Nat.digitChar d).toNat).toNat = 48 + d := by
  interval_cases d <;> rfl

theorem toDigitsCore_bytes (fuel n : Nat) (ds : List Char) (h : n < fuel) :
    ∃ L : List Char, Nat.toDigitsCore 10 fuel n ds = L ++ ds ∧ L ≠ [] ∧
      (∀ c ∈ L, 48 ≤ (UInt8.ofNat c.toNat).toNat ∧ (UInt8.ofNat c.toNat).toNat ≤ 57) ∧
      L.foldl (fun acc c => acc * 10 + ((UInt8.ofNat c.toNat).toNat - 48)) 0 = n := by
  induction fuel generalizing n ds with
  | zero => omega
  | succ fuel ih =>
    have hd := digitChar_byte (n % 10) (Nat.mod_lt _ (by decide))
    by_cases hz : n / 10 = 0
    · refine ⟨[Nat.digitChar (n % 10)], ?_, by simp, ?_, ?_⟩
      · simp [Nat.toDigitsCore, hz]
      · intro c hc
        simp only [List.mem_singleton] at hc
        subst hc
        omega
      · simp only [List.foldl_cons, List.foldl_nil, hd]
        omega
    · obtain ⟨L, hL, -, hdig, hval⟩ := ih (n / 10) (Nat.digitChar (n % 10) :: ds) (by omega)
      refine ⟨L ++ [Nat.digitChar (n % 10)], ?_, by simp, ?_, ?_⟩
      · simp [Nat.toDigitsCore, hz, hL]
      · intro c hc
        simp only [List.mem_append, List.mem_singleton] at hc
        rcases hc with hc | hc
        · exact hdig c hc
        · subst hc
          omega
      · simp only [List.foldl_append, List.foldl_cons, List.foldl_nil, hval, hd]
        omega

theorem natRepr_bytes (n : Nat) :
    ∃ L : List Char, (Nat.repr n).toList = L ∧ L ≠ [] ∧
      (∀ c ∈ L, 48 ≤ (UInt8.ofNat c.toNat).toNat ∧ (UInt8.ofNat c.toNat).toNat ≤ 57) ∧
      L.foldl (fun acc c => acc * 10 + ((UInt8.ofNat c.toNat).toNat - 48)) 0 = n := by
  obtain ⟨L, hL, hne, hdig, hval⟩ := toDigitsCore_bytes (n + 1) n [] (by omega)
  refine ⟨L, ?_, hne, hdig, hval⟩
  simp [Nat.repr, Nat.toDigits, hL, List.asString]

/-- Two lists of digit characters with the same bytes denote the same number. -/
theorem digits_val_congr (L1 L2 : List Char)
    (h : L1.map (fun c => UInt8.ofNat c.toNat) = L2.map (fun c => UInt8.ofNat c.toNat))
    (acc : Nat) :
    L1.foldl (fun acc c => acc * 10 + ((UInt8.ofNat c.toNat).toNat - 48)) acc =
      L2.foldl (fun acc c => acc * 10 + ((UInt8.ofNat c.toNat).toNat - 48)) acc := by
  induction L1 generalizing L2 acc with
  | nil =>
    cases L2 with
    | nil => rfl
    | cons b t => simp at h
  | cons a t ih =>
    cases L2 with
    | nil => simp at h
    | cons b t2 =>
      simp only [List.map_cons, List.cons.injEq] at h
      simp only [List.foldl_cons, h.1]
      exact ih t2 h.2 _

theorem intToString_bytes_inj (a b : Int)
    (h : (toString a).toList.map (fun c => UInt8.ofNat c.toNat) =
      (toString b).toList.map (fun c => UInt8.ofNat c.toNat)) : a = b := by
  have hminus : ∀ s : String, ("-" ++ s).toList = '-' :: s.toList := fun s => by
    simp [String.toList, String.data_append]
  cases a with
  | ofNat x =>
    obtain ⟨L1, e1, n1, d1, v1⟩ := natRepr_bytes x
    cases b with
    | ofNat y =>
      obtain ⟨L2, e2, -, -, v2⟩ := natRepr_bytes y
      have hx : toString (Int.ofNat x) = Nat.repr x := rfl
      have hy : toString (Int.ofNat y) = Nat.repr y := rfl
      rw [hx, hy, e1, e2] at h
      have := digits_val_congr L1 L2 h 0
      rw [v1, v2] at this
      rw [this]
    | negSucc y =>
      have hx : toString (Int.ofNat x) = Nat.repr x := rfl
      have hy : toString (Int.negSucc y) = "-" ++ Nat.repr (y + 1) := rfl
      rw [hx, hy, e1, hminus] at h
      cases L1 with
      | nil => exact absurd rfl n1
      | cons c t =>
        simp only [List.map_cons, List.cons.injEq] at h
        have := (d1 c (List.mem_cons_self _ _)).1
        rw [h.1] at this
        exact absurd this (by decide)
  | negSucc x =>
    obtain ⟨L1, e1, n1, d1, v1⟩ := natRepr_bytes (x + 1)
    have hx : toString (Int.negSucc x) = "-" ++ Nat.repr (x + 1) := rfl
    cases b with
    | ofNat y =>
      obtain ⟨L2, e2, n2, d2, v2⟩ := natRepr_bytes y
      have hy : toString (Int.ofNat y) = Nat.repr y := rfl
      rw [hx, hy, e2, hminus] at h
      cases L2 with
      | nil => exact absurd rfl n2
      | cons c t =>
        simp only [List.map_cons, List.cons.injEq] at h
        have := (d2 c (List.mem_cons_self _ _)).1
        rw [← h.1] at this
        exact absurd this (by decide)
    | negSucc y =>
      obtain ⟨L2, e2, -, -, v2⟩ := natRepr_bytes (y + 1)
      have hy : toString (Int.negSucc y) = "-" ++ Nat.repr (y + 1) := rfl
      rw [hx, hy, hminus, hminus, e1, e2] at h
      simp only [List.map_cons, List.cons.injEq, true_and] at h
      have := digits_val_congr L1 L2 h 0
      rw [v1, v2] at this
      have hxy : x = y := by omega
      rw [hxy]

/-- Distinct clock readings give distinct ids. -/
theorem newTodoID_injective (a b : Int) (h : newTodoID a = newTodoID b) : a = b := by
  apply intToString_bytes_inj
  have happ : ∀ s : String, ("todo_" ++ s).toList = "todo_".toList ++ s.toList := fun s => by
    simp [String.toList, String.data_append]
  simp only [newTodoID, ascii, happ, List.map_append] at h
  exact List.append_cancel_left h

theorem freshAdds_of_distinct (ops : List KeyEvent) (w0 : World) (T : List Int)
    (hops : ∀ e ∈ ops, IsAdminOp e)
    (hkeys : ∀ id ∈ w0.appData.TodoItems.keys, ∃ t ∈ T, id = newTodoID t)
    (hnd : (addClocks ops).Nodup) (hdisj : ∀ t ∈ addClocks ops, t ∉ T) :
    freshAdds ops w0 = true := by
  induction ops generalizing w0 T with
  | nil => rfl
  | cons e rest ih =>
    have hop : IsAdminOp e := hops e (List.mem_cons_self _ _)
    have hrest : ∀ e' ∈ rest, IsAdminOp e' := fun e' he' => hops e' (List.mem_cons_of_mem _ he')
    simp only [freshAdds, Bool.and_eq_true, decide_eq_true_eq]
    constructor
    · intro hadd hmem
      obtain ⟨t, ht, heq⟩ := hkeys _ hmem
      have hin : e.now ∈ addClocks (e :: rest) := by
        simp [addClocks, List.filter_cons, hadd]
      rw [newTodoID_injective _ _ heq] at hin
      exact hdisj t hin ht
    · cases hstep : Update e.now e.m w0 (.KeyMsg e.k) with
      | error p => rfl
      | ok r =>
        simp only []
        by_cases hadd : IsAdd e
        · have hcl : addClocks (e :: rest) = e.now :: addClocks rest := by
            simp [addClocks, List.filter_cons, hadd]
          rw [hcl] at hnd hdisj
          apply ih r.w (e.now :: T) hrest
          · intro id hid
            rcases adminOp_appData e w0 r hop hstep with ⟨-, -, hi⟩ | ⟨hi, -⟩ | ⟨hi, -⟩
            · rw [hi, GoMap.mem_keys_set] at hid
              rcases hid with hid | hid
              · exact ⟨e.now, List.mem_cons_self _ _, hid⟩
              · obtain ⟨t, ht, heq⟩ := hkeys id hid
                exact ⟨t, List.mem_cons_of_mem _ ht, heq⟩
            · rw [hi] at hid
              obtain ⟨t, ht, heq⟩ := hkeys id hid
              exact ⟨t, List.mem_cons_of_mem _ ht, heq⟩
            · rw [hi, GoMap.mem_keys_delete] at hid
              obtain ⟨t, ht, heq⟩ := hkeys id hid.1
              exact ⟨t, List.mem_cons_of_mem _ ht, heq⟩
          · exact (List.nodup_cons.mp hnd).2
          · intro t ht hmem
            rcases List.mem_cons.mp hmem with hmem | hmem
            · subst hmem
              exact (List.nodup_cons.mp hnd).1 ht
            · exact hdisj t (List.mem_cons_of_mem _ ht) hmem
        · have hcl : addClocks (e :: rest) = addClocks rest := by
            simp [addClocks, List.filter_cons, hadd]
          rw [hcl] at hnd hdisj
          apply ih r.w T hrest ?_ hnd hdisj
          intro id hid
          rcases adminOp_appData e w0 r hop hstep with ⟨h1, -, -⟩ | ⟨hi, -⟩ | ⟨hi, -⟩
          · exact absurd h1 hadd
          · rw [hi] at hid
            exact hkeys id hid
          · rw [hi, GoMap.mem_keys_delete] at hid
            exact hkeys id hid.1

/-- From the empty store, if no two Adds of a run are supplied the same clock reading,
every Add generates a fresh id and `TodoOrder` ends without duplicates. -/
theorem nodup_of_distinct_clocks (ops : List KeyEvent) (w : World)
    (hops : ∀ e ∈ ops, IsAdminOp e) (hrun : runOps ops World.empty = .ok w)
    (hnd : (addClocks ops).Nodup) :
    freshAdds ops World.empty = true ∧ w.appData.TodoOrder.Nodup := by
  have hfresh : freshAdds ops World.empty = true :=
    freshAdds_of_distinct ops World.empty [] hops (by simp [World.empty, GoMap.keys]) hnd
      (by simp)
  have h := runOps_invariant ops World.empty w hops (by simp [World.empty, GoMap.keys]) hrun
  exact ⟨hfresh, h.2 (by simp [World.empty]) hfresh⟩

/-! ### Cancel, deny and back -/

/-- C17: cancel, deny and back do not mutate.  `esc` in `adminEditView`, `n` or `esc` in
`adminDeleteConfirmView`, `q` or `esc` in `adminProgressView` and `q` or `esc` in
`todoDetailView` return the whole world unchanged (so `Users`, `TodoItems`, `TodoOrder`,
every stored object and the data file are as before) with a nil command; the mode becomes
`todoListView` from `todoDetailView` and `adminView` from the three admin modes. -/
theorem cancel_keeps_world (now : Int) (m : model) (w : World) (k : KeyMsg)
    (h : (m.mode = .adminEditView ∧ k.String = ascii "esc") ∨
      (m.mode = .adminDeleteConfirmView ∧ (k.String = ascii "n" ∨ k.String = ascii "esc")) ∨
      (m.mode = .adminProgressView ∧ (k.String = ascii "q" ∨ k.String = ascii "esc")) ∨
      (m.mode = .todoDetailView ∧ (k.String = ascii "q" ∨ k.String = ascii "esc"))) :
    ∃ r, Update now m w (.KeyMsg k) = .ok r ∧ r.w = w ∧ r.cmd = .nil ∧
      r.m.mode = (if m.mode = .todoDetailView then .todoListView else .adminView) := by
  rcases h with ⟨hm, hk⟩ | ⟨hm, hk⟩ | ⟨hm, hk⟩ | ⟨hm, hk⟩
  · refine ⟨⟨{ m with mode := .adminView }, w, .nil⟩, ?_, rfl, rfl, by simp [hm]⟩
    simp [Update, hm, updateAdminEditView, hk, ascii]
  · refine ⟨⟨{ m with deleteConfirmID := [], mode := .adminView }, w, .nil⟩, ?_, rfl, rfl,
      by simp [hm]⟩
    rcases hk with hk | hk <;> simp [Update, hm, updateAdminDeleteConfirmView, hk, ascii]
  · refine ⟨⟨{ m with mode := .adminView }, w, .nil⟩, ?_, rfl, rfl, by simp [hm]⟩
    rcases hk with hk | hk <;> simp [Update, hm, updateAdminProgressView, hk, ascii]
  · refine ⟨⟨{ m with mode := .todoListView, selectedTodo := none }, w, .nil⟩, ?_, rfl, rfl,
      by simp [hm]⟩
    rcases hk with hk | hk <;> simp [Update, hm, updateTodoDetailView, hk, ascii]

/-- The statement of `cancel_keeps_world` for `esc` in `adminDeleteConfirmView`. -/
theorem cancel_keeps_world_witness :
    ∃ r, Update 9 (deleteModel 1 (newTodoID 6)) laterAddsWorld (.KeyMsg keyEsc) = .ok r ∧
      r.w = laterAddsWorld ∧ r.cmd = .nil ∧
      r.m.mode = (if (deleteModel 1 (newTodoID 6)).mode = .todoDetailView then .todoListView
        else .adminView) :=
  cancel_keeps_world 9 (deleteModel 1 (newTodoID 6)) laterAddsWorld keyEsc
    (Or.inr (Or.inl ⟨by decide, Or.inr (by decide)⟩))

/-! ### Session start -/

/-- C16: session start mode.  For a store whose pointer for the identity (if any) refers to
a stored record, `initialModel` returns a model that is in `usernameView` exactly when the
identity has no record, in `adminView` exactly when its record has `IsAdmin = true`, and in
`todoListView` exactly when its record has `IsAdmin = false`; the cursor is 0, and
accepting the connection leaves the world as it was. -/
theorem session_start_mode (pk : GoString) (w : World) (sessions : List (Option model))
    (width height : Int)
    (hvalid : ∀ p, w.appData.Users.get pk = some p → p < w.userObjs.length) :
    ∃ m, initialModel pk w = .ok m ∧
      (m.mode = .usernameView ↔ w.userOf pk = none) ∧
      (m.mode = .adminView ↔ ∃ u, w.userOf pk = some u ∧ u.IsAdmin = true) ∧
      (m.mode = .todoListView ↔ ∃ u, w.userOf pk = some u ∧ u.IsAdmin = false) ∧
      m.cursor = 0 ∧ m.publicKey = pk ∧ m.user = w.appData.Users.get pk ∧
      System.step { world := w, sessions := sessions } (.connect pk width height) =
        .ok { world := w
              sessions := sessions ++ [some { m with width := width, height := height }] } := by
  cases hget : w.appData.Users.get pk with
  | none =>
    refine ⟨_, by simp [initialModel, hget]; rfl, ?_⟩
    simp [World.userOf, hget, System.step, initialModel]
  | some p =>
    have hp := hvalid p hget
    have hu : w.userObjs[p]? = some w.userObjs[p] := List.getElem?_eq_getElem hp
    by_cases hadm : w.userObjs[p].IsAdmin = true
    · refine ⟨_, by simp [initialModel, hget, deref, hu, hadm]; rfl, ?_⟩
      simp [World.userOf, hget, System.step, initialModel, deref, hu, hadm]
    · refine ⟨_, by simp [initialModel, hget, deref, hu, hadm]; rfl, ?_⟩
      simp [World.userOf, hget, System.step, initialModel, deref, hu, hadm]

/-- The statement of `session_start_mode` for the registered non-admin of `bobWorld`. -/
theorem session_start_mode_witness :
    ∃ m, initialModel bobKey bobWorld = .ok m ∧
      (m.mode = .usernameView ↔ bobWorld.userOf bobKey = none) ∧
      (m.mode = .adminView ↔ ∃ u, bobWorld.userOf bobKey = some u ∧ u.IsAdmin = true) ∧
      (m.mode = .todoListView ↔ ∃ u, bobWorld.userOf bobKey = some u ∧ u.IsAdmin = false) ∧
      m.cursor = 0 ∧ m.publicKey = bobKey ∧ m.user = bobWorld.appData.Users.get bobKey ∧
      System.step { world := bobWorld, sessions := [] } (.connect bobKey 80 24) =
        .ok { world := bobWorld
              sessions := [] ++ [some { m with width := 80, height := 24 }] } :=
  session_start_mode bobKey bobWorld [] 80 24 (by decide)

/-! ### Completion -/

theorem GoMap.set_set_self {V : Type} (m : GoMap V) (k : GoString) (v : V) :
    (m.set k v).set k v = m.set k v := by
  induction m with
  | nil => simp [GoMap.set]
  | cons e rest ih =>
    obtain ⟨a, b⟩ := e
    by_cases h : a = k
    · simp [GoMap.set, h]
    · simp [GoMap.set, h, ih]

theorem select_eq (m : model) (w : World) (k : KeyMsg) (id : GoString)
    (hk : k.String = ascii "enter") (h0 : 0 ≤ m.cursor)
    (h1 : m.cursor < w.appData.TodoOrder.length)
    (hid : w.appData.TodoOrder[m.cursor.toNat]? = some id) :
    updateTodoListView m w k =
      .ok ⟨{ m with selectedTodo := w.appData.TodoItems.get id, mode := .todoDetailView },
        w, .nil⟩ := by
  obtain ⟨x, hx, hx'⟩ := index_eq_ok w.appData.TodoOrder m.cursor h0 h1
  have hxi : x = id := by
    rw [hid] at hx'
    exact (Option.some.inj hx').symm
  subst hxi
  have hpos : (0 : Int) < w.appData.TodoOrder.length := by omega
  unfold updateTodoListView
  simp [hk, ascii, hpos, h1, hx]

theorem complete_eq (m : model) (w : World) (k : KeyMsg) (t up : Ptr) (todo : TodoItem)
    (u : User) (hk : k.String = ascii "c" ∨ k.String = ascii "enter")
    (hsel : m.selectedTodo = some t) (htodo : w.todoObjs[t]? = some todo)
    (huser : m.user = some up) (hu : w.userObjs[up]? = some u) :
    updateTodoDetailView m w k =
      .ok ⟨{ m with mode := .todoListView, selectedTodo := none },
        saveData { w with
          userObjs := w.userObjs.set up
            { u with Completions := u.Completions.set todo.ID true } }, .nil⟩ := by
  unfold updateTodoDetailView
  rcases hk with hk | hk <;> simp [hk, ascii, hsel, huser, deref, htodo, hu]

theorem selectAndComplete_eq (now : Int) (m : model) (w : World) (id : GoString)
    (t up : Ptr) (todo : TodoItem) (u : User)
    (hmode : m.mode = .todoListView) (h0 : 0 ≤ m.cursor)
    (h1 : m.cursor < w.appData.TodoOrder.length)
    (hid : w.appData.TodoOrder[m.cursor.toNat]? = some id)
    (hitem : w.appData.TodoItems.get id = some t) (htodo : w.todoObjs[t]? = some todo)
    (huser : m.user = some up) (hu : w.userObjs[up]? = some u) :
    selectAndComplete now m w =
      .ok ⟨{ m with mode := .todoListView, selectedTodo := none },
        saveData { w with
          userObjs := w.userObjs.set up
            { u with Completions := u.Completions.set todo.ID true } }, .nil⟩ := by
  have e1 : Update now m w (.KeyMsg keyEnter) =
      .ok ⟨{ m with selectedTodo := some t, mode := .todoDetailView }, w, .nil⟩ := by
    simp only [Update, hmode]
    rw [select_eq m w keyEnter id rfl h0 h1 hid, hitem]
  unfold selectAndComplete
  rw [e1]
  simp only [Update]
  exact complete_eq { m with selectedTodo := some t, mode := .todoDetailView } w (key "c") t up
    todo u (Or.inl rfl) rfl htodo huser hu

/-- C11: idempotent completion.  A session in `todoListView` whose user pointer refers to
the record stored for its identity selects the row under its cursor and completes it: the
sequence succeeds, the id of the selected item is then in that user's completions, and
running the same sequence once more from the resulting session and world returns exactly
the same world (hence the same completions) and the same session. -/
theorem completion_idempotent (now now2 : Int) (m : model) (w : World) (id : GoString)
    (t up : Ptr) (todo : TodoItem) (u : User)
    (hmode : m.mode = .todoListView) (h0 : 0 ≤ m.cursor)
    (h1 : m.cursor < w.appData.TodoOrder.length)
    (hid : w.appData.TodoOrder[m.cursor.toNat]? = some id)
    (hitem : w.appData.TodoItems.get id = some t) (htodo : w.todoObjs[t]? = some todo)
    (huser : m.user = some up) (hu : w.userObjs[up]? = some u)
    (hreg : w.appData.Users.get m.publicKey = some up) :
    ∃ r1, selectAndComplete now m w = .ok r1 ∧
      r1.m.mode = .todoListView ∧
      (∃ u1, r1.w.userOf m.publicKey = some u1 ∧ u1.Completions.get todo.ID = some true ∧
        u1.Username = u.Username ∧ u1.IsAdmin = u.IsAdmin) ∧
      selectAndComplete now2 r1.m r1.w = .ok r1 := by
  have hlt : up < w.userObjs.length := (List.getElem?_eq_some_iff.mp hu).1
  refine ⟨_, selectAndComplete_eq now m w id t up todo u hmode h0 h1 hid hitem htodo huser hu,
    rfl, ?_, ?_⟩
  · refine ⟨{ u with Completions := u.Completions.set todo.ID true }, ?_, ?_, rfl, rfl⟩
    · simp [World.userOf, saveData, hreg, List.getElem?_set, hlt]
    · exact GoMap.get_set_self _ _ _
  · have e2 := selectAndComplete_eq now2 { m with mode := .todoListView, selectedTodo := none }
      (saveData { w with
        userObjs := w.userObjs.set up { u with Completions := u.Completions.set todo.ID true } })
      id t up todo { u with Completions := u.Completions.set todo.ID true } rfl h0
      (by simpa [saveData] using h1) (by simpa [saveData] using hid)
      (by simpa [saveData] using hitem) (by simpa [saveData] using htodo) huser
      (by simp [saveData, List.getElem?_set, hlt])
    refine e2.trans ?_
    simp [saveData, marshal, GoMap.set_set_self, List.set_set]

/-- The statement of `completion_idempotent` for `bob` completing the only item. -/
theorem completion_idempotent_witness :
    ∃ r1, selectAndComplete 8 bobModel bobFreshWorld = .ok r1 ∧
      r1.m.mode = .todoListView ∧
      (∃ u1, r1.w.userOf bobModel.publicKey = some u1 ∧
        u1.Completions.get (TodoItem.mk (newTodoID 5) (ascii "x") []).ID = some true ∧
        u1.Username = (User.mk (ascii "bob") bobKey false []).Username ∧
        u1.IsAdmin = (User.mk (ascii "bob") bobKey false []).IsAdmin) ∧
      selectAndComplete 9 r1.m r1.w = .ok r1 :=
  completion_idempotent 8 9 bobModel bobFreshWorld (newTodoID 5) 0 1
    ⟨newTodoID 5, ascii "x", []⟩ ⟨ascii "bob", bobKey, false, []⟩
    (by decide) (by decide) (by decide) (by decide) (by decide) (by decide) (by decide)
    (by decide) (by decide)

/-! ### Edit buffers -/

theorem GoMap.mem_of_get {V : Type} (m : GoMap V) (k : GoString) (v : V)
    (h : m.get k = some v) : (k, v) ∈ m := by
  induction m with
  | nil => simp [GoMap.get] at h
  | cons e rest ih =>
    obtain ⟨a, b⟩ := e
    by_cases hk : a = k
    · simp [GoMap.get, hk] at h
      simp [hk, h]
    · simp [GoMap.get, hk] at h
      exact List.mem_cons_of_mem _ (ih h)

theorem itemsById_get (w : World) (hwf : ItemsById w) (id : GoString) (p : Ptr)
    (h : w.appData.TodoItems.get id = some p) :
    ∃ item, w.todoObjs[p]? = some item ∧ item.ID = id := by
  have := hwf (id, p) (GoMap.mem_of_get _ _ _ h)
  simp only [Option.map_eq_some'] at this
  exact this

theorem edit_found_eq (now : Int) (m : model) (w : World) (k : KeyMsg) (p : Ptr)
    (todo : TodoItem) (hk : k.String = ascii "enter" ∨ k.String = ascii "ctrl+s")
    (hid : m.editingID ≠ []) (hget : w.appData.TodoItems.get m.editingID = some p)
    (hobj : w.todoObjs[p]? = some todo) :
    updateAdminEditView now m w k =
      .ok ⟨{ m with mode := .adminView },
        saveData { w with
          todoObjs := w.todoObjs.set p
            { todo with Name := m.editName, Description := m.editDesc } }, .nil⟩ := by
  unfold updateAdminEditView
  rcases hk with hk | hk <;> simp [hk, hid, ascii, hget, deref, hobj]

theorem edit_missing_eq (now : Int) (m : model) (w : World) (k : KeyMsg)
    (hk : k.String = ascii "enter" ∨ k.String = ascii "ctrl+s")
    (hid : m.editingID ≠ []) (hget : w.appData.TodoItems.get m.editingID = none) :
    updateAdminEditView now m w k = .ok ⟨{ m with mode := .adminView }, saveData w, .nil⟩ := by
  unfold updateAdminEditView
  rcases hk with hk | hk <;> simp [hk, hid, ascii, hget]

/-- C15: edit changes only the target's name and description.  In `adminEditView` with a
target id, on a store whose items are stored by id, a save (`enter` or `ctrl+s`) succeeds
and returns to `adminView`; `Users`, `TodoItems` (keys and pointers), `TodoOrder` and all
user objects are unchanged; every item other than the target is unchanged; if the target
is a key of `TodoItems` its item now has the target id, the name buffer as name and the
description buffer as description, and if it is not a key no item object changes. -/
theorem edit_changes_target_only (now : Int) (m : model) (w : World) (k : KeyMsg)
    (hmode : m.mode = .adminEditView) (hid : m.editingID ≠ [])
    (hk : k.String = ascii "enter" ∨ k.String = ascii "ctrl+s") (hwf : ItemsById w) :
    ∃ r, Update now m w (.KeyMsg k) = .ok r ∧ r.m.mode = .adminView ∧
      r.w.appData = w.appData ∧ r.w.userObjs = w.userObjs ∧
      (∀ id, id ≠ m.editingID → r.w.itemOf id = w.itemOf id) ∧
      (m.editingID ∈ w.appData.TodoItems.keys →
        r.w.itemOf m.editingID =
          some { ID := m.editingID, Name := m.editName, Description := m.editDesc }) ∧
      (m.editingID ∉ w.appData.TodoItems.keys → r.w.todoObjs = w.todoObjs) := by
  have hu : Update now m w (.KeyMsg k) = updateAdminEditView now m w k := by
    simp only [Update, hmode]
  cases hget : w.appData.TodoItems.get m.editingID with
  | none =>
    have hnot : m.editingID ∉ w.appData.TodoItems.keys := (GoMap.get_eq_none_iff _ _).mp hget
    refine ⟨_, hu.trans (edit_missing_eq now m w k hk hid hget), rfl, rfl, rfl, ?_, ?_, ?_⟩
    · intro id _
      rfl
    · intro hin
      exact absurd hin hnot
    · intro _
      rfl
  | some p =>
    obtain ⟨todo, hobj, hID⟩ := itemsById_get w hwf _ p hget
    have hp : p < w.todoObjs.length := (List.getElem?_eq_some_iff.mp hobj).1
    refine ⟨_, hu.trans (edit_found_eq now m w k p todo hk hid hget hobj), rfl, rfl, rfl,
      ?_, ?_, ?_⟩
    · intro id hne
      simp only [World.itemOf, saveData]
      cases hq : w.appData.TodoItems.get id with
      | none => rfl
      | some q =>
        obtain ⟨other, hother, hoID⟩ := itemsById_get w hwf id q hq
        have hpq : p ≠ q := by
          intro e
          subst e
          rw [hobj] at hother
          cases hother
          exact hne (hoID.symm.trans hID)
        simp [List.getElem?_set, hpq]
    · intro _
      simp [World.itemOf, saveData, hget, List.getElem?_set, hp, hID]
    · intro hnot
      exact absurd hget (by
        rw [(GoMap.get_eq_none_iff _ _).mpr hnot]
        simp)

/-- The statement of `edit_changes_target_only` for a save that renames the second item of
`laterAddsWorld`. -/
theorem edit_changes_target_only_witness :
    ∃ r, Update 9 (updateModel (newTodoID 6) (ascii "C") (ascii "third")) laterAddsWorld
          (.KeyMsg keyEnter) = .ok r ∧
      r.m.mode = .adminView ∧
      r.w.appData = laterAddsWorld.appData ∧ r.w.userObjs = laterAddsWorld.userObjs ∧
      (∀ id, id ≠ (updateModel (newTodoID 6) (ascii "C") (ascii "third")).editingID →
        r.w.itemOf id = laterAddsWorld.itemOf id) ∧
      ((updateModel (newTodoID 6) (ascii "C") (ascii "third")).editingID ∈
          laterAddsWorld.appData.TodoItems.keys →
        r.w.itemOf (updateModel (newTodoID 6) (ascii "C") (ascii "third")).editingID =
          some { ID := (updateModel (newTodoID 6) (ascii "C") (ascii "third")).editingID,
                 Name := (updateModel (newTodoID 6) (ascii "C") (ascii "third")).editName,
                 Description :=
                   (updateModel (newTodoID 6) (ascii "C") (ascii "third")).editDesc }) ∧
      ((updateModel (newTodoID 6) (ascii "C") (ascii "third")).editingID ∉
          laterAddsWorld.appData.TodoItems.keys →
        r.w.todoObjs = laterAddsWorld.todoObjs) :=
  edit_changes_target_only 9 (updateModel (newTodoID 6) (ascii "C") (ascii "third"))
    laterAddsWorld keyEnter (by decide) (by decide) (Or.inl (by decide)) (by decide)

/-! ### Non-admin sessions -/

theorem set_getElem?_self {α : Type} (l : List α) (i : Nat) (a : α) (h : l[i]? = some a) :
    l.set i a = l := by
  induction l generalizing i with
  | nil => rfl
  | cons b t ih =>
    cases i with
    | zero =>
      simp at h
      simp [h]
    | succ n =>
      simp at h
      simp [ih n h]

theorem todoList_step (m : model) (w : World) (k : KeyMsg) (h0 : 0 ≤ m.cursor)
    (hmode : m.mode = .todoListView) :
    ∃ r, updateTodoListView m w k = .ok r ∧ r.w = w ∧ r.m.user = m.user ∧
      r.m.publicKey = m.publicKey ∧ 0 ≤ r.m.cursor ∧
      (r.m.mode = .todoListView ∨ r.m.mode = .todoDetailView) ∧
      (r.m.selectedTodo = m.selectedTodo ∨
        ∃ id, r.m.selectedTodo = w.appData.TodoItems.get id) := by
  obtain ⟨r, hr⟩ := todoList_index_in_range m w k h0
  refine ⟨r, hr, ?_⟩
  revert hr
  unfold updateTodoListView
  dsimp only
  split_ifs
  all_goals try split
  all_goals intro hr
  all_goals cases hr
  all_goals dsimp only
  all_goals refine ⟨rfl, rfl, rfl, by omega, ?_, ?_⟩
  all_goals first
    | exact Or.inl hmode
    | exact Or.inr rfl
    | exact Or.inl rfl
    | exact Or.inr ⟨_, rfl⟩

theorem todoDetail_step (m : model) (w : World) (k : KeyMsg) (up : Ptr) (u : User)
    (huser : m.user = some up) (hu : w.userObjs[up]? = some u)
    (hsel : ∀ t, m.selectedTodo = some t → t < w.todoObjs.length) :
    ∃ r, updateTodoDetailView m w k = .ok r ∧ r.w.appData = w.appData ∧
      r.w.todoObjs = w.todoObjs ∧ r.m.user = m.user ∧ r.m.publicKey = m.publicKey ∧
      r.m.cursor = m.cursor ∧ r.cmd = .nil ∧
      (r.m.mode = m.mode ∨ r.m.mode = .todoListView) ∧
      (r.m.selectedTodo = m.selectedTodo ∨ r.m.selectedTodo = none) ∧
      (r.w.userObjs = w.userObjs ∨
        ∃ id, r.w.userObjs =
          w.userObjs.set up { u with Completions := u.Completions.set id true }) := by
  by_cases c1 : k.String = ascii "q" ∨ k.String = ascii "esc"
  · refine ⟨⟨{ m with mode := .todoListView, selectedTodo := none }, w, .nil⟩, ?_, rfl, rfl,
      rfl, rfl, rfl, rfl, Or.inr rfl, Or.inr rfl, Or.inl rfl⟩
    unfold updateTodoDetailView
    simp only [c1, if_true]
  · by_cases c2 : k.String = ascii "c" ∨ k.String = ascii "enter"
    · cases hs : m.selectedTodo with
      | none =>
        refine ⟨⟨m, w, .nil⟩, ?_, rfl, rfl, rfl, rfl, rfl, rfl, Or.inl rfl, Or.inr hs,
          Or.inl rfl⟩
        unfold updateTodoDetailView
        simp only [c1, c2, if_true, if_false, hs]
      | some t =>
        have ht := hsel t hs
        have hobj : w.todoObjs[t]? = some w.todoObjs[t] := List.getElem?_eq_getElem ht
        refine ⟨_, complete_eq m w k t up _ u c2 hs hobj huser hu, rfl, rfl, rfl, rfl, rfl,
          rfl, Or.inr rfl, Or.inr rfl, Or.inr ⟨_, rfl⟩⟩
    · refine ⟨⟨m, w, .nil⟩, ?_, rfl, rfl, rfl, rfl, rfl, rfl, Or.inl rfl, Or.inl rfl,
        Or.inl rfl⟩
      unfold updateTodoDetailView
      simp only [c1, c2, if_false]

theorem todoList_cmd (m : model) (w : World) (k : KeyMsg) (r : Step)
    (h : updateTodoListView m w k = .ok r) (hq : r.cmd = .Quit) : r.m = m ∧ r.w = w := by
  revert h
  unfold updateTodoListView
  dsimp only
  split_ifs
  all_goals try split
  all_goals intro h
  all_goals cases h
  all_goals first
    | exact ⟨rfl, rfl⟩
    | cases hq

/-- What one key does to a non-admin session and the world. -/
theorem nonAdmin_step (now : Int) (m : model) (w : World) (k : KeyMsg) (up : Ptr) (u : User)
    (hmode : m.mode = .todoListView ∨ m.mode = .todoDetailView) (h0 : 0 ≤ m.cursor)
    (huser : m.user = some up) (hu : w.userObjs[up]? = some u)
    (hitems : ∀ e ∈ w.appData.TodoItems, e.2 < w.todoObjs.length)
    (hsel : ∀ t, m.selectedTodo = some t → t < w.todoObjs.length) :
    ∃ r u1, Update now m w (.KeyMsg k) = .ok r ∧
      (r.m.mode = .todoListView ∨ r.m.mode = .todoDetailView) ∧ 0 ≤ r.m.cursor ∧
      r.m.user = some up ∧ r.m.publicKey = m.publicKey ∧
      (∀ t, r.m.selectedTodo = some t → t < r.w.todoObjs.length) ∧
      r.w.appData = w.appData ∧ r.w.todoObjs = w.todoObjs ∧
      r.w.userObjs = w.userObjs.set up u1 ∧
      u1.Username = u.Username ∧ u1.PublicKey = u.PublicKey ∧ u1.IsAdmin = u.IsAdmin ∧
      (∀ id, u.Completions.get id = some true → u1.Completions.get id = some true) := by
  have hset : w.userObjs = w.userObjs.set up u := (set_getElem?_self _ _ _ hu).symm
  rcases hmode with hmode | hmode
  · obtain ⟨r, hr, hw, hu1, hpk, hc, hm, hs⟩ := todoList_step m w k h0 hmode
    refine ⟨r, u, by simp only [Update, hmode]; exact hr, hm, hc, hu1.trans huser, hpk, ?_,
      by rw [hw], by rw [hw], by rw [hw]; exact hset, rfl, rfl, rfl, fun _ h => h⟩
    intro t ht
    rw [hw]
    rcases hs with hs | ⟨id, hs⟩
    · exact hsel t (hs ▸ ht)
    · rw [hs] at ht
      exact hitems (id, t) (GoMap.mem_of_get _ _ _ ht)
  · obtain ⟨r, hr, ha, ht, hu1, hpk, hc, -, hm, hs, hobjs⟩ :=
      todoDetail_step m w k up u huser hu hsel
    have hmode' : r.m.mode = .todoListView ∨ r.m.mode = .todoDetailView := by
      rcases hm with hm | hm
      · exact Or.inr (hm.trans hmode)
      · exact Or.inl hm
    have hsel' : ∀ t, r.m.selectedTodo = some t → t < r.w.todoObjs.length := by
      intro t h
      rw [ht]
      rcases hs with hs | hs
      · exact hsel t (hs ▸ h)
      · rw [hs] at h
        cases h
    rcases hobjs with hobjs | ⟨id, hobjs⟩
    · exact ⟨r, u, by simp only [Update, hmode]; exact hr, hmode', by omega,
        hu1.trans huser, hpk, hsel', ha, ht, hobjs.trans hset, rfl, rfl, rfl, fun _ h => h⟩
    · refine ⟨r, _, by simp only [Update, hmode]; exact hr, hmode', by omega,
        hu1.trans huser, hpk, hsel', ha, ht, hobjs, rfl, rfl, rfl, ?_⟩
      intro id' h
      by_cases e : id' = id
      · subst e
        exact GoMap.get_set_self _ _ _
      · rw [GoMap.get_set_ne _ _ _ _ e]
        exact h

theorem sessionRun_nonAdmin (keys : List (Int × KeyMsg)) (m : model) (w : World) (up : Ptr)
    (u : User)
    (hmode : m.mode = .todoListView ∨ m.mode = .todoDetailView) (h0 : 0 ≤ m.cursor)
    (huser : m.user = some up) (hu : w.userObjs[up]? = some u)
    (hitems : ∀ e ∈ w.appData.TodoItems, e.2 < w.todoObjs.length)
    (hsel : ∀ t, m.selectedTodo = some t → t < w.todoObjs.length) :
    ∃ m1 w1 u1, sessionRun keys m w = .ok (m1, w1) ∧
      (m1.mode = .todoListView ∨ m1.mode = .todoDetailView) ∧
      m1.publicKey = m.publicKey ∧
      w1.appData = w.appData ∧ w1.todoObjs = w.todoObjs ∧
      w1.userObjs = w.userObjs.set up u1 ∧
      u1.Username = u.Username ∧ u1.PublicKey = u.PublicKey ∧ u1.IsAdmin = u.IsAdmin ∧
      (∀ id, u.Completions.get id = some true → u1.Completions.get id = some true) := by
  induction keys generalizing m w u with
  | nil =>
    exact ⟨m, w, u, rfl, hmode, rfl, rfl, rfl, (set_getElem?_self _ _ _ hu).symm, rfl, rfl, rfl,
      fun _ h => h⟩
  | cons e rest ih =>
    obtain ⟨now, k⟩ := e
    obtain ⟨r, u1, hr, hm, hc, hus, hpk, hs, ha, ht, hobjs, hn, hp, hadm, hsup⟩ :=
      nonAdmin_step now m w k up u hmode h0 huser hu hitems hsel
    simp only [sessionRun, hr]
    by_cases hq : r.cmd = .Quit
    · simp only [hq, if_true]
      exact ⟨r.m, r.w, u1, rfl, hm, hpk, ha, ht, hobjs, hn, hp, hadm, hsup⟩
    · simp only [hq, if_false]
      have hlt : up < w.userObjs.length := (List.getElem?_eq_some_iff.mp hu).1
      have hu1 : r.w.userObjs[up]? = some u1 := by
        rw [hobjs]
        simp [List.getElem?_set, hlt]
      obtain ⟨m2, w2, u2, hrun, hm2, hpk2, ha2, ht2, hobjs2, hn2, hp2, hadm2, hsup2⟩ :=
        ih r.m r.w u1 hm hc hus hu1 (by rw [ha, ht]; exact hitems) hs
      refine ⟨m2, w2, u2, hrun, hm2, hpk2.trans hpk, ha2.trans ha, ht2.trans ht, ?_,
        hn2.trans hn, hp2.trans hp, hadm2.trans hadm, fun id h => hsup2 id (hsup id h)⟩
      rw [hobjs2, hobjs, List.set_set]

/-- C20: non-admin confinement.  A session in `todoListView` or `todoDetailView` whose user
pointer refers to the record stored for its identity (a record no other identity shares),
on a store whose item pointers refer to stored objects, handles any finite sequence of key
events without a panic; afterwards the mode is still one of the two, `Users`, `TodoItems`,
`TodoOrder` and every item object are unchanged, the record of every other identity is
unchanged, and the session user's record keeps its name and admin flag while every id
that was completed is still completed. -/
theorem nonAdmin_confined (keys : List (Int × KeyMsg)) (m : model) (w : World) (up : Ptr)
    (u : User)
    (hmode : m.mode = .todoListView ∨ m.mode = .todoDetailView) (h0 : 0 ≤ m.cursor)
    (huser : m.user = some up) (hu : w.userObjs[up]? = some u)
    (hadmin : u.IsAdmin = false)
    (hreg : w.appData.Users.get m.publicKey = some up)
    (hinj : ∀ pk, w.appData.Users.get pk = some up → pk = m.publicKey)
    (hitems : ∀ e ∈ w.appData.TodoItems, e.2 < w.todoObjs.length)
    (hsel : ∀ t, m.selectedTodo = some t → t < w.todoObjs.length) :
    ∃ m1 w1 u1, sessionRun keys m w = .ok (m1, w1) ∧
      (m1.mode = .todoListView ∨ m1.mode = .todoDetailView) ∧
      w1.appData = w.appData ∧ w1.todoObjs = w.todoObjs ∧
      (∀ pk, pk ≠ m.publicKey → w1.userOf pk = w.userOf pk) ∧
      w1.userOf m.publicKey = some u1 ∧
      u1.Username = u.Username ∧ u1.IsAdmin = false ∧
      (∀ id, u.Completions.get id = some true → u1.Completions.get id = some true) := by
  obtain ⟨m1, w1, u1, hrun, hm, -, ha, ht, hobjs, hn, -, hadm, hsup⟩ :=
    sessionRun_nonAdmin keys m w up u hmode h0 huser hu hitems hsel
  have hlt : up < w.userObjs.length := (List.getElem?_eq_some_iff.mp hu).1
  refine ⟨m1, w1, u1, hrun, hm, ha, ht, ?_, ?_, hn, hadm.trans hadmin, hsup⟩
  · intro pk hpk
    simp only [World.userOf, ha, hobjs]
    cases hg : w.appData.Users.get pk with
    | none => rfl
    | some p =>
      have hne : up ≠ p := by
        intro e
        subst e
        exact hpk (hinj pk hg)
      simp [List.getElem?_set, hne]
  · simp [World.userOf, ha, hobjs, hreg, List.getElem?_set, hlt]

/-- The statement of `nonAdmin_confined` for `bob` selecting and completing the only item
and then pressing `q`. -/
theorem nonAdmin_confined_witness :
    ∃ m1 w1 u1, sessionRun [(1, keyEnter), (2, key "c"), (3, key "q"), (4, key "a")]
          bobModel bobFreshWorld = .ok (m1, w1) ∧
      (m1.mode = .todoListView ∨ m1.mode = .todoDetailView) ∧
      w1.appData = bobFreshWorld.appData ∧ w1.todoObjs = bobFreshWorld.todoObjs ∧
      (∀ pk, pk ≠ bobModel.publicKey → w1.userOf pk = bobFreshWorld.userOf pk) ∧
      w1.userOf bobModel.publicKey = some u1 ∧
      u1.Username = (User.mk (ascii "bob") bobKey false []).Username ∧ u1.IsAdmin = false ∧
      (∀ id, (User.mk (ascii "bob") bobKey false []).Completions.get id = some true →
        u1.Completions.get id = some true) :=
  nonAdmin_confined [(1, keyEnter), (2, key "c"), (3, key "q"), (4, key "a")] bobModel
    bobFreshWorld 1 ⟨ascii "bob", bobKey, false, []⟩ (Or.inl (by decide)) (by decide)
    (by decide) (by decide) (by decide) (by decide)
    (by
      intro pk h
      simp only [bobFreshWorld, bobWorld, GoMap.get] at h
      split_ifs at h with h1 h2 <;> first | exact h2.symm | cases h)
    (by decide) (by decide)

/-! ### Completion statistics -/

theorem countUsers_eq (heap : List User) (cond : User → Bool) (entries : List (GoString × Ptr))
    (n : Int) (hvalid : ∀ e ∈ entries, e.2 < heap.length) :
    countUsers heap cond entries n =
      .ok (n + (((entries.filterMap (fun e => heap[e.2]?)).filter cond).length : Int)) := by
  induction entries generalizing n with
  | nil => simp [countUsers]
  | cons e rest ih =>
    obtain ⟨k, p⟩ := e
    have hp : p < heap.length := hvalid (k, p) (List.mem_cons_self _ _)
    have hrest : ∀ e ∈ rest, e.2 < heap.length := fun e he =>
      hvalid e (List.mem_cons_of_mem _ he)
    have hget : heap[p]? = some heap[p] := List.getElem?_eq_getElem hp
    simp only [countUsers, deref, hget, List.filterMap_cons]
    rw [ih _ hrest]
    by_cases hc : cond heap[p] = true
    · simp only [hc, if_true, List.filter_cons_of_pos, List.length_cons]
      congr 1
      push_cast
      ring
    · simp only [hc, if_false, Bool.false_eq_true]
      rw [List.filter_cons_of_neg (by simpa using hc)]

/-- C14: the code fails to render a delete confirmation whose target is gone.  After
`staleDeleteSetup` the store is empty (order and items agree), both sessions belong to the
registered admin, and the first is in `adminDeleteConfirmView` with a target that another
session has deleted: its `View` dereferences the nil pointer `TodoItems[deleteConfirmID]`,
while the second session's `View` returns a screen. -/
theorem view_delete_confirm_nil_dereference :
    (System.run staleDeleteSetup System.init).toOption.map
        (fun s => (s.world.appData.TodoOrder, s.world.appData.TodoItems.keys,
          s.world.userOf adminKey)) =
        some ([], [], some { Username := ascii "a", PublicKey := adminKey, IsAdmin := true,
                             Completions := [] }) ∧
      (System.run staleDeleteSetup System.init).toOption.map
        (fun s => s.sessions.map (fun o => o.map (fun m => (m.mode, m.user)))) =
        some [some (.adminDeleteConfirmView, some 0), some (.adminView, some 0)] ∧
      (System.run staleDeleteSetup System.init).toOption.bind
        (fun s => (s.sessions[0]?).join.map (fun m => View m s.world)) =
        some (.error .nilDereference) ∧
      (System.run staleDeleteSetup System.init).toOption.map
        (fun s => s.sessions.map (fun o => o.map (fun m => renders (View m s.world)))) =
        some [some false, some true] := by
  decide

theorem deref_valid {α : Type} (heap : List α) (p : Ptr) (h : p < heap.length) :
    deref heap (some p) = .ok heap[p] := by
  simp [deref, List.getElem?_eq_getElem h]

theorem todoListRows_ok (m : model) (w : World) (user : User) (ids : List GoString) (i : Nat)
    (h : ∀ id ∈ ids, ∃ p, w.appData.TodoItems.get id = some p ∧ p < w.todoObjs.length) :
    ∃ rows, todoListRows m w user i ids = .ok rows := by
  induction ids generalizing i with
  | nil => exact ⟨[], rfl⟩
  | cons id rest ih =>
    obtain ⟨p, hp, hlt⟩ := h id (List.mem_cons_self _ _)
    obtain ⟨more, hmore⟩ := ih (i + 1) (fun x hx => h x (List.mem_cons_of_mem _ hx))
    simp only [todoListRows, hp, deref_valid _ p hlt, hmore]
    exact ⟨_, rfl⟩

/-- The list view renders whatever the cursor is: it only compares the cursor with the row
index. -/
theorem viewTodoList_ok (m : model) (w : World) (up : Ptr) (hmode : m.mode = .todoListView)
    (huser : m.user = some up) (hup : up < w.userObjs.length)
    (horder : ∀ id ∈ w.appData.TodoOrder,
      ∃ p, w.appData.TodoItems.get id = some p ∧ p < w.todoObjs.length) :
    ∃ s, View m w = .ok s := by
  obtain ⟨rows, hrows⟩ := todoListRows_ok m w w.userObjs[up] w.appData.TodoOrder 0 horder
  simp only [View, hmode, viewTodoList, huser, deref_valid _ up hup, hrows]
  split_ifs <;> exact ⟨_, rfl⟩

/-- The detail view renders an item that has been removed from `TodoItems`: the session
still holds the pointer to its object. -/
theorem viewTodoDetail_ok (m : model) (w : World) (up : Ptr)
    (hmode : m.mode = .todoDetailView) (huser : m.user = some up)
    (hup : up < w.userObjs.length)
    (hsel : ∀ t, m.selectedTodo = some t → t < w.todoObjs.length) :
    ∃ s, View m w = .ok s := by
  cases hs : m.selectedTodo with
  | none =>
    simp only [View, hmode, viewTodoDetail, hs]
    exact ⟨_, rfl⟩
  | some t =>
    simp only [View, hmode, viewTodoDetail, hs, deref_valid _ t (hsel t hs), huser,
      deref_valid _ up hup]
    split_ifs <;> exact ⟨_, rfl⟩

theorem admin_stats_count_aux (w : World) (todoID : GoString) (hvalid : UsersValid w) :
    completionsOf w todoID = .ok ((completionStatsSpec w todoID).1 : Int) := by
  have h2 := countUsers_eq w.userObjs
    (fun user => !user.IsAdmin && user.Completions.getBool todoID) w.appData.Users 0 hvalid
  simp only [completionsOf, h2, completionStatsSpec, zero_add]
  congr 3
  rw [List.filter_filter]
  congr 1
  funext u
  exact Bool.and_comm _ _

theorem adminRows_ok (m : model) (w : World) (total : Int) (ids : List GoString) (i : Nat)
    (hvalid : UsersValid w) (htotal : total > 0)
    (h : ∀ id ∈ ids, ∃ p, w.appData.TodoItems.get id = some p ∧ p < w.todoObjs.length) :
    ∃ rows, adminRows m w total i ids = .ok rows ∧
      ∀ id ∈ ids,
        Piece.styled .dim [.text (ascii " ("), .int ((completionStatsSpec w id).1 : Int),
          .text (ascii "/"), .int total, .text (ascii ")")] ∈ rows := by
  induction ids generalizing i with
  | nil => exact ⟨[], rfl, fun _ h => by simp at h⟩
  | cons id rest ih =>
    obtain ⟨p, hp, hlt⟩ := h id (List.mem_cons_self _ _)
    obtain ⟨more, hmore, hmem⟩ := ih (i + 1) (fun x hx => h x (List.mem_cons_of_mem _ hx))
    have hstats := (admin_stats_count_aux w id hvalid)
    simp only [adminRows, hstats, hp, deref_valid _ p hlt, hmore, htotal, if_true]
    refine ⟨_, rfl, ?_⟩
    intro x hx
    rcases List.mem_cons.mp hx with hx | hx
    · subst hx
      simp
    · have := hmem x hx
      simp [this]

/-- The admin view renders whatever the cursor is, and when there is a non-admin user the
row of every id shows the pair of the specification's CompletionStats. -/
theorem viewAdmin_ok (m : model) (w : World) (up : Ptr) (hmode : m.mode = .adminView)
    (huser : m.user = some up) (hup : up < w.userObjs.length) (hvalid : UsersValid w)
    (hsome : 0 < (completionStatsSpec w []).2)
    (horder : ∀ id ∈ w.appData.TodoOrder,
      ∃ p, w.appData.TodoItems.get id = some p ∧ p < w.todoObjs.length) :
    ∃ s, View m w = .ok s ∧
      ∀ id ∈ w.appData.TodoOrder,
        Piece.styled .dim [.text (ascii " ("), .int ((completionStatsSpec w id).1 : Int),
          .text (ascii "/"), .int ((completionStatsSpec w id).2 : Int), .text (ascii ")")]
          ∈ s := by
  have htot : totalNonAdmin w = .ok ((completionStatsSpec w []).2 : Int) := by
    simp [totalNonAdmin, countUsers_eq _ _ _ _ hvalid, completionStatsSpec]
  obtain ⟨rows, hrows, hmem⟩ := adminRows_ok m w
    ((completionStatsSpec w []).2 : Int) w.appData.TodoOrder 0 hvalid (by exact_mod_cast hsome)
    horder
  simp only [View, hmode, viewAdmin, huser, deref_valid _ up hup, htot, hrows]
  split_ifs with he
  · refine ⟨_, rfl, ?_⟩
    intro id hid
    rw [List.length_eq_zero.mp he] at hid
    simp at hid
  · refine ⟨_, rfl, ?_⟩
    intro id hid
    have := hmem id hid
    simp only [List.mem_append]
    exact Or.inl (Or.inr this)

/-! ### Persistence -/

theorem GoMap.mem_set {V : Type} (m : GoMap V) (k : GoString) (v : V) (e : GoString × V)
    (h : e ∈ m.set k v) : e = (k, v) ∨ e ∈ m := by
  induction m with
  | nil =>
    simp [GoMap.set] at h
    exact Or.inl h
  | cons a rest ih =>
    obtain ⟨a1, a2⟩ := a
    by_cases hk : a1 = k
    · simp only [GoMap.set, hk, if_true, List.mem_cons] at h
      rcases h with h | h
      · exact Or.inl h
      · exact Or.inr (List.mem_cons_of_mem _ h)
    · simp only [GoMap.set, hk, if_false, List.mem_cons] at h
      rcases h with h | h
      · exact Or.inr (by rw [h]; exact List.mem_cons_self _ _)
      · rcases ih h with h | h
        · exact Or.inl h
        · exact Or.inr (List.mem_cons_of_mem _ h)

theorem username_worldStep (m : model) (w : World) (k : KeyMsg) (r : Step)
    (h : updateUsernameView m w k = .ok r) : WorldStep m w r.w := by
  revert h
  unfold updateUsernameView
  split <;> (try split_ifs) <;> intro h <;> cases h
  all_goals first
    | exact Or.inl rfl
    | exact Or.inr (Or.inr (Or.inl ⟨_, rfl⟩))

theorem todoList_worldStep (m : model) (w : World) (k : KeyMsg) (r : Step)
    (h : updateTodoListView m w k = .ok r) : WorldStep m w r.w := by
  revert h
  unfold updateTodoListView
  dsimp only
  split_ifs
  all_goals try split
  all_goals intro h
  all_goals cases h
  all_goals exact Or.inl rfl

theorem todoDetail_worldStep (m : model) (w : World) (k : KeyMsg) (r : Step)
    (h : updateTodoDetailView m w k = .ok r) : WorldStep m w r.w := by
  revert h
  unfold updateTodoDetailView
  dsimp only
  split_ifs
  all_goals try split
  all_goals try split
  all_goals try split
  all_goals try split
  all_goals intro h
  all_goals cases h
  all_goals first
    | exact Or.inl rfl
    | exact Or.inr (Or.inr (Or.inr (Or.inl ⟨_, _, rfl⟩)))

theorem admin_worldStep (m : model) (w : World) (k : KeyMsg) (r : Step)
    (h : updateAdminView m w k = .ok r) : WorldStep m w r.w := by
  unfold updateAdminView at h
  by_cases c1 : k.String = ascii "q" ∨ k.String = ascii "ctrl+c"
  · rw [if_pos c1] at h; cases h; exact Or.inl rfl
  rw [if_neg c1] at h
  by_cases c2 : k.String = ascii "up" ∨ k.String = ascii "k"
  · rw [if_pos c2] at h
    split_ifs at h <;> cases h <;> exact Or.inl rfl
  rw [if_neg c2] at h
  by_cases c3 : k.String = ascii "down" ∨ k.String = ascii "j"
  · rw [if_pos c3] at h
    split_ifs at h <;> cases h <;> exact Or.inl rfl
  rw [if_neg c3] at h
  by_cases c4 : k.String = ascii "K"
  · rw [if_pos c4] at h
    split_ifs at h
    · split at h <;> cases h
      exact Or.inr (Or.inr (Or.inr (Or.inr (Or.inl ⟨_, rfl⟩))))
    · cases h; exact Or.inl rfl
  rw [if_neg c4] at h
  by_cases c5 : k.String = ascii "J"
  · rw [if_pos c5] at h
    split_ifs at h
    · split at h <;> cases h
      exact Or.inr (Or.inr (Or.inr (Or.inr (Or.inl ⟨_, rfl⟩))))
    · cases h; exact Or.inl rfl
  rw [if_neg c5] at h
  by_cases c6 : k.String = ascii "a"
  · rw [if_pos c6] at h; cases h; exact Or.inl rfl
  rw [if_neg c6] at h
  by_cases c7 : k.String = ascii "e"
  · rw [if_pos c7] at h
    split_ifs at h
    · split at h
      · cases h
      · split at h <;> cases h
        exact Or.inl rfl
    · cases h; exact Or.inl rfl
  rw [if_neg c7] at h
  by_cases c8 : k.String = ascii "d"
  · rw [if_pos c8] at h
    split_ifs at h
    · split at h <;> cases h
      exact Or.inl rfl
    · cases h; exact Or.inl rfl
  rw [if_neg c8] at h
  by_cases c9 : k.String = ascii "p"
  · rw [if_pos c9] at h; cases h; exact Or.inl rfl
  rw [if_neg c9] at h
  cases h
  exact Or.inl rfl

theorem adminEdit_worldStep (now : Int) (m : model) (w : World) (k : KeyMsg) (r : Step)
    (h : updateAdminEditView now m w k = .ok r) : WorldStep m w r.w := by
  by_cases c4 : k.String = ascii "enter" ∨ k.String = ascii "ctrl+s"
  · by_cases hid : m.editingID = []
    · rw [add_ok now m w k c4 hid] at h
      cases h
      exact Or.inr (Or.inr (Or.inr (Or.inr (Or.inr (Or.inl
        ⟨⟨newTodoID now, m.editName, m.editDesc⟩, rfl⟩)))))
    · cases hget : w.appData.TodoItems.get m.editingID with
      | none =>
        rw [edit_missing_eq now m w k c4 hid hget] at h
        cases h
        exact Or.inr (Or.inl rfl)
      | some p =>
        cases hobj : w.todoObjs[p]? with
        | none =>
          unfold updateAdminEditView at h
          rcases c4 with c | c <;> simp [c, hid, ascii, hget, deref, hobj] at h
        | some todo =>
          rw [edit_found_eq now m w k p todo c4 hid hget hobj] at h
          cases h
          exact Or.inr (Or.inr (Or.inr (Or.inr (Or.inr (Or.inr (Or.inl
            ⟨p, todo, ⟨todo.ID, m.editName, m.editDesc⟩, hobj, rfl, rfl⟩))))))
  · revert h
    unfold updateAdminEditView
    dsimp only
    rw [if_neg c4]
    split_ifs
    all_goals intro h
    all_goals cases h
    all_goals exact Or.inl rfl

theorem adminProgress_worldStep (m : model) (w : World) (k : KeyMsg) (r : Step)
    (h : updateAdminProgressView m w k = .ok r) : WorldStep m w r.w := by
  revert h
  unfold updateAdminProgressView
  dsimp only
  split_ifs <;> intro h <;> cases h <;> exact Or.inl rfl

theorem adminDelete_worldStep (m : model) (w : World) (k : KeyMsg) (r : Step)
    (h : updateAdminDeleteConfirmView m w k = .ok r) : WorldStep m w r.w := by
  by_cases c : k.String = ascii "y"
  · by_cases hne : w.appData.TodoOrder = []
    · rw [delete_empty_panics m w k c hne] at h
      cases h
    · rw [delete_ok m w k c hne] at h
      cases h
      exact Or.inr (Or.inr (Or.inr (Or.inr (Or.inr (Or.inr (Or.inr ⟨_, rfl⟩))))))
  · revert h
    unfold updateAdminDeleteConfirmView
    dsimp only
    rw [if_neg c]
    split_ifs <;> intro h <;> cases h <;> exact Or.inl rfl

/-- Every handled message changes the world in one of the ways of `WorldStep`. -/
theorem update_worldStep (now : Int) (m : model) (w : World) (msg : Msg) (r : Step)
    (h : Update now m w msg = .ok r) : WorldStep m w r.w := by
  cases msg with
  | WindowSizeMsg a b =>
    cases h
    exact Or.inl rfl
  | other =>
    cases h
    exact Or.inl rfl
  | KeyMsg k =>
    simp only [Update] at h
    split at h
    · exact username_worldStep m w k r h
    · exact todoList_worldStep m w k r h
    · exact todoDetail_worldStep m w k r h
    · exact admin_worldStep m w k r h
    · exact adminEdit_worldStep now m w k r h
    · exact adminProgress_worldStep m w k r h
    · exact adminDelete_worldStep m w k r h
theorem GoMap.nodup_keys_set {V : Type} (m : GoMap V) (k : GoString) (v : V)
    (h : (GoMap.keys m).Nodup) : (GoMap.keys (m.set k v)).Nodup := by
  induction m with
  | nil => simp [GoMap.set, GoMap.keys]
  | cons a rest ih =>
    obtain ⟨a1, a2⟩ := a
    simp only [GoMap.keys, List.map_cons, List.nodup_cons] at h
    by_cases hk : a1 = k
    · simp only [GoMap.set, hk, if_true, GoMap.keys, List.map_cons, List.nodup_cons]
      rw [← hk]
      exact h
    · simp only [GoMap.set, hk, if_false, GoMap.keys, List.map_cons, List.nodup_cons]
      refine ⟨?_, ih h.2⟩
      intro hmem
      rcases List.mem_map.1 hmem with ⟨e, he, hfst⟩
      rcases GoMap.mem_set rest k v e he with h1 | h1
      · rw [h1] at hfst
        exact hk hfst.symm
      · exact h.1 (List.mem_map.2 ⟨e, h1, hfst⟩)

theorem GoMap.nodup_keys_delete {V : Type} (m : GoMap V) (k : GoString)
    (h : (GoMap.keys m).Nodup) : (GoMap.keys (m.delete k)).Nodup :=
  List.Nodup.sublist (List.Sublist.map _ (List.filter_sublist _)) h

theorem itemsById_valid (w : World) (h : ItemsById w) : ItemsValid w := by
  intro e he
  have := h e he
  cases hobj : w.todoObjs[e.2]? with
  | none => rw [hobj] at this; cases this
  | some x => exact (List.getElem?_eq_some_iff.1 hobj).1

/-- Every way a handled message changes the world keeps the store well formed. -/
theorem worldWF_of_worldStep (m : model) (w w1 : World) (hwf : WorldWF w)
    (h : WorldStep m w w1) : WorldWF w1 := by
  obtain ⟨hu, hi, hku, hki, hinj⟩ := hwf
  rcases h with h | h | ⟨u, h⟩ | ⟨up, u1, h⟩ | ⟨order, h⟩ | ⟨item, h⟩ | ⟨p, todo, todo1, hobj, hid, h⟩ |
    ⟨id, h⟩
  · rw [h]; exact ⟨hu, hi, hku, hki, hinj⟩
  · rw [h]; exact ⟨hu, hi, hku, hki, hinj⟩
  · rw [h]
    refine ⟨?_, hi, GoMap.nodup_keys_set _ _ _ hku, hki, ?_⟩
    · intro e he
      show e.2 < (w.userObjs ++ [u]).length
      rw [List.length_append, List.length_singleton]
      rcases GoMap.mem_set _ _ _ e he with h1 | h1
      · rw [h1]; exact Nat.lt_succ_self _
      · exact Nat.lt_succ_of_lt (hu e h1)
    · intro e1 he1 e2 he2 heq
      rcases GoMap.mem_set _ _ _ e1 he1 with h1 | h1 <;>
        rcases GoMap.mem_set _ _ _ e2 he2 with h2 | h2
      · rw [h1, h2]
      · have := hu e2 h2
        rw [h1] at heq
        simp only at heq
        rw [← heq] at this
        exact absurd this (Nat.lt_irrefl _)
      · have := hu e1 h1
        rw [h2] at heq
        simp only at heq
        rw [heq] at this
        exact absurd this (Nat.lt_irrefl _)
      · exact hinj e1 h1 e2 h2 heq
  · rw [h]
    refine ⟨?_, hi, hku, hki, hinj⟩
    intro e he
    show e.2 < (w.userObjs.set up u1).length
    rw [List.length_set]
    exact hu e he
  · rw [h]; exact ⟨hu, hi, hku, hki, hinj⟩
  · rw [h]
    refine ⟨hu, ?_, hku, GoMap.nodup_keys_set _ _ _ hki, hinj⟩
    intro e he
    show ((w.todoObjs ++ [item])[e.2]?).map (fun i => i.ID) = some e.1
    rcases GoMap.mem_set _ _ _ e he with h1 | h1
    · rw [h1]
      simp
    · have hlt := itemsById_valid w hi e h1
      rw [List.getElem?_append_left hlt]
      exact hi e h1
  · rw [h]
    refine ⟨hu, ?_, hku, hki, hinj⟩
    intro e he
    show ((w.todoObjs.set p todo1)[e.2]?).map (fun i => i.ID) = some e.1
    have hold := hi e he
    by_cases hp : p = e.2
    · have hlt : p < w.todoObjs.length := (List.getElem?_eq_some_iff.1 hobj).1
      rw [← hp, hobj] at hold
      rw [← hp, List.getElem?_set, if_pos rfl, if_pos hlt]
      simp only [Option.map_some'] at hold ⊢
      rw [hid]
      exact hold
    · rw [List.getElem?_set_ne hp]
      exact hold
  · rw [h]
    refine ⟨hu, ?_, hku, GoMap.nodup_keys_delete _ _ hki, hinj⟩
    intro e he
    exact hi e (List.mem_of_mem_filter he)

/-- Handling a message keeps the store well formed. -/
theorem update_worldWF (now : Int) (m : model) (w : World) (msg : Msg) (r : Step)
    (hwf : WorldWF w) (h : Update now m w msg = .ok r) : WorldWF r.w :=
  worldWF_of_worldStep m w r.w hwf (update_worldStep now m w msg r h)

theorem step_worldWF (s s1 : System) (e : Event) (hwf : WorldWF s.world)
    (h : s.step e = .ok s1) : WorldWF s1.world := by
  cases e with
  | connect pk width height =>
    simp only [System.step] at h
    split at h
    · cases h
    · cases h
      exact hwf
  | deliver i now msg =>
    simp only [System.step] at h
    split at h
    · split at h
      · cases h
      · next r hr =>
        cases h
        exact update_worldWF now _ _ msg r hwf hr
    · cases h
      exact hwf

/-- The store is well formed in every state the server reaches from the empty store. -/
theorem run_worldWF (es : List Event) (s s1 : System) (hwf : WorldWF s.world)
    (h : System.run es s = .ok s1) : WorldWF s1.world := by
  induction es generalizing s with
  | nil =>
    cases h
    exact hwf
  | cons e rest ih =>
    simp only [System.run] at h
    split at h
    · cases h
    · next s2 hs2 => exact ih s2 (step_worldWF s s2 e hwf hs2) h

theorem init_worldWF : WorldWF System.init.world := by
  refine ⟨?_, ?_, ?_, ?_, ?_⟩
  · intro e he; cases he
  · intro e he; cases he
  · exact List.nodup_nil
  · exact List.nodup_nil
  · intro e he; cases he

/-- Every state of a run that starts with no data file has a well-formed store: the
hypotheses on the store that the theorems of this development carry hold there. -/
theorem reachable_worldWF (es : List Event) (s : System)
    (h : System.run es System.init = .ok s) :
    UsersValid s.world ∧ ItemsById s.world ∧ ItemsValid s.world ∧
      s.world.appData.Users.keys.Nodup ∧ s.world.appData.TodoItems.keys.Nodup ∧
      UsersInjective s.world := by
  obtain ⟨hu, hi, hku, hki, hinj⟩ := run_worldWF es System.init s init_worldWF h
  exact ⟨hu, hi, itemsById_valid s.world hi, hku, hki, hinj⟩

/-! ### A restart keeps the store well formed -/

/-- Filling a map from decoded records keeps pointers valid, keys distinct, objects
unshared, and any property the records have of their keys. -/
theorem loadRecords_wf {α : Type} (P : GoString → α → Prop)
    (recs : List (GoString × Option α)) (m0 : GoMap Ptr) (h0 : List α) (m1 : GoMap Ptr)
    (h1 : List α)
    (hrecs : ∀ k x, (k, some x) ∈ recs → P k x)
    (hv : ∀ e ∈ m0, e.2 < h0.length) (hk : (GoMap.keys m0).Nodup)
    (hinj : ∀ e1 ∈ m0, ∀ e2 ∈ m0, e1.2 = e2.2 → e1.1 = e2.1)
    (hP : ∀ e ∈ m0, ∀ x, h0[e.2]? = some x → P e.1 x)
    (h : loadRecords recs m0 h0 = some (m1, h1)) :
    (∀ e ∈ m1, e.2 < h1.length) ∧ (GoMap.keys m1).Nodup ∧
      (∀ e1 ∈ m1, ∀ e2 ∈ m1, e1.2 = e2.2 → e1.1 = e2.1) ∧
      (∀ e ∈ m1, ∀ x, h1[e.2]? = some x → P e.1 x) := by
  induction recs generalizing m0 h0 with
  | nil =>
    simp only [loadRecords, Option.some.injEq, Prod.mk.injEq] at h
    obtain ⟨rfl, rfl⟩ := h
    exact ⟨hv, hk, hinj, hP⟩
  | cons r rest ih =>
    obtain ⟨k, ox⟩ := r
    cases ox with
    | none => simp [loadRecords] at h
    | some x =>
      simp only [loadRecords] at h
      refine ih (m0.set k h0.length) (h0 ++ [x])
        (fun k1 x1 hm => hrecs k1 x1 (List.mem_cons_of_mem _ hm)) ?_
        (GoMap.nodup_keys_set _ _ _ hk) ?_ ?_ h
      · intro e he
        rw [List.length_append, List.length_singleton]
        rcases GoMap.mem_set _ _ _ e he with h1 | h1
        · rw [h1]; exact Nat.lt_succ_self _
        · exact Nat.lt_succ_of_lt (hv e h1)
      · intro e1 he1 e2 he2 heq
        rcases GoMap.mem_set _ _ _ e1 he1 with h1 | h1 <;>
          rcases GoMap.mem_set _ _ _ e2 he2 with h2 | h2
        · rw [h1, h2]
        · have := hv e2 h2
          rw [h1] at heq
          simp only at heq
          rw [← heq] at this
          exact absurd this (Nat.lt_irrefl _)
        · have := hv e1 h1
          rw [h2] at heq
          simp only at heq
          rw [heq] at this
          exact absurd this (Nat.lt_irrefl _)
        · exact hinj e1 h1 e2 h2 heq
      · intro e he y hy
        rcases GoMap.mem_set _ _ _ e he with h1 | h1
        · rw [h1] at hy ⊢
          simp only [List.getElem?_concat_length, Option.some.injEq] at hy
          rw [← hy]
          exact hrecs k x (List.mem_cons_self _ _)
        · have hlt := hv e h1
          rw [List.getElem?_append_left hlt] at hy
          exact hP e h1 y hy

/-- Loading the file a well-formed store wrote gives a well-formed store. -/
theorem load_worldWF (readBack : FileImage → Option FileImage) (w w1 : World)
    (hwf : WorldWF w) (hcodec : readBack (marshal w) = some (marshal w))
    (h : loadData readBack (restart w) = some w1) : WorldWF w1 := by
  obtain ⟨hu, hi, hku, hki, hinj⟩ := hwf
  simp only [loadData, restart, saveData, hcodec, unmarshalInto, World.empty] at h
  split at h
  · cases h
  · next users userObjs hl1 =>
    split at h
    · cases h
    · next items todoObjs hl2 =>
      cases h
      have r1 := loadRecords_wf (fun _ _ => True) _ ([] : GoMap Ptr) ([] : List User) _ _
        (fun _ _ _ => True.intro)
        (fun e he => by cases he) List.nodup_nil (fun e he => by cases he)
        (fun e he => by cases he) hl1
      have r2 := loadRecords_wf (fun k (x : TodoItem) => x.ID = k) _ ([] : GoMap Ptr)
        ([] : List TodoItem) _ _
        (by
          intro k x hm
          simp only [marshal, List.mem_map, Prod.mk.injEq] at hm
          obtain ⟨e, he, hk1, hx⟩ := hm
          have := hi e he
          rw [hx] at this
          simp only [Option.map_some', Option.some.injEq] at this
          rw [this, hk1])
        (fun e he => by cases he) List.nodup_nil (fun e he => by cases he)
        (fun e he => by cases he) hl2
      refine ⟨r1.1, ?_, r1.2.1, r2.2.1, r1.2.2.1⟩
      intro e he
      have hlt : e.2 < todoObjs.length := r2.1 e he
      have hget : todoObjs[e.2]? = some todoObjs[e.2] := List.getElem?_eq_getElem hlt
      have := r2.2.2.2 e he _ hget
      show (todoObjs[e.2]?).map (fun i => i.ID) = some e.1
      rw [hget]
      simp only [Option.map_some', Option.some.injEq]
      exact this

/-! ### Every session's pointers stay valid -/

/-- No handled message removes an object from a heap. -/
theorem worldStep_lengths (m : model) (w w1 : World) (h : WorldStep m w w1) :
    w.userObjs.length ≤ w1.userObjs.length ∧ w.todoObjs.length ≤ w1.todoObjs.length := by
  rcases h with h | h | ⟨u, h⟩ | ⟨up, u1, h⟩ | ⟨order, h⟩ | ⟨item, h⟩ | ⟨p, todo, todo1, -, -, h⟩ |
    ⟨id, h⟩ <;> rw [h] <;> simp [saveData]

theorem sessionWF_mono (m : model) (w w1 : World) (hs : SessionWF m w)
    (hl : w.userObjs.length ≤ w1.userObjs.length ∧ w.todoObjs.length ≤ w1.todoObjs.length) :
    SessionWF m w1 :=
  ⟨fun up hup => Nat.lt_of_lt_of_le (hs.1 up hup) hl.1,
    fun t ht => Nat.lt_of_lt_of_le (hs.2 t ht) hl.2⟩

theorem username_sessionWF (m : model) (w : World) (k : KeyMsg) (r : Step)
    (hs : SessionWF m w) (h : updateUsernameView m w k = .ok r) : SessionWF r.m r.w := by
  revert h
  unfold updateUsernameView
  split <;> (try split_ifs) <;> intro h <;> cases h
  all_goals first
    | exact hs
    | refine ⟨fun up hup => ?_, fun t ht => hs.2 t ht⟩
      simp only [Option.some.injEq] at hup
      rw [← hup]
      simp [saveData]

theorem todoList_sessionWF (m : model) (w : World) (k : KeyMsg) (r : Step)
    (hi : ItemsValid w) (hs : SessionWF m w) (h : updateTodoListView m w k = .ok r) :
    SessionWF r.m r.w := by
  revert h
  unfold updateTodoListView
  dsimp only
  split_ifs
  all_goals try split
  all_goals intro h
  all_goals cases h
  all_goals first
    | exact hs
    | exact ⟨hs.1, fun t ht => hi _ (GoMap.mem_of_get _ _ _ ht)⟩

theorem todoDetail_sessionWF (m : model) (w : World) (k : KeyMsg) (r : Step)
    (hs : SessionWF m w) (h : updateTodoDetailView m w k = .ok r) : SessionWF r.m r.w := by
  revert h
  unfold updateTodoDetailView
  dsimp only
  split_ifs
  all_goals try split
  all_goals try split
  all_goals try split
  all_goals try split
  all_goals intro h
  all_goals cases h
  all_goals first
    | exact hs
    | exact ⟨hs.1, fun t ht => by cases ht⟩
    | refine ⟨fun up hup => ?_, fun t ht => by cases ht⟩
      simp only [saveData, List.length_set]
      exact hs.1 up hup

theorem admin_model (m : model) (w : World) (k : KeyMsg) (r : Step)
    (h : updateAdminView m w k = .ok r) :
    r.m.user = m.user ∧ r.m.selectedTodo = m.selectedTodo := by
  unfold updateAdminView at h
  by_cases c1 : k.String = ascii "q" ∨ k.String = ascii "ctrl+c"
  · rw [if_pos c1] at h; cases h; exact ⟨rfl, rfl⟩
  rw [if_neg c1] at h
  by_cases c2 : k.String = ascii "up" ∨ k.String = ascii "k"
  · rw [if_pos c2] at h
    split_ifs at h <;> cases h <;> exact ⟨rfl, rfl⟩
  rw [if_neg c2] at h
  by_cases c3 : k.String = ascii "down" ∨ k.String = ascii "j"
  · rw [if_pos c3] at h
    split_ifs at h <;> cases h <;> exact ⟨rfl, rfl⟩
  rw [if_neg c3] at h
  by_cases c4 : k.String = ascii "K"
  · rw [if_pos c4] at h
    split_ifs at h
    · split at h <;> cases h
      exact ⟨rfl, rfl⟩
    · cases h; exact ⟨rfl, rfl⟩
  rw [if_neg c4] at h
  by_cases c5 : k.String = ascii "J"
  · rw [if_pos c5] at h
    split_ifs at h
    · split at h <;> cases h
      exact ⟨rfl, rfl⟩
    · cases h; exact ⟨rfl, rfl⟩
  rw [if_neg c5] at h
  by_cases c6 : k.String = ascii "a"
  · rw [if_pos c6] at h; cases h; exact ⟨rfl, rfl⟩
  rw [if_neg c6] at h
  by_cases c7 : k.String = ascii "e"
  · rw [if_pos c7] at h
    split_ifs at h
    · split at h
      · cases h
      · split at h <;> cases h
        exact ⟨rfl, rfl⟩
    · cases h; exact ⟨rfl, rfl⟩
  rw [if_neg c7] at h
  by_cases c8 : k.String = ascii "d"
  · rw [if_pos c8] at h
    split_ifs at h
    · split at h <;> cases h
      exact ⟨rfl, rfl⟩
    · cases h; exact ⟨rfl, rfl⟩
  rw [if_neg c8] at h
  by_cases c9 : k.String = ascii "p"
  · rw [if_pos c9] at h; cases h; exact ⟨rfl, rfl⟩
  rw [if_neg c9] at h
  cases h
  exact ⟨rfl, rfl⟩

theorem adminEdit_model (now : Int) (m : model) (w : World) (k : KeyMsg) (r : Step)
    (h : updateAdminEditView now m w k = .ok r) :
    r.m.user = m.user ∧ r.m.selectedTodo = m.selectedTodo := by
  by_cases c4 : k.String = ascii "enter" ∨ k.String = ascii "ctrl+s"
  · by_cases hid : m.editingID = []
    · rw [add_ok now m w k c4 hid] at h
      cases h
      exact ⟨rfl, rfl⟩
    · cases hget : w.appData.TodoItems.get m.editingID with
      | none =>
        rw [edit_missing_eq now m w k c4 hid hget] at h
        cases h
        exact ⟨rfl, rfl⟩
      | some p =>
        cases hobj : w.todoObjs[p]? with
        | none =>
          unfold updateAdminEditView at h
          rcases c4 with c | c <;> simp [c, hid, ascii, hget, deref, hobj] at h
        | some todo =>
          rw [edit_found_eq now m w k p todo c4 hid hget hobj] at h
          cases h
          exact ⟨rfl, rfl⟩
  · revert h
    unfold updateAdminEditView
    dsimp only
    rw [if_neg c4]
    split_ifs
    all_goals intro h
    all_goals cases h
    all_goals exact ⟨rfl, rfl⟩

theorem adminProgress_model (m : model) (w : World) (k : KeyMsg) (r : Step)
    (h : updateAdminProgressView m w k = .ok r) :
    r.m.user = m.user ∧ r.m.selectedTodo = m.selectedTodo := by
  revert h
  unfold updateAdminProgressView
  dsimp only
  split_ifs <;> intro h <;> cases h <;> exact ⟨rfl, rfl⟩

theorem adminDelete_model (m : model) (w : World) (k : KeyMsg) (r : Step)
    (h : updateAdminDeleteConfirmView m w k = .ok r) :
    r.m.user = m.user ∧ r.m.selectedTodo = m.selectedTodo := by
  by_cases c : k.String = ascii "y"
  · by_cases hne : w.appData.TodoOrder = []
    · rw [delete_empty_panics m w k c hne] at h
      cases h
    · rw [delete_ok m w k c hne] at h
      cases h
      exact ⟨rfl, rfl⟩
  · revert h
    unfold updateAdminDeleteConfirmView
    dsimp only
    rw [if_neg c]
    split_ifs <;> intro h <;> cases h <;> exact ⟨rfl, rfl⟩

theorem sessionWF_of_model (m : model) (w : World) (r : Step) (hs : SessionWF m w)
    (hstep : WorldStep m w r.w)
    (hm : r.m.user = m.user ∧ r.m.selectedTodo = m.selectedTodo) : SessionWF r.m r.w := by
  have hl := worldStep_lengths m w r.w hstep
  refine ⟨fun up hup => ?_, fun t ht => ?_⟩
  · rw [hm.1] at hup
    exact Nat.lt_of_lt_of_le (hs.1 up hup) hl.1
  · rw [hm.2] at ht
    exact Nat.lt_of_lt_of_le (hs.2 t ht) hl.2

/-- Handling a message keeps the pointers of the handling session valid. -/
theorem update_sessionWF (now : Int) (m : model) (w : World) (msg : Msg) (r : Step)
    (hi : ItemsValid w) (hs : SessionWF m w) (h : Update now m w msg = .ok r) :
    SessionWF r.m r.w := by
  have hstep := update_worldStep now m w msg r h
  cases msg with
  | WindowSizeMsg a b =>
    cases h
    exact hs
  | other =>
    cases h
    exact hs
  | KeyMsg k =>
    simp only [Update] at h
    split at h
    · exact username_sessionWF m w k r hs h
    · exact todoList_sessionWF m w k r hi hs h
    · exact todoDetail_sessionWF m w k r hs h
    · exact sessionWF_of_model m w r hs hstep (admin_model m w k r h)
    · exact sessionWF_of_model m w r hs hstep (adminEdit_model now m w k r h)
    · exact sessionWF_of_model m w r hs hstep (adminProgress_model m w k r h)
    · exact sessionWF_of_model m w r hs hstep (adminDelete_model m w k r h)

theorem initialModel_sessionWF (pk : GoString) (w : World) (m : model) (hu : UsersValid w)
    (h : initialModel pk w = .ok m) (width height : Int) :
    SessionWF { m with width := width, height := height } w := by
  have key : m.user = w.appData.Users.get pk ∧ m.selectedTodo = none := by
    revert h
    unfold initialModel
    dsimp only
    split
    · intro h; cases h; exact ⟨rfl, rfl⟩
    · split
      · intro h; cases h
      · split_ifs <;> intro h <;> cases h <;> exact ⟨rfl, rfl⟩
  refine ⟨fun up hup => ?_, fun t ht => ?_⟩
  · have : m.user = some up := hup
    rw [key.1] at this
    exact hu _ (GoMap.mem_of_get _ _ _ this)
  · have : m.selectedTodo = some t := ht
    rw [key.2] at this
    cases this

theorem step_systemWF (s s1 : System) (e : Event) (hwf : SystemWF s)
    (h : s.step e = .ok s1) : SystemWF s1 := by
  refine ⟨step_worldWF s s1 e hwf.1 h, ?_⟩
  cases e with
  | connect pk width height =>
    simp only [System.step] at h
    split at h
    · cases h
    · next m0 hm0 =>
      cases h
      intro m hm
      simp only [List.mem_append, List.mem_singleton, Option.some.injEq] at hm
      rcases hm with hm | hm
      · exact hwf.2 m hm
      · rw [hm]
        exact initialModel_sessionWF pk s.world m0 hwf.1.1 hm0 width height
  | deliver i now msg =>
    simp only [System.step] at h
    split at h
    · next m0 hm0 =>
      split at h
      · cases h
      · next r hr =>
        cases h
        have hmem0 : some m0 ∈ s.sessions := by
          obtain ⟨hlt, hget⟩ := List.getElem?_eq_some_iff.1 hm0
          rw [← hget]
          exact List.getElem_mem hlt
        have hstep := update_worldStep now m0 s.world msg r hr
        have hl := worldStep_lengths m0 s.world r.w hstep
        have hr1 := update_sessionWF now m0 s.world msg r
          (itemsById_valid s.world hwf.1.2.1) (hwf.2 m0 hmem0) hr
        intro m hm
        rcases List.mem_or_eq_of_mem_set hm with hm | hm
        · exact sessionWF_mono m s.world r.w (hwf.2 m hm) hl
        · by_cases hq : r.cmd = .Quit
          · rw [if_pos hq] at hm
            cases hm
          · rw [if_neg hq, Option.some.injEq] at hm
            rw [hm]
            exact hr1
    · cases h
      exact hwf.2

/-- In every state the server reaches from the empty store, the store is well formed and
every live session holds pointers to stored objects only. -/
theorem run_systemWF (es : List Event) (s s1 : System) (hwf : SystemWF s)
    (h : System.run es s = .ok s1) : SystemWF s1 := by
  induction es generalizing s with
  | nil =>
    cases h
    exact hwf
  | cons e rest ih =>
    simp only [System.run] at h
    split at h
    · cases h
    · next s2 hs2 => exact ih s2 (step_systemWF s s2 e hwf hs2) h

theorem init_systemWF : SystemWF System.init :=
  ⟨init_worldWF, fun m hm => by cases hm⟩

theorem reachable_systemWF (es : List Event) (s : System)
    (h : System.run es System.init = .ok s) : SystemWF s :=
  run_systemWF es System.init s init_systemWF h

/-! ### Lock discipline -/

theorem delete_accesses_undisciplined (m : model) (w : World) (k : KeyMsg)
    (hmode : m.mode = .adminDeleteConfirmView) (hk : k.String = ascii "y")
    (hne : w.appData.TodoOrder ≠ []) :
    disciplined .free (UpdateAccesses m w (.KeyMsg k)) = false := by
  have hlen : ¬ ((w.appData.TodoOrder.length : Int) - 1 < 0) := by
    have : 0 < w.appData.TodoOrder.length := List.length_pos.2 hne
    omega
  simp only [UpdateAccesses, hmode, updateAdminDeleteConfirmViewAccesses, hk, if_true, hlen,
    if_false]
  rfl

/-- C19 fails on the code: the admin registers, adds one item, presses `d` and then `y`.
The delete succeeds and returns to `adminView`; its accesses end with a read of
`TodoOrder` after `Unlock`, so the handler does not keep the discipline. -/
theorem delete_reads_order_unlocked :
    (System.run deleteSetup System.init).toOption.bind (fun s =>
        (s.sessions[0]?).join.map (fun m =>
          (m.mode, s.world.appData.TodoOrder,
            ((Update 7 m s.world (.KeyMsg (key "y"))).toOption.map (fun r => r.m.mode)),
            UpdateAccesses m s.world (.KeyMsg (key "y")),
            disciplined .free (UpdateAccesses m s.world (.KeyMsg (key "y")))))) =
      some (.adminDeleteConfirmView, [newTodoID 5], some .adminView,
        [.Lock, .write .TodoItems, .read .TodoOrder, .read .TodoOrder, .write .TodoOrder,
          .saveData, .Unlock, .read .TodoOrder], false) := by
  decide

/-- Everywhere else the key handlers keep the discipline: the log of `Update` is
disciplined unless the message is the key `y` in `adminDeleteConfirmView`; so is
`initialModel`. -/
theorem accesses_disciplined_elsewhere (m : model) (w : World) (msg : Msg)
    (h : ∀ k, msg = .KeyMsg k → m.mode = .adminDeleteConfirmView → k.String ≠ ascii "y") :
    disciplined .free (UpdateAccesses m w msg) = true ∧
      disciplined .free initialModelAccesses = true := by
  refine ⟨?_, rfl⟩
  cases msg with
  | WindowSizeMsg a b => rfl
  | other => rfl
  | KeyMsg k =>
    simp only [UpdateAccesses]
    split
    · simp only [updateUsernameViewAccesses]
      split
      · split_ifs <;> rfl
      · rfl
    · simp only [updateTodoListViewAccesses]
      split_ifs
      · split <;> rfl
      · rfl
      · rfl
    · simp only [updateTodoDetailViewAccesses]
      split_ifs
      · rfl
      · split
        · rfl
        · split <;> rfl
      · rfl
    · simp only [updateAdminViewAccesses]
      split_ifs
      all_goals first
        | rfl
        | (split <;> rfl)
    · simp only [updateAdminEditViewAccesses]
      split_ifs
      · rfl
      · split <;> rfl
      · rfl
    · rfl
    · next hmode =>
      simp only [updateAdminDeleteConfirmViewAccesses, if_neg (h k rfl hmode)]
      rfl

theorem username_accesses_agree (m : model) (w : World) (k : KeyMsg) (r : Step)
    (h : updateUsernameView m w k = .ok r)
    (hlog : Access.saveData ∉ updateUsernameViewAccesses m k) : r.w = w := by
  unfold updateUsernameView at h
  unfold updateUsernameViewAccesses at hlog
  cases hkt : k.keyType <;> rw [hkt] at h hlog <;> simp only at h hlog
  all_goals try (split_ifs at h hlog <;> cases h <;> first | rfl | simp at hlog)
  all_goals (cases h; rfl)

theorem todoList_accesses_agree (m : model) (w : World) (k : KeyMsg) (r : Step)
    (h : updateTodoListView m w k = .ok r) : r.w = w := by
  revert h
  unfold updateTodoListView
  dsimp only
  split_ifs
  all_goals try split
  all_goals intro h
  all_goals cases h
  all_goals rfl

theorem todoDetail_accesses_agree (m : model) (w : World) (k : KeyMsg) (r : Step)
    (h : updateTodoDetailView m w k = .ok r)
    (hlog : Access.saveData ∉ updateTodoDetailViewAccesses m w k) : r.w = w := by
  unfold updateTodoDetailView at h
  unfold updateTodoDetailViewAccesses at hlog
  dsimp only at h hlog
  by_cases c1 : k.String = ascii "q" ∨ k.String = ascii "esc"
  · rw [if_pos c1] at h; cases h; rfl
  rw [if_neg c1] at h hlog
  by_cases c2 : k.String = ascii "c" ∨ k.String = ascii "enter"
  · rw [if_pos c2] at h hlog
    cases hsel : m.selectedTodo with
    | none => rw [hsel] at h; cases h; rfl
    | some t =>
      rw [hsel] at h hlog
      simp only at h hlog
      cases h1 : deref w.todoObjs (some t) with
      | error e => rw [h1] at h; cases h
      | ok todo =>
        rw [h1] at h hlog
        cases hu : m.user with
        | none => rw [hu] at h; cases h
        | some up =>
          rw [hu] at h hlog
          cases h2 : deref w.userObjs (some up) with
          | error e => simp [h2] at h
          | ok u =>
            rw [h2] at hlog
            simp at hlog
  · rw [if_neg c2] at h; cases h; rfl
theorem admin_accesses_agree (m : model) (w : World) (k : KeyMsg) (r : Step)
    (h : updateAdminView m w k = .ok r)
    (hlog : Access.saveData ∉ updateAdminViewAccesses m w k) : r.w = w := by
  unfold updateAdminView at h
  unfold updateAdminViewAccesses at hlog
  dsimp only at hlog
  by_cases c1 : k.String = ascii "q" ∨ k.String = ascii "ctrl+c"
  · rw [if_pos c1] at h; cases h; rfl
  rw [if_neg c1] at h
  by_cases c2 : k.String = ascii "up" ∨ k.String = ascii "k"
  · rw [if_pos c2] at h
    split_ifs at h <;> cases h <;> rfl
  rw [if_neg c2] at h
  by_cases c3 : k.String = ascii "down" ∨ k.String = ascii "j"
  · rw [if_pos c3] at h
    split_ifs at h <;> cases h <;> rfl
  rw [if_neg c3] at h
  by_cases c4 : k.String = ascii "K"
  · rw [if_pos c4] at h hlog
    by_cases cc : (w.appData.TodoOrder.length : Int) > 0 ∧ m.cursor > 0
    · rw [if_pos cc] at h hlog
      cases i1 : index w.appData.TodoOrder (m.cursor - 1) with
      | error e => simp [i1] at h
      | ok a =>
        cases i2 : index w.appData.TodoOrder m.cursor with
        | error e => simp [i1, i2] at h
        | ok b => simp [i1, i2] at hlog
    · rw [if_neg cc] at h; cases h; rfl
  rw [if_neg c4] at h hlog
  by_cases c5 : k.String = ascii "J"
  · rw [if_pos c5] at h hlog
    by_cases cc : (w.appData.TodoOrder.length : Int) > 0 ∧
        m.cursor < (w.appData.TodoOrder.length : Int) - 1
    · rw [if_pos cc] at h hlog
      cases i1 : index w.appData.TodoOrder (m.cursor + 1) with
      | error e => simp [i1] at h
      | ok a =>
        cases i2 : index w.appData.TodoOrder m.cursor with
        | error e => simp [i1, i2] at h
        | ok b => simp [i1, i2] at hlog
    · rw [if_neg cc] at h; cases h; rfl
  rw [if_neg c5] at h
  by_cases c6 : k.String = ascii "a"
  · rw [if_pos c6] at h; cases h; rfl
  rw [if_neg c6] at h
  by_cases c7 : k.String = ascii "e"
  · rw [if_pos c7] at h
    split_ifs at h
    · split at h
      · cases h
      · split at h <;> cases h
        rfl
    · cases h; rfl
  rw [if_neg c7] at h
  by_cases c8 : k.String = ascii "d"
  · rw [if_pos c8] at h
    split_ifs at h
    · split at h <;> cases h
      rfl
    · cases h; rfl
  rw [if_neg c8] at h
  by_cases c9 : k.String = ascii "p"
  · rw [if_pos c9] at h; cases h; rfl
  rw [if_neg c9] at h
  cases h
  rfl

theorem adminEdit_accesses_agree (now : Int) (m : model) (w : World) (k : KeyMsg) (r : Step)
    (h : updateAdminEditView now m w k = .ok r)
    (hlog : Access.saveData ∉ updateAdminEditViewAccesses m w k) : r.w = w := by
  by_cases c4 : k.String = ascii "enter" ∨ k.String = ascii "ctrl+s"
  · exfalso
    apply hlog
    unfold updateAdminEditViewAccesses
    dsimp only
    rw [if_pos c4]
    split_ifs
    · simp
    · split <;> simp
  · revert h
    unfold updateAdminEditView
    dsimp only
    rw [if_neg c4]
    split_ifs
    all_goals intro h
    all_goals cases h
    all_goals rfl

theorem adminProgress_world (m : model) (w : World) (k : KeyMsg) (r : Step)
    (h : updateAdminProgressView m w k = .ok r) : r.w = w := by
  revert h
  unfold updateAdminProgressView
  dsimp only
  split_ifs <;> intro h <;> cases h <;> rfl

theorem adminDelete_accesses_agree (m : model) (w : World) (k : KeyMsg) (r : Step)
    (h : updateAdminDeleteConfirmView m w k = .ok r)
    (hlog : Access.saveData ∉ updateAdminDeleteConfirmViewAccesses w k) : r.w = w := by
  by_cases c : k.String = ascii "y"
  · by_cases hne : w.appData.TodoOrder = []
    · rw [delete_empty_panics m w k c hne] at h
      cases h
    · exfalso
      apply hlog
      have hlen : ¬ ((w.appData.TodoOrder.length : Int) - 1 < 0) := by
        have : 0 < w.appData.TodoOrder.length := List.length_pos.2 hne
        omega
      simp only [updateAdminDeleteConfirmViewAccesses, c, if_true, hlen, if_false]
      simp
  · revert h
    unfold updateAdminDeleteConfirmView
    dsimp only
    rw [if_neg c]
    split_ifs <;> intro h <;> cases h <;> rfl

/-- The logs agree with the handlers on where the store is written: a handled message
whose log has no `saveData()` leaves the world as it was. -/
theorem accesses_agree (now : Int) (m : model) (w : World) (msg : Msg) (r : Step)
    (h : Update now m w msg = .ok r) (hlog : Access.saveData ∉ UpdateAccesses m w msg) :
    r.w = w := by
  cases msg with
  | WindowSizeMsg a b =>
    cases h
    rfl
  | other =>
    cases h
    rfl
  | KeyMsg k =>
    simp only [Update] at h
    simp only [UpdateAccesses] at hlog
    split at h
    · next hm => rw [hm] at hlog; exact username_accesses_agree m w k r h hlog
    · exact todoList_accesses_agree m w k r h
    · next hm => rw [hm] at hlog; exact todoDetail_accesses_agree m w k r h hlog
    · next hm => rw [hm] at hlog; exact admin_accesses_agree m w k r h hlog
    · next hm => rw [hm] at hlog; exact adminEdit_accesses_agree now m w k r h hlog
    · exact adminProgress_world m w k r h
    · next hm => rw [hm] at hlog; exact adminDelete_accesses_agree m w k r h hlog

end TodoSh
